import Mathlib

/-!
Ledger page engine: the page handle, its branch tracker, the merge resolver and
the fake storage.

A shallow embedding of `src/app/page_impl.cc`, `src/app/branch_tracker.cc`,
`src/app/merging/merge_resolver.cc` and `src/storage/fake/fake_page_storage.cc`.

Conventions of the embedding.

* Byte strings (`std::string`, `fidl::Array<uint8_t>`) are Lean strings, one
  character per byte.
* `PageImpl` talks to the abstract classes `storage::PageStorage` and
  `storage::Journal`.  Their behaviour is a parameter of the embedding: a record
  `PageStorage σ` of response functions over a storage state `σ`.
* Every request `PageImpl` sends to the storage is appended to a log
  (`World.calls`), so that "no journal is started" or "the journal is committed"
  can be stated for an arbitrary storage.
* A client callback that has run when the operation returns is the `some status`
  component of the result; `none` means the callback is still pending.
* The callback of `AddObjectFromLocal` runs inside the call, as on the fake
  storage.  The callback of `GetObject` does not: `PutReference` sends the
  request, and `PutReference_completion` is the storage serving it, in the state
  the handle has reached by then.
* Dereferencing a null `std::unique_ptr` is recorded in
  `World.undefined_behaviour`.
* A watcher container and a merge resolver keep the log of what they send out
  (`PageWatcherContainer.calls`, `MergeResolver.calls`); their lambdas are
  functions of their own (`diff_callback`, `Merge_callback`, ..), run when the
  other side answers.
* A loop that may not terminate (`FindCommonAncestor`) takes the number of
  iterations it may use.
* `std::sort` is a parameter `sort` of the conflict check: what it does with
  commits of equal timestamp is not fixed (`IsTimestampSort`).
* A `std::map` is the list of its pairs in ascending key order, a `std::set`
  the list of its elements in the order of its comparator; keys and ids are
  compared as `std::string` compares them, byte by byte (`stringLess`).
* `src/storage/impl/btree/btree_utils.cc` is not part of the sources at hand.
  The B-tree layer is modelled from its description and from
  `btree_utils_unittest.cc`: a tree is the list of its entries in ascending key
  order, and its root id is a function of that list.
-/

set_option autoImplicit false

/-! ## `src/storage/public/types.h` -/

namespace storage

abbrev PageId := String
abbrev CommitId := String
abbrev ObjectId := String
abbrev JournalId := String

/-- The priority at which the key value is downloaded, and the cache policy. -/
inductive KeyPriority where
  | EAGER
  | LAZY
  deriving DecidableEq, Repr

/-- An entry in a commit. -/
structure Entry where
  key : String
  object_id : ObjectId
  priority : KeyPriority
  deriving DecidableEq, Repr

/-- A change between two commit contents. -/
structure EntryChange where
  entry : Entry
  deleted : Bool
  deriving DecidableEq, Repr

inductive ChangeSource where
  | LOCAL
  | SYNC
  deriving DecidableEq, Repr

inductive JournalType where
  | IMPLICIT
  | EXPLICIT
  deriving DecidableEq, Repr

/-- The enumeration `storage::Status`. -/
inductive Status where
  | OK
  | IO_ERROR
  | NOT_FOUND
  | NO_SUCH_CHILD
  | FORMAT_ERROR
  | ILLEGAL_STATE
  | INTERNAL_IO_ERROR
  | OBJECT_ID_MISMATCH
  | NOT_CONNECTED_ERROR
  | NOT_IMPLEMENTED
  deriving DecidableEq, Repr

/-- A `storage::Journal*`: the journal object a `std::unique_ptr<Journal>` owns.
Distinct live journal objects have distinct pointers. -/
abbrev JournalPtr := String

/-- The part of the abstract classes `storage::PageStorage` and
`storage::Journal` that `PageImpl` calls, as response functions over a storage
state `σ`.

* `StartCommit` returns the status and the value left in the out-parameter
  `std::unique_ptr<Journal>* journal` (`none` is a null pointer).
* `AddObjectFromLocal` returns the arguments its callback is run with.
* `GetObject` returns the status its callback is run with, as the storage finds
  it at the moment it runs the callback; the callback is not run inside the
  call (`FakePageStorage::GetObject` queues it and posts `SendNextObject` 5 ms
  later), so other requests can be served in between.
* `Journal_Commit` returns `some (status, commit_id)` when the storage runs the
  commit callback before `Journal::Commit` returns, `none` when it keeps the
  callback for later. -/
structure PageStorage (σ : Type) where
  StartCommit : σ → CommitId → JournalType → (Status × Option JournalPtr) × σ
  AddObjectFromLocal : σ → String → Int → (Status × ObjectId) × σ
  GetObject : σ → ObjectId → Status × σ
  Journal_Put : σ → JournalPtr → String → ObjectId → KeyPriority → Status × σ
  Journal_Delete : σ → JournalPtr → String → Status × σ
  Journal_Commit : σ → JournalPtr → Option (Status × CommitId) × σ
  Journal_Rollback : σ → JournalPtr → Status × σ

/-- A request sent to the storage or to one of its journals. -/
inductive StorageCall where
  | StartCommit (commit_id : CommitId) (journal_type : JournalType)
  | AddObjectFromLocal (data : String) (size : Int)
  | GetObject (object_id : ObjectId)
  | Journal_Put (journal : JournalPtr) (key : String) (object_id : ObjectId)
      (priority : KeyPriority)
  | Journal_Delete (journal : JournalPtr) (key : String)
  | Journal_Commit (journal : JournalPtr)
  | Journal_Rollback (journal : JournalPtr)
  deriving DecidableEq, Repr

end storage

/-! ## The fake storage: `src/storage/fake/fake_page_storage.cc` -/

namespace storage

/-- `std::string::operator<` on the character lists: lexicographic order. -/
def charsLess : List Char → List Char → Bool
  | _, [] => false
  | [], _ :: _ => true
  | a :: as, b :: bs =>
    if a.toNat < b.toNat then true
    else if b.toNat < a.toNat then false
    else charsLess as bs

/-- `std::string::operator<`. -/
def stringLess (a b : String) : Bool := charsLess a.toList b.toList

/-- `std::map::find` on a map kept as the list of its pairs in key order. -/
def mapFind {V : Type} (key : String) : List (String × V) → Option V
  | [] => none
  | (k, v) :: rest => if k = key then some v else mapFind key rest

/-- The assignment `m[key] = value` on a `std::map` kept as the list of its pairs in
key order. -/
def mapAssign {V : Type} (key : String) (value : V) : List (String × V) → List (String × V)
  | [] => [(key, value)]
  | (k, v) :: rest =>
    if stringLess key k then (key, value) :: (k, v) :: rest
    else if key = k then (key, value) :: rest
    else (k, v) :: mapAssign key value rest

namespace fake

/-- The struct `FakeJournalDelegate::Entry`, with the fields the tests read. -/
structure FakeJournalDelegate.Entry where
  value : ObjectId
  deleted : Bool
  priority : KeyPriority
  deriving DecidableEq, Repr

/-- Modelled from the spec: the members of `FakeJournalDelegate`
(`fake_journal_delegate.h` and `.cc` are not among the sources): the id, which
is also the id of the commit the journal produces, the pending mutations by key,
and whether the journal was committed or rolled back (section 3, Journal: "must
terminate in commit or rollback"). -/
structure FakeJournalDelegate where
  autocommit_ : Bool
  id_ : CommitId
  is_committed_ : Bool
  is_rolled_back_ : Bool
  data_ : List (String × FakeJournalDelegate.Entry)
  commit_pending_ : Bool
  deriving DecidableEq, Repr

namespace FakeJournalDelegate

/-- Modelled from the spec: a journal just opened has no pending mutation and is
neither committed nor rolled back. -/
def create (autocommit : Bool) (id : CommitId) : FakeJournalDelegate :=
  { autocommit_ := autocommit, id_ := id, is_committed_ := false, is_rolled_back_ := false,
    data_ := [], commit_pending_ := false }

/-- Modelled from the spec: `FakeJournalDelegate::SetValue`, the **put** of
section 4.4: the key is recorded with the object id and priority, not deleted.
A journal that already terminated refuses. -/
def SetValue (key : String) (value : ObjectId) (priority : KeyPriority)
    (d : FakeJournalDelegate) : Status × FakeJournalDelegate :=
  if d.is_committed_ || d.is_rolled_back_ then (Status.ILLEGAL_STATE, d)
  else
    (Status.OK,
     { d with data_ := mapAssign key { value := value, deleted := false, priority := priority }
                d.data_ })

/-- Modelled from the spec: `FakeJournalDelegate::Delete`, the **delete** of
section 4.4: the key is marked deleted (scenario S2: "key2 marked deleted"); a
key the journal has not seen gets a default entry marked deleted. -/
def Delete (key : String) (d : FakeJournalDelegate) : Status × FakeJournalDelegate :=
  if d.is_committed_ || d.is_rolled_back_ then (Status.ILLEGAL_STATE, d)
  else
    let old : FakeJournalDelegate.Entry :=
      (mapFind key d.data_).getD { value := "", deleted := false, priority := KeyPriority.EAGER }
    (Status.OK, { d with data_ := mapAssign key { old with deleted := true } d.data_ })

/-- Modelled from the spec: `FakeJournalDelegate::Commit`, the **commit** of
section 4.4.  With `autocommit_` the commit is resolved at once with `OK` and
the journal id as the commit id; else the callback is kept. -/
def Commit (d : FakeJournalDelegate) : Option (Status × CommitId) × FakeJournalDelegate :=
  if d.is_committed_ || d.is_rolled_back_ then (some (Status.ILLEGAL_STATE, ""), d)
  else if d.autocommit_ then (some (Status.OK, d.id_), { d with is_committed_ := true })
  else (none, { d with commit_pending_ := true })

/-- Modelled from the spec: `FakeJournalDelegate::Rollback`, the **rollback** of
section 4.4: "always succeeds if never committed". -/
def Rollback (d : FakeJournalDelegate) : Status × FakeJournalDelegate :=
  if d.is_committed_ || d.is_rolled_back_ then (Status.ILLEGAL_STATE, d)
  else (Status.OK, { d with is_rolled_back_ := true })

end FakeJournalDelegate

/-- The members of `FakePageStorage`.  `random_ids_drawn_` counts the calls of
`RandomId` so far; the n-th call returns `RandomId n` for a function `RandomId`
that stands for `glue::RandBytes`. -/
structure FakePageStorage where
  page_id_ : PageId
  autocommit_ : Bool
  journals_ : List (String × Option FakeJournalDelegate)
  objects_ : List (ObjectId × String)
  random_ids_drawn_ : Nat
  deriving DecidableEq, Repr

namespace FakePageStorage

/-- `FakePageStorage::StartCommit`. The `FakeJournal` handed out is identified
with the id of its delegate. -/
def StartCommit (RandomId : Nat → String) (s : FakePageStorage) (_commit_id : CommitId)
    (_journal_type : JournalType) : (Status × Option JournalPtr) × FakePageStorage :=
  let delegate := FakeJournalDelegate.create s.autocommit_ (RandomId s.random_ids_drawn_)
  ((Status.OK, some delegate.id_),
   { s with journals_ := mapAssign delegate.id_ (some delegate) s.journals_,
            random_ids_drawn_ := s.random_ids_drawn_ + 1 })

/-- `FakePageStorage::AddObjectFromLocal`; `data` is what the socket holds. -/
def AddObjectFromLocal (RandomId : Nat → String) (s : FakePageStorage) (data : String)
    (size : Int) : (Status × ObjectId) × FakePageStorage :=
  let value := data
  if size ≥ 0 ∧ (value.length : Int) ≠ size then ((Status.IO_ERROR, ""), s)
  else
    let object_id := RandomId s.random_ids_drawn_
    ((Status.OK, object_id),
     { s with objects_ := mapAssign object_id value s.objects_,
              random_ids_drawn_ := s.random_ids_drawn_ + 1 })

/-- The request `FakePageStorage::GetObject` queues, as `SendNextObject` runs
it: the status passed to the callback. -/
def GetObject (s : FakePageStorage) (object_id : ObjectId) : Status × FakePageStorage :=
  match mapFind object_id s.objects_ with
  | none => (Status.NOT_FOUND, s)
  | some _ => (Status.OK, s)

/-- `FakePageStorage::GetObjectSynchronous`: the status and the content of the
object (empty when it is not found). -/
def GetObjectSynchronous (s : FakePageStorage) (object_id : ObjectId) : Status × String :=
  match mapFind object_id s.objects_ with
  | none => (Status.NOT_FOUND, "")
  | some content => (Status.OK, content)

/-- `FakePageStorage::GetEntryFromCommit`: the arguments passed to the callback.
`journals_[commit.GetId()]` creates a null entry for an id the map does not
hold. -/
def GetEntryFromCommit (s : FakePageStorage) (commit_id : CommitId) (key : String) :
    (Status × Entry) × FakePageStorage :=
  match mapFind commit_id s.journals_ with
  | none =>
    ((Status.NOT_FOUND, { key := "", object_id := "", priority := KeyPriority.EAGER }),
     { s with journals_ := mapAssign commit_id none s.journals_ })
  | some none =>
    ((Status.NOT_FOUND, { key := "", object_id := "", priority := KeyPriority.EAGER }), s)
  | some (some journal) =>
    match mapFind key journal.data_ with
    | none =>
      ((Status.NOT_FOUND, { key := "", object_id := "", priority := KeyPriority.EAGER }), s)
    | some entry =>
      ((Status.OK, { key := key, object_id := entry.value, priority := entry.priority }), s)

/-- The loop of `FakePageStorage::GetCommitContents` over the data of the
journal, in the order of the map.  `on_next` is the client's callback, with the
state `α` it keeps between calls; the result is the list of the entries passed
to `on_next`, in call order, and the state the callback is left in. -/
def GetCommitContents_loop {α : Type} (min_key : String) (on_next : α → Entry → Bool × α) :
    List (String × FakeJournalDelegate.Entry) → α → List Entry × α
  | [], a => ([], a)
  | (key, entry) :: data, a =>
    if min_key.isEmpty || !stringLess key min_key then
      if (on_next a { key := key, object_id := entry.value, priority := entry.priority }).1 then
        ({ key := key, object_id := entry.value, priority := entry.priority } ::
           (GetCommitContents_loop min_key on_next data
             (on_next a { key := key, object_id := entry.value,
                          priority := entry.priority }).2).1,
         (GetCommitContents_loop min_key on_next data
           (on_next a { key := key, object_id := entry.value,
                        priority := entry.priority }).2).2)
      else
        ([{ key := key, object_id := entry.value, priority := entry.priority }],
         (on_next a { key := key, object_id := entry.value, priority := entry.priority }).2)
    else GetCommitContents_loop min_key on_next data a

/-- What `FakePageStorage::GetCommitContents` does with its callbacks: the
entries passed to `on_next`, in call order, the state `on_next` is left in, and
the statuses passed to `on_done`, in call order. -/
structure ContentsCalls (α : Type) where
  on_next : List Entry
  state : α
  on_done : List Status

/-- `FakePageStorage::GetCommitContents` for the commit of id `commit_id`.
`min_key <= entry.first` is `!(entry.first < min_key)`;
`journals_[commit.GetId()]` creates a null entry for an id the map does not
hold. -/
def GetCommitContents {α : Type} (s : FakePageStorage) (commit_id : CommitId)
    (min_key : String) (on_next : α → Entry → Bool × α) (a : α) :
    ContentsCalls α × FakePageStorage :=
  match mapFind commit_id s.journals_ with
  | none =>
    ({ on_next := [], state := a, on_done := [Status.NOT_FOUND] },
     { s with journals_ := mapAssign commit_id none s.journals_ })
  | some none => ({ on_next := [], state := a, on_done := [Status.NOT_FOUND] }, s)
  | some (some journal) =>
    ({ on_next := (GetCommitContents_loop min_key on_next journal.data_ a).1,
       state := (GetCommitContents_loop min_key on_next journal.data_ a).2,
       on_done := [Status.OK] }, s)

/-- Modelled from the spec: a `FakeJournal` forwards each call to its delegate
(`fake_journal.cc` is not among the sources).  The delegate is owned by
`journals_`, where the journal finds it under its id. -/
def withDelegate {R : Type} (s : FakePageStorage) (journal : JournalPtr) (missing : R)
    (f : FakeJournalDelegate → R × FakeJournalDelegate) : R × FakePageStorage :=
  match mapFind journal s.journals_ with
  | some (some d) =>
    let r := f d
    (r.1, { s with journals_ := mapAssign journal (some r.2) s.journals_ })
  | _ => (missing, s)

/-- The fake storage behind the interface `PageImpl` uses. -/
def toPageStorage (RandomId : Nat → String) : PageStorage FakePageStorage where
  StartCommit := StartCommit RandomId
  AddObjectFromLocal := AddObjectFromLocal RandomId
  GetObject := GetObject
  Journal_Put := fun s j key object_id priority =>
    withDelegate s j Status.ILLEGAL_STATE (FakeJournalDelegate.SetValue key object_id priority)
  Journal_Delete := fun s j key =>
    withDelegate s j Status.ILLEGAL_STATE (FakeJournalDelegate.Delete key)
  Journal_Commit := fun s j =>
    withDelegate s j (some (Status.ILLEGAL_STATE, "")) FakeJournalDelegate.Commit
  Journal_Rollback := fun s j =>
    withDelegate s j Status.ILLEGAL_STATE FakeJournalDelegate.Rollback

end FakePageStorage

end fake

end storage

/-! ## Commits and objects as the storage hands them out -/

namespace storage

/-- What the accessors of `storage::Commit` return (`commit.h` is not among the
sources; `fake_commit.cc` implements `GetId`, `GetParentIds`, `GetTimestamp`
and `GetGeneration`). -/
structure Commit where
  id : CommitId
  parent_ids : List CommitId
  timestamp : Int
  generation : Nat
  deriving DecidableEq, Repr

/-- What the accessors of `storage::Object` return: `GetId`, and `GetData` with
its status and the bytes. -/
structure Object where
  id : ObjectId
  GetData : Status × String
  deriving DecidableEq, Repr

/-- The commit graph as the storage shows it at one moment: the answers of
`GetHeadCommitIds` and of `GetCommit` / `GetCommitSynchronous` (status and the
pointer left in the out-parameter, `none` for null). -/
structure CommitStorage where
  GetHeadCommitIds : Status × List CommitId
  GetCommitSynchronous : CommitId → Status × Option Commit

namespace fake

/-- The accessors of `FakeCommit` (`fake_commit.cc`): the id is the id of the
journal, there are no parents, timestamp and generation are 0. -/
def FakeCommit (journal : FakeJournalDelegate) : Commit :=
  { id := journal.id_, parent_ids := [], timestamp := 0, generation := 0 }

namespace FakePageStorage

/-- `FakePageStorage::GetCommitSynchronous`.  For an id whose delegate is null
the commit handed out has no journal behind it and is shown as `none`. -/
def GetCommitSynchronous (s : FakePageStorage) (commit_id : CommitId) :
    Status × Option Commit :=
  match mapFind commit_id s.journals_ with
  | none => (Status.NOT_FOUND, none)
  | some none => (Status.OK, none)
  | some (some journal) => (Status.OK, some (FakeCommit journal))

end FakePageStorage

end fake

end storage

/-! ## The B-tree layer, as section 4.2 of the specification describes it -/

namespace storage

namespace btree

/-- Modelled from the spec: a tree of the B-tree layer, by the entries it holds
in ascending key order (`btree_utils.cc` and `tree_node.cc` are not among the
sources).  Section 4.2: "the tree's shape depends only on the set of keys
present", and a node id is a function of the node's content (section 3), so
two trees with the same entries have the same root id. -/
abbrev Tree := List Entry

/-- Modelled from the spec: the walk of the tree up to a key (the
`Mutation::CopyUntil` declared in `tree_node.h`: "copies the entries until that
entry's key is equal to or greater than the given key"): the entries passed
over, and the rest of the tree. -/
def CopyUntil (key : String) : Tree → Tree × Tree
  | [] => ([], [])
  | entry :: tree =>
    if stringLess entry.key key then (entry :: (CopyUntil key tree).1, (CopyUntil key tree).2)
    else ([], entry :: tree)

/-- Modelled from the spec: the walk of **apply-changes** (section 4.2.2: "a
single ordered walk of the change stream interleaved with a walk of the tree"):
for each change the tree is walked up to the key of the change, an entry of
that key is dropped, and the entry of the change takes its place unless the
change is a deletion. -/
def ApplyChanges_walk : List EntryChange → Tree → Tree
  | [], tree => tree
  | change :: changes, tree =>
    (CopyUntil change.entry.key tree).1 ++
      ((if change.deleted then [] else [change.entry]) ++
        ApplyChanges_walk changes
          (match (CopyUntil change.entry.key tree).2 with
           | [] => []
           | entry :: rest => if entry.key = change.entry.key then rest else entry :: rest))

/-- Modelled from the spec: **apply-changes** (section 4.2.1): the tree after
the changes; it "fails if input is unsorted" (`none`), the input being sorted
when it is strictly increasing by key. -/
def ApplyChanges (base : Tree) (changes : List EntryChange) : Option Tree :=
  if changes.Pairwise (fun a b => stringLess a.entry.key b.entry.key = true) then
    some (ApplyChanges_walk changes base)
  else none

/-- Modelled from the spec: **for-each-diff** (section 4.2.1): the entry-level
diff from the tree `base` to the tree `other`, in ascending key order: an entry
of `base` whose key `other` does not hold is emitted as a deletion, an entry of
`other` whose key `base` does not hold, or holds with another value or
priority, is emitted with `deleted = false`, and an entry the two trees share
is not emitted. -/
def ForEachDiff (base : Tree) : Tree → List EntryChange
  | [] => base.map (fun entry => { entry := entry, deleted := true })
  | entry :: other =>
    (CopyUntil entry.key base).1.map (fun e => ({ entry := e, deleted := true } : EntryChange)) ++
      (match (CopyUntil entry.key base).2 with
       | [] => { entry := entry, deleted := false } :: ForEachDiff [] other
       | b :: rest =>
         if b.key = entry.key then
           if b = entry then ForEachDiff rest other
           else { entry := entry, deleted := false } :: ForEachDiff rest other
         else { entry := entry, deleted := false } :: ForEachDiff (b :: rest) other)

/-- Whether the diff `emitted` is the list of changes `changes`: change by
change the same `deleted`, for a deletion the same key, and else the same
entry (what the test `ForEachDiff` compares). -/
def sameChanges : List EntryChange → List EntryChange → Bool
  | [], [] => true
  | change :: changes, e :: emitted =>
    decide (change.deleted = e.deleted) &&
      (if e.deleted then decide (change.entry.key = e.entry.key)
       else decide (change.entry = e.entry)) &&
      sameChanges changes emitted
  | _, _ => false

/-- Whether a change really alters a tree: a deletion of a key the tree holds,
or an entry the tree does not hold (a new key, or a new value or priority for a
key it holds). -/
def Alters (tree : Tree) (change : EntryChange) : Prop :=
  if change.deleted then ∃ entry ∈ tree, entry.key = change.entry.key
  else change.entry ∉ tree

instance (tree : Tree) (change : EntryChange) : Decidable (Alters tree change) :=
  inferInstanceAs (Decidable (if change.deleted then ∃ entry ∈ tree, entry.key = change.entry.key
    else change.entry ∉ tree))

end btree

end storage

/-! ## The page handle: `src/app/branch_tracker.cc`, `src/app/page_impl.cc` -/

namespace ledger

open storage (CommitId ObjectId JournalPtr JournalType KeyPriority PageStorage StorageCall)

/-- Modelled from the spec: the client-visible enumeration `Status` (declared in
the interface definition of the page API, which is not among the sources);
the status codes of section 6.5. -/
inductive Status where
  | OK
  | IO_ERROR
  | NOT_FOUND
  | REFERENCE_NOT_FOUND
  | KEY_NOT_FOUND
  | NO_TRANSACTION_IN_PROGRESS
  | TRANSACTION_ALREADY_IN_PROGRESS
  | INTERNAL_ERROR
  deriving DecidableEq, Repr

/-- Modelled from the spec: the client-visible enumeration `Priority`. -/
inductive Priority where
  | EAGER
  | LAZY
  deriving DecidableEq, Repr

namespace PageUtils

/-- Modelled from the spec: the status `PageUtils::ConvertStatus` uses for
`NOT_FOUND` when the caller passes none (`page_utils.h` is not among the
sources; section 7 lists internal failures as `INTERNAL_ERROR`). -/
def kDefaultNotFoundStatus : Status := Status.INTERNAL_ERROR

/-- Modelled from the spec: `PageUtils::ConvertStatus` (`page_utils.cc` is not
among the sources).  `OK` and `IO_ERROR` are surfaced as they are, `NOT_FOUND`
becomes the status the caller names (`REFERENCE_NOT_FOUND` for a missing
reference, `KEY_NOT_FOUND` for a delete), every internal status becomes
`INTERNAL_ERROR` (sections 6.1, 6.5 and 7). -/
def ConvertStatus (status : storage.Status) (not_found_status : Status) : Status :=
  match status with
  | storage.Status.OK => Status.OK
  | storage.Status.IO_ERROR => Status.IO_ERROR
  | storage.Status.NOT_FOUND => not_found_status
  | _ => Status.INTERNAL_ERROR

end PageUtils

/-- Modelled from the spec: the interface struct `Entry` of a page change
(the interface definition is not among the sources): key, priority and the
value bytes (section 4.5.2), `none` while `value` is still null. -/
structure Entry where
  key : String
  value : Option String
  priority : Priority
  deriving DecidableEq, Repr

/-- Modelled from the spec: the interface struct `PageChange` (section 4.5.2):
timestamp of the new commit, ordered list of added or updated entries, ordered
list of deleted keys. -/
structure PageChange where
  timestamp : Int
  changes : List Entry
  deleted_keys : List String
  deriving DecidableEq, Repr

/-- What a `PageWatcherContainer` sends out: the calls on the watcher interface
(`OnInitialState` with the commit its snapshot is bound to, `none` for an
unbound snapshot; `OnChange`), the diff it asks the commit contents for, the
objects it fetches and the snapshots it binds. -/
inductive WatcherCall where
  | OnInitialState (snapshot : Option CommitId)
  | diff (base target : CommitId)
  | GetObject (object_id : ObjectId)
  | OnChange (page_change : PageChange)
  | BindPageSnapshot (commit : CommitId)
  deriving DecidableEq, Repr

/-- The members of `BranchTracker::PageWatcherContainer`.  A
`std::unique_ptr<const storage::Commit>` is represented by the id of the commit
it holds (`none` for a null pointer).  `new_commit` is the commit captured by
the callbacks of the notification in flight, `page_change` the page change
captured by `result_callback`, and `calls` the log of what the container sent
out. -/
structure PageWatcherContainer where
  change_in_flight_ : Bool
  last_commit_ : CommitId
  current_commit_ : Option CommitId
  new_commit : Option CommitId
  page_change : Option PageChange
  calls : List WatcherCall
  deriving DecidableEq, Repr

namespace PageWatcherContainer

/-- The synchronous part of `PageWatcherContainer::SendCommit`: nothing while a
change is in flight or when there is no commit other than the last one sent;
else the flag is raised and the diff from `last_commit_` to the commit moved out
of `current_commit_` is requested. -/
def SendCommit (c : PageWatcherContainer) : PageWatcherContainer :=
  if c.change_in_flight_ then c
  else
    match c.current_commit_ with
    | none => c
    | some current =>
      if c.last_commit_ = current then c
      else { c with change_in_flight_ := true, current_commit_ := none,
                    new_commit := some current,
                    calls := c.calls ++ [WatcherCall.diff c.last_commit_ current] }

/-- `PageWatcherContainer::UpdateCommit`, with `storage_->GetCommit` succeeding
as its `FTL_DCHECK` demands. -/
def UpdateCommit (commit_id : CommitId) (c : PageWatcherContainer) :
    PageWatcherContainer :=
  SendCommit { c with current_commit_ := some commit_id }

/-- The constructor `PageWatcherContainer::PageWatcherContainer`: the flag is
raised, the base commit is the last commit sent, and `OnInitialState` goes out
with the snapshot. -/
def create (base_commit : CommitId) (snapshot : Option CommitId) : PageWatcherContainer :=
  { change_in_flight_ := true, last_commit_ := base_commit, current_commit_ := none,
    new_commit := none, page_change := none,
    calls := [WatcherCall.OnInitialState snapshot] }

/-- The acknowledgement callback the constructor hands to `OnInitialState`. -/
def OnInitialState_callback (c : PageWatcherContainer) : PageWatcherContainer :=
  SendCommit { c with change_in_flight_ := false }

/-- The priority conversion written out in `diff_callback`. -/
def toPriority (priority : KeyPriority) : Priority :=
  if priority = KeyPriority.EAGER then Priority.EAGER else Priority.LAZY

/-- The loop of `diff_callback` over the diff iterator: deleted keys, changed
entries (value still null) and the objects requested, each in diff order. -/
def collect : List storage.EntryChange → List String × List Entry × List ObjectId
  | [] => ([], [], [])
  | e :: rest =>
    if e.deleted then
      (e.entry.key :: (collect rest).1, (collect rest).2.1, (collect rest).2.2)
    else
      ((collect rest).1,
       { key := e.entry.key, value := none, priority := toPriority e.entry.priority } ::
         (collect rest).2.1,
       e.entry.object_id :: (collect rest).2.2)

/-- The `diff_callback` of `SendCommit`, run with the status of the diff and the
entries its iterator yields (`it->Valid()` is "the list is not empty").
`GetTimestamp` gives the timestamp of the captured commit.  The callback exists
only while its notification is in flight (`new_commit` is set). -/
def diff_callback (GetTimestamp : CommitId → Int) (status : storage.Status)
    (it : List storage.EntryChange) (c : PageWatcherContainer) : PageWatcherContainer :=
  match c.new_commit with
  | none => c
  | some new_commit =>
    if status ≠ storage.Status.OK then
      -- This change notification is abandoned.
      { c with change_in_flight_ := false, new_commit := none }
    else if it.isEmpty then
      SendCommit { c with change_in_flight_ := false, last_commit_ := new_commit,
                          new_commit := none }
    else
      { c with
        page_change := some
          { timestamp := GetTimestamp new_commit, changes := (collect it).2.1,
            deleted_keys := (collect it).1 },
        calls := c.calls ++ (collect it).2.2.map WatcherCall.GetObject }

/-- The loop of `result_callback` over the fetched objects: the i-th changed
entry gets the bytes of the i-th object; `none` when reading an object fails
(the callback returns).  `results.size() == changes.size()` is its
`FTL_DCHECK`. -/
def setValues : List storage.Object → List Entry → Option (List Entry)
  | [], changes => some changes
  | _ :: _, [] => some []
  | object :: results, entry :: changes =>
    if object.GetData.1 ≠ storage.Status.OK then none
    else
      match setValues results changes with
      | none => none
      | some rest => some ({ entry with value := some object.GetData.2 } :: rest)

/-- The `result_callback` of `SendCommit`, run by the waiter with its status and
the objects fetched, in the order they were requested.  On a failure it only
returns: the captured commit and page change are dropped and
`change_in_flight_` keeps its value. -/
def result_callback (status : storage.Status) (results : List storage.Object)
    (c : PageWatcherContainer) : PageWatcherContainer :=
  match c.new_commit, c.page_change with
  | some _, some page_change =>
    if status ≠ storage.Status.OK then
      { c with new_commit := none, page_change := none }
    else
      match setValues results page_change.changes with
      | none => { c with new_commit := none, page_change := none }
      | some changes =>
        { c with page_change := none,
                 calls := c.calls ++
                   [WatcherCall.OnChange { page_change with changes := changes }] }
  | _, _ => c

/-- The acknowledgement callback `result_callback` hands to `OnChange`;
`snapshot_request` tells whether the watcher asked for a snapshot. -/
def OnChange_callback (snapshot_request : Bool) (c : PageWatcherContainer) :
    PageWatcherContainer :=
  match c.new_commit with
  | none => c
  | some new_commit =>
    SendCommit
      { c with change_in_flight_ := false, last_commit_ := new_commit, new_commit := none,
               calls := c.calls ++
                 (if snapshot_request then [WatcherCall.BindPageSnapshot new_commit] else []) }

/-- Head advances delivered one after the other by `UpdateCommit`. -/
def UpdateCommits : List CommitId → PageWatcherContainer → PageWatcherContainer
  | [], c => c
  | commit_id :: commit_ids, c => UpdateCommits commit_ids (UpdateCommit commit_id c)

/-- What can happen to a watcher container after its construction: a head
advance, and the callbacks the container handed out. -/
inductive Event where
  | UpdateCommit (commit_id : CommitId)
  | OnInitialState_callback
  | diff_callback (status : storage.Status) (it : List storage.EntryChange)
  | result_callback (status : storage.Status) (results : List storage.Object)
  | OnChange_callback (snapshot_request : Bool)
  deriving DecidableEq, Repr

/-- One event. -/
def apply (GetTimestamp : CommitId → Int) (c : PageWatcherContainer) :
    Event → PageWatcherContainer
  | Event.UpdateCommit commit_id => UpdateCommit commit_id c
  | Event.OnInitialState_callback => OnInitialState_callback c
  | Event.diff_callback status it => diff_callback GetTimestamp status it c
  | Event.result_callback status results => result_callback status results c
  | Event.OnChange_callback snapshot_request => OnChange_callback snapshot_request c

/-- A sequence of events, from the first to the last. -/
def applyAll (GetTimestamp : CommitId → Int) :
    List Event → PageWatcherContainer → PageWatcherContainer
  | [], c => c
  | e :: events, c => applyAll GetTimestamp events (apply GetTimestamp c e)

/-- The `OnInitialState` calls of a log. -/
def initialStates : List WatcherCall → List (Option CommitId)
  | [] => []
  | WatcherCall.OnInitialState snapshot :: calls => snapshot :: initialStates calls
  | _ :: calls => initialStates calls

end PageWatcherContainer

/-- The members of `BranchTracker` that the page handle reads and writes. -/
structure BranchTracker where
  current_commit_ : CommitId
  transaction_in_progress_ : Bool
  watchers_ : List PageWatcherContainer
  deriving DecidableEq, Repr

namespace BranchTracker

/-- `BranchTracker::GetBranchHeadId`. -/
def GetBranchHeadId (b : BranchTracker) : CommitId := b.current_commit_

/-- `BranchTracker::SetBranchHead`. -/
def SetBranchHead (commit_id : CommitId) (b : BranchTracker) : BranchTracker :=
  { b with current_commit_ := commit_id,
           watchers_ := b.watchers_.map (PageWatcherContainer.UpdateCommit commit_id) }

/-- `BranchTracker::SetTransactionInProgress`. -/
def SetTransactionInProgress (transaction_in_progress : Bool) (b : BranchTracker) :
    BranchTracker :=
  if b.transaction_in_progress_ = transaction_in_progress then b
  else if !transaction_in_progress then
    { b with transaction_in_progress_ := transaction_in_progress,
             watchers_ := b.watchers_.map
               (PageWatcherContainer.UpdateCommit b.current_commit_) }
  else { b with transaction_in_progress_ := transaction_in_progress }

/-- The loop of `BranchTracker::OnNewCommits` over the commits: whether the head
changed, and the head. -/
def OnNewCommits_loop : List storage.Commit → Bool × CommitId → Bool × CommitId
  | [], state => state
  | commit :: commits, (changed, current_commit) =>
    if commit.id = current_commit then OnNewCommits_loop commits (changed, current_commit)
    -- If the commit doesn't have current_commit_ as a parent it is not part of
    -- this branch and should be ignored.
    else if current_commit ∉ commit.parent_ids then
      OnNewCommits_loop commits (changed, current_commit)
    else OnNewCommits_loop commits (true, commit.id)

/-- `BranchTracker::OnNewCommits` (the change source is not used). -/
def OnNewCommits (commits : List storage.Commit) (b : BranchTracker) : BranchTracker :=
  let r := OnNewCommits_loop commits (false, b.current_commit_)
  if !r.1 || b.transaction_in_progress_ then { b with current_commit_ := r.2 }
  else
    { b with current_commit_ := r.2,
             watchers_ := b.watchers_.map (PageWatcherContainer.UpdateCommit r.2) }

/-- `BranchTracker::RegisterPageWatcher`, with `storage_->GetCommit` succeeding
as its `FTL_DCHECK` demands; `snapshot` is the commit the snapshot handed in is
bound to. -/
def RegisterPageWatcher (snapshot : Option CommitId) (b : BranchTracker) : BranchTracker :=
  { b with watchers_ := b.watchers_ ++ [PageWatcherContainer.create b.current_commit_ snapshot] }

/-- Whether a batch lists a chain on top of `head`, parent first: the first
commit is not `head` and has it among its parents, the second has the first
among its parents, and so on. -/
def IsChainOn : CommitId → List storage.Commit → Bool
  | _, [] => true
  | head, commit :: commits =>
    decide (commit.id ≠ head) && decide (head ∈ commit.parent_ids) &&
      IsChainOn commit.id commits

end BranchTracker

/-- The data members of `PageImpl`. -/
structure PageImpl where
  journal_ : Option JournalPtr
  journal_parent_commit_ : CommitId
  in_progress_journals_ : List JournalPtr
  deriving DecidableEq, Repr

/-- A page handle with its surroundings: the `PageImpl`, the `BranchTracker`
that owns it, the storage, the log of the requests sent to the storage, and
whether a null pointer was dereferenced (or `erase` was given `end()`). -/
structure World (σ : Type) where
  page : PageImpl
  branch_tracker : BranchTracker
  storage : σ
  calls : List StorageCall
  undefined_behaviour : Bool

namespace World

variable {σ : Type}

/-- `storage_->StartCommit(commit_id, journal_type, &journal)`. -/
def StartCommit (S : PageStorage σ) (commit_id : CommitId) (journal_type : JournalType)
    (w : World σ) : (storage.Status × Option JournalPtr) × World σ :=
  let r := S.StartCommit w.storage commit_id journal_type
  (r.1, { w with storage := r.2,
                 calls := w.calls ++ [StorageCall.StartCommit commit_id journal_type] })

/-- `storage_->AddObjectFromLocal(data, size, callback)`: the arguments passed
to `callback`. -/
def AddObjectFromLocal (S : PageStorage σ) (data : String) (size : Int) (w : World σ) :
    (storage.Status × ObjectId) × World σ :=
  let r := S.AddObjectFromLocal w.storage data size
  (r.1, { w with storage := r.2,
                 calls := w.calls ++ [StorageCall.AddObjectFromLocal data size] })

/-- `storage_->GetObject(object_id, callback)`: the request is sent and the
storage keeps `callback`. -/
def GetObject (object_id : ObjectId) (w : World σ) : World σ :=
  { w with calls := w.calls ++ [StorageCall.GetObject object_id] }

/-- The storage serves a `GetObject` request it kept (`SendNextObject` on the
fake storage): the status it passes to the callback. -/
def GetObject_response (S : PageStorage σ) (object_id : ObjectId) (w : World σ) :
    storage.Status × World σ :=
  let r := S.GetObject w.storage object_id
  (r.1, { w with storage := r.2 })

/-- `journal->Put(key, object_id, priority)`. -/
def Journal_Put (S : PageStorage σ) (journal : JournalPtr) (key : String)
    (object_id : ObjectId) (priority : KeyPriority) (w : World σ) :
    storage.Status × World σ :=
  let r := S.Journal_Put w.storage journal key object_id priority
  (r.1, { w with storage := r.2,
                 calls := w.calls ++ [StorageCall.Journal_Put journal key object_id priority] })

/-- `journal->Delete(key)`. -/
def Journal_Delete (S : PageStorage σ) (journal : JournalPtr) (key : String)
    (w : World σ) : storage.Status × World σ :=
  let r := S.Journal_Delete w.storage journal key
  (r.1, { w with storage := r.2,
                 calls := w.calls ++ [StorageCall.Journal_Delete journal key] })

/-- `journal->Commit(callback)`. -/
def Journal_Commit (S : PageStorage σ) (journal : JournalPtr) (w : World σ) :
    Option (storage.Status × CommitId) × World σ :=
  let r := S.Journal_Commit w.storage journal
  (r.1, { w with storage := r.2, calls := w.calls ++ [StorageCall.Journal_Commit journal] })

/-- `journal->Rollback()` on a `std::unique_ptr<Journal>` that may be null. -/
def Journal_Rollback (S : PageStorage σ) (journal : Option JournalPtr) (w : World σ) :
    storage.Status × World σ :=
  match journal with
  | none => (storage.Status.ILLEGAL_STATE, { w with undefined_behaviour := true })
  | some j =>
    let r := S.Journal_Rollback w.storage j
    (r.1, { w with storage := r.2, calls := w.calls ++ [StorageCall.Journal_Rollback j] })

end World

namespace PageImpl

variable {σ : Type}

open PageUtils (ConvertStatus kDefaultNotFoundStatus)

/-- `PageImpl::GetCurrentCommitId`. -/
def GetCurrentCommitId (w : World σ) : CommitId :=
  match w.page.journal_ with
  | none => w.branch_tracker.GetBranchHeadId
  | some _ => w.page.journal_parent_commit_

/-- The callback `PageImpl::CommitJournal` hands to `Journal::Commit`, run by
the storage with `(status, commit_id)`.  `journal_ptr` is erased from
`in_progress_journals_` (`std::remove_if` followed by `erase`; each journal
object is in the vector at most once, and `erase(end())` for a journal that is
not there is undefined), the branch head moves on `OK`, and the converted status
goes to the client. -/
def CommitJournal_callback (journal_ptr : JournalPtr) (status : storage.Status)
    (commit_id : CommitId) (w : World σ) : Status × World σ :=
  let w1 : World σ :=
    { w with page := { w.page with in_progress_journals_ :=
                         w.page.in_progress_journals_.filter (fun j => j != journal_ptr) },
             undefined_behaviour :=
               w.undefined_behaviour || !(w.page.in_progress_journals_.contains journal_ptr) }
  let w2 : World σ :=
    if status = storage.Status.OK then
      { w1 with branch_tracker := w1.branch_tracker.SetBranchHead commit_id }
    else w1
  (ConvertStatus status kDefaultNotFoundStatus, w2)

/-- `PageImpl::CommitJournal`. -/
def CommitJournal (S : PageStorage σ) (journal : JournalPtr) (w : World σ) :
    Option Status × World σ :=
  let w1 : World σ :=
    { w with page := { w.page with in_progress_journals_ :=
                         w.page.in_progress_journals_ ++ [journal] } }
  let r := w1.Journal_Commit S journal
  match r.1 with
  | none => (none, r.2)
  | some (status, commit_id) =>
    let r2 := CommitJournal_callback journal status commit_id r.2
    (some r2.1, r2.2)

/-- `PageImpl::RunInTransaction`.  `runnable` receives the journal and returns
the client status of the mutation.  On a failure the client callback runs first
and the implicit journal is rolled back after it; `runnable` on a null journal
dereferences it. -/
def RunInTransaction (S : PageStorage σ)
    (runnable : JournalPtr → World σ → Status × World σ) (w : World σ) :
    Option Status × World σ :=
  match w.page.journal_ with
  | some journal =>
    -- A transaction is in progress; add this change to it.
    let r := runnable journal w
    (some r.1, r.2)
  | none =>
    -- No transaction is in progress; create one just for this change.
    let commit_id := w.branch_tracker.GetBranchHeadId
    let r := w.StartCommit S commit_id JournalType.IMPLICIT
    if r.1.1 ≠ storage.Status.OK then
      (some (ConvertStatus r.1.1 kDefaultNotFoundStatus), (r.2.Journal_Rollback S r.1.2).2)
    else
      match r.1.2 with
      | none => (none, { r.2 with undefined_behaviour := true })
      | some journal =>
        let r2 := runnable journal r.2
        if r2.1 ≠ Status.OK then
          (some r2.1, (r2.2.Journal_Rollback S (some journal)).2)
        else CommitJournal S journal r2.2

/-- `PageImpl::PutInCommit`. -/
def PutInCommit (S : PageStorage σ) (key : String) (object_id : ObjectId)
    (priority : KeyPriority) (w : World σ) : Option Status × World σ :=
  RunInTransaction S
    (fun journal w1 =>
      let r := w1.Journal_Put S journal key object_id priority
      (ConvertStatus r.1 kDefaultNotFoundStatus, r.2))
    w

/-- The priority conversion written out in `PutWithPriority` and
`PutReference`. -/
def toKeyPriority (priority : Priority) : KeyPriority :=
  if priority = Priority.EAGER then KeyPriority.EAGER else KeyPriority.LAZY

/-- The callback `PageImpl::PutWithPriority` hands to `AddObjectFromLocal`. -/
def PutWithPriority_callback (S : PageStorage σ) (key : String) (priority : Priority)
    (status : storage.Status) (object_id : ObjectId) (w : World σ) :
    Option Status × World σ :=
  if status ≠ storage.Status.OK then
    (some (ConvertStatus status kDefaultNotFoundStatus), w)
  else PutInCommit S key object_id (toKeyPriority priority) w

/-- `PageImpl::PutWithPriority`, for a storage that runs the callback of
`AddObjectFromLocal` before any other request of the page is served. -/
def PutWithPriority (S : PageStorage σ) (key value : String) (priority : Priority)
    (w : World σ) : Option Status × World σ :=
  let r := w.AddObjectFromLocal S value value.length
  PutWithPriority_callback S key priority r.1.1 r.1.2 r.2

/-- `PageImpl::Put`. -/
def Put (S : PageStorage σ) (key value : String) (w : World σ) :
    Option Status × World σ :=
  PutWithPriority S key value Priority.EAGER w

/-- The callback `PageImpl::PutReference` hands to `GetObject`. -/
def PutReference_callback (S : PageStorage σ) (key : String) (object_id : ObjectId)
    (priority : Priority) (status : storage.Status) (w : World σ) :
    Option Status × World σ :=
  if status ≠ storage.Status.OK then
    (some (ConvertStatus status Status.REFERENCE_NOT_FOUND), w)
  else PutInCommit S key object_id (toKeyPriority priority) w

/-- `PageImpl::PutReference`: the object is asked for and the rest is left to
the callback, which captures the key, the object id and the priority; the
client has no answer yet.  `reference` is the object id the `Reference`
carries. -/
def PutReference (_key : String) (reference : ObjectId) (_priority : Priority)
    (w : World σ) : Option Status × World σ :=
  (none, w.GetObject reference)

/-- The storage serves the `GetObject` request of a `PutReference`: the callback
of that `PutReference` runs, in the state the handle is in by then. -/
def PutReference_completion (S : PageStorage σ) (key : String) (reference : ObjectId)
    (priority : Priority) (w : World σ) : Option Status × World σ :=
  let r := w.GetObject_response S reference
  PutReference_callback S key reference priority r.1 r.2

/-- `PageImpl::Delete`. -/
def Delete (S : PageStorage σ) (key : String) (w : World σ) : Option Status × World σ :=
  RunInTransaction S
    (fun journal w1 =>
      let r := w1.Journal_Delete S journal key
      (ConvertStatus r.1 Status.KEY_NOT_FOUND, r.2))
    w

/-- `PageImpl::StartTransaction`.  `StartCommit` writes its journal straight into
`journal_`; the status is passed on whatever it is. -/
def StartTransaction (S : PageStorage σ) (w : World σ) : Option Status × World σ :=
  match w.page.journal_ with
  | some _ => (some Status.TRANSACTION_ALREADY_IN_PROGRESS, w)
  | none =>
    let commit_id := w.branch_tracker.GetBranchHeadId
    let w1 : World σ :=
      { w with branch_tracker := w.branch_tracker.SetTransactionInProgress true }
    let r := w1.StartCommit S commit_id JournalType.EXPLICIT
    let w2 : World σ :=
      { r.2 with page := { r.2.page with journal_ := r.1.2,
                                         journal_parent_commit_ := commit_id } }
    (some (ConvertStatus r.1.1 kDefaultNotFoundStatus), w2)

/-- `PageImpl::Commit`.  `std::move(journal_)` leaves `journal_` null before
`CommitJournal` runs; `SetTransactionInProgress(false)` comes last, after the
commit callback if the storage ran it at once. -/
def Commit (S : PageStorage σ) (w : World σ) : Option Status × World σ :=
  match w.page.journal_ with
  | none => (some Status.NO_TRANSACTION_IN_PROGRESS, w)
  | some journal =>
    let w1 : World σ :=
      { w with page := { w.page with journal_parent_commit_ := "", journal_ := none } }
    let r := CommitJournal S journal w1
    (r.1, { r.2 with branch_tracker := r.2.branch_tracker.SetTransactionInProgress false })

/-- `PageImpl::Rollback`. -/
def Rollback (S : PageStorage σ) (w : World σ) : Option Status × World σ :=
  match w.page.journal_ with
  | none => (some Status.NO_TRANSACTION_IN_PROGRESS, w)
  | some journal =>
    let r := w.Journal_Rollback S (some journal)
    let w1 : World σ :=
      { r.2 with page := { r.2.page with journal_ := none, journal_parent_commit_ := "" } }
    (some (ConvertStatus r.1 kDefaultNotFoundStatus),
     { w1 with branch_tracker := w1.branch_tracker.SetTransactionInProgress false })

/-- `PageImpl::GetSnapshot`: the status passed to the callback and the commit
whose contents `BindPageSnapshot` gets (`none` when no snapshot is bound).
`GetCommit` is `storage_->GetCommit`.  Neither the page nor the tracker
changes. -/
def GetSnapshot (GetCommit : σ → CommitId → storage.Status × Option storage.Commit)
    (w : World σ) : Status × Option storage.Commit :=
  let r := GetCommit w.storage (GetCurrentCommitId w)
  if r.1 ≠ storage.Status.OK then (ConvertStatus r.1 kDefaultNotFoundStatus, none)
  else (Status.OK, r.2)

/-- `PageImpl::Watch`: the snapshot of `GetSnapshot`, bound or not, is handed to
`RegisterPageWatcher`. -/
def Watch (GetCommit : σ → CommitId → storage.Status × Option storage.Commit)
    (w : World σ) : Status × World σ :=
  ((GetSnapshot GetCommit w).1,
   { w with branch_tracker := w.branch_tracker.RegisterPageWatcher
              ((GetSnapshot GetCommit w).2.map (fun commit => commit.id)) })

/-- What the transaction invariant of the handle reads: the explicit journal,
the recorded parent commit, and the flag of the branch tracker. -/
def transaction (w : World σ) : Option JournalPtr × CommitId × Bool :=
  (w.page.journal_, w.page.journal_parent_commit_, w.branch_tracker.transaction_in_progress_)

/-- What can happen to a page handle: a call of one of its operations by the
client, the answer of the storage to the `GetObject` request of a
`PutReference`, and the commit callback of a journal, run by the storage after
`CommitJournal` returned. -/
inductive Op where
  | StartTransaction
  | Put (key value : String)
  | PutReference (key : String) (reference : ObjectId) (priority : Priority)
  | PutReference_completion (key : String) (reference : ObjectId) (priority : Priority)
  | Delete (key : String)
  | Commit
  | Rollback
  | CommitJournal_callback (journal_ptr : JournalPtr) (status : storage.Status)
      (commit_id : CommitId)
  deriving DecidableEq, Repr

/-- The handle after one operation. -/
def step (S : PageStorage σ) (w : World σ) : Op → World σ
  | Op.StartTransaction => (StartTransaction S w).2
  | Op.Put key value => (Put S key value w).2
  | Op.PutReference key reference priority => (PutReference key reference priority w).2
  | Op.PutReference_completion key reference priority =>
    (PutReference_completion S key reference priority w).2
  | Op.Delete key => (Delete S key w).2
  | Op.Commit => (Commit S w).2
  | Op.Rollback => (Rollback S w).2
  | Op.CommitJournal_callback journal_ptr status commit_id =>
    (CommitJournal_callback journal_ptr status commit_id w).2

/-- The handle after a sequence of operations, from the first to the last. -/
def steps (S : PageStorage σ) : List Op → World σ → World σ
  | [], w => w
  | op :: ops, w => steps S ops (step S w op)

end PageImpl

end ledger

/-! ## The merge resolver: `src/app/merging/merge_resolver.cc` -/

namespace ledger

open storage (CommitId Commit CommitStorage)

/-- A `MergeStrategy` object, by name (`merge_strategy.h` is not among the
sources; the resolver calls its `Merge` and its `Cancel`). -/
abbrev MergeStrategy := String

/-- `GenerationComparator`: commits are ordered by generation, then by id. -/
def GenerationComparator (lhs rhs : Commit) : Bool :=
  if lhs.generation = rhs.generation then storage.stringLess lhs.id rhs.id
  else lhs.generation < rhs.generation

/-- What the `MergeResolver` sends out: the reads of the head set and of the
head commits, and the calls on the strategy. -/
inductive ResolverCall where
  | GetHeadCommitIds
  | GetCommitSynchronous (id : CommitId)
  | Cancel (strategy : MergeStrategy)
  | Merge (strategy : MergeStrategy) (head_1 head_2 common_ancestor : Commit)
  | on_empty_callback
  deriving DecidableEq, Repr

/-- The members of `MergeResolver`.  `posted_tasks_` counts the `CheckConflicts`
tasks `PostCheckConflicts` put on the message loop that have not run yet,
`merges_in_flight_` the merges handed to a strategy whose completion callback
has not run yet, `calls` is the log of what the resolver sent out, and
`undefined_behaviour` records a null or out-of-range access. -/
structure MergeResolver where
  strategy_ : Option MergeStrategy
  next_strategy_ : Option MergeStrategy
  switch_strategy_ : Bool
  merge_in_progress_ : Bool
  on_empty_callback_ : Bool
  posted_tasks_ : Nat
  merges_in_flight_ : Nat
  calls : List ResolverCall
  undefined_behaviour : Bool
  deriving DecidableEq, Repr

namespace MergeResolver

/-- `std::set::emplace` on a set kept as the list of its elements in the order
of `GenerationComparator`: a commit equivalent to one of the set is not
inserted. -/
def setEmplace (commit : Commit) : List Commit → List Commit
  | [] => [commit]
  | c :: rest =>
    if GenerationComparator commit c then commit :: c :: rest
    else if GenerationComparator c commit then c :: setEmplace commit rest
    else c :: rest

/-- The inner loop of `FindCommonAncestor`: every parent is read and put into
the set; `none` when a parent cannot be read (a null commit enters the set). -/
def emplaceParents (G : CommitStorage) : List CommitId → List Commit → Option (List Commit)
  | [], commits => some commits
  | parent_id :: parent_ids, commits =>
    match (G.GetCommitSynchronous parent_id).2 with
    | none => none
    | some parent_commit => emplaceParents G parent_ids (setEmplace parent_commit commits)

/-- The `while` loop of `FindCommonAncestor`, for at most `fuel` iterations:
until the set has one element, the greatest commit is taken out and replaced by
its parents.  `none` when the iterations do not suffice or the loop reads a
null commit. -/
def FindCommonAncestor_loop (G : CommitStorage) : Nat → List Commit → Option Commit
  | 0, _ => none
  | fuel + 1, commits =>
    if commits.length = 1 then commits.getLast?
    else
      match commits.getLast? with
      | none => none
      | some commit =>
        match emplaceParents G commit.parent_ids commits.dropLast with
        | none => none
        | some next => FindCommonAncestor_loop G fuel next

/-- `MergeResolver::FindCommonAncestor`, with at most `fuel` iterations of its
loop. -/
def FindCommonAncestor (G : CommitStorage) (fuel : Nat) (head1 head2 : Commit) :
    Option Commit :=
  FindCommonAncestor_loop G fuel (setEmplace head2 (setEmplace head1 []))

/-- The constructor `MergeResolver::MergeResolver`: no strategy, no merge, and
one conflict check posted. -/
def create : MergeResolver :=
  { strategy_ := none, next_strategy_ := none, switch_strategy_ := false,
    merge_in_progress_ := false, on_empty_callback_ := false, posted_tasks_ := 1,
    merges_in_flight_ := 0, calls := [], undefined_behaviour := false }

/-- `MergeResolver::set_on_empty`. -/
def set_on_empty (r : MergeResolver) : MergeResolver :=
  { r with on_empty_callback_ := true }

/-- `MergeResolver::IsEmpty`. -/
def IsEmpty (r : MergeResolver) : Bool := !r.merge_in_progress_

/-- `MergeResolver::PostCheckConflicts`. -/
def PostCheckConflicts (r : MergeResolver) : MergeResolver :=
  { r with posted_tasks_ := r.posted_tasks_ + 1 }

/-- `MergeResolver::SetMergeStrategy`; `strategy` may be null.  With a merge in
progress and no current strategy (excluded by the `FTL_DCHECK`) `Cancel` is
called on a null pointer. -/
def SetMergeStrategy (strategy : Option MergeStrategy) (r : MergeResolver) :
    MergeResolver :=
  if r.merge_in_progress_ then
    match r.strategy_ with
    | none =>
      { r with next_strategy_ := strategy, switch_strategy_ := true,
               undefined_behaviour := true }
    | some current =>
      { r with next_strategy_ := strategy, switch_strategy_ := true,
               calls := r.calls ++ [ResolverCall.Cancel current] }
  else if strategy.isSome then PostCheckConflicts { r with strategy_ := strategy }
  else { r with strategy_ := strategy }

/-- `MergeResolver::OnNewCommits` (commits and source are not used). -/
def OnNewCommits (r : MergeResolver) : MergeResolver := PostCheckConflicts r

/-- The first loop of `ResolveConflicts`: the commits of the heads, `none` when
one of them cannot be read. -/
def getCommits (G : CommitStorage) : List CommitId → Option (List Commit)
  | [] => some []
  | id :: heads =>
    match (G.GetCommitSynchronous id).2, getCommits G heads with
    | some commit, some commits => some (commit :: commits)
    | _, _ => none

/-- What `std::sort` with the comparator of `ResolveConflicts`
(`lhs->GetTimestamp() < rhs->GetTimestamp()`) promises of its result `sort
commits`: it holds the commits it was given, none of them before a commit of
smaller timestamp.  The order of commits of equal timestamp is left to
`std::sort`. -/
def IsTimestampSort (sort : List Commit → List Commit) : Prop :=
  ∀ commits : List Commit,
    (sort commits).Perm commits ∧
    (sort commits).Pairwise (fun lhs rhs => lhs.timestamp ≤ rhs.timestamp)

/-- `MergeResolver::ResolveConflicts`, with at most `fuel` iterations inside
`FindCommonAncestor`; `sort` is what `std::sort` does with the vector of the
commits (see `IsTimestampSort`).  Reading a null commit, indexing a vector of
fewer than two commits, a `FindCommonAncestor` that does not return and a null
strategy are recorded in `undefined_behaviour`. -/
def ResolveConflicts (G : CommitStorage) (sort : List Commit → List Commit) (fuel : Nat)
    (heads : List CommitId) (r : MergeResolver) : MergeResolver :=
  let r1 : MergeResolver :=
    { r with calls := r.calls ++ heads.map ResolverCall.GetCommitSynchronous }
  match getCommits G heads with
  | none => { r1 with undefined_behaviour := true }
  | some commits =>
    match sort commits with
    | head_1 :: head_2 :: _ =>
      match FindCommonAncestor G fuel head_1 head_2 with
      | none => { r1 with undefined_behaviour := true }
      | some common_ancestor =>
        match r1.strategy_ with
        | none => { r1 with merge_in_progress_ := true, undefined_behaviour := true }
        | some strategy =>
          { r1 with merge_in_progress_ := true,
                    merges_in_flight_ := r1.merges_in_flight_ + 1,
                    calls := r1.calls ++
                      [ResolverCall.Merge strategy head_1 head_2 common_ancestor] }
    | _ => { r1 with undefined_behaviour := true }

/-- `MergeResolver::CheckConflicts`, with the storage answering `G` (the status
of `GetHeadCommitIds` is `OK` by the `FTL_DCHECK`). -/
def CheckConflicts (G : CommitStorage) (sort : List Commit → List Commit) (fuel : Nat)
    (r : MergeResolver) : MergeResolver :=
  if r.strategy_.isNone || r.merge_in_progress_ then
    -- No strategy, or a merge already in progress. Let's bail out early.
    r
  else
    let r1 : MergeResolver := { r with calls := r.calls ++ [ResolverCall.GetHeadCommitIds] }
    if G.GetHeadCommitIds.2.length = 1 then
      -- No conflict.
      r1
    else ResolveConflicts G sort fuel G.GetHeadCommitIds.2 r1

/-- The task `PostCheckConflicts` posts, when the message loop runs it. -/
def RunPostedTask (G : CommitStorage) (sort : List Commit → List Commit) (fuel : Nat)
    (r : MergeResolver) : MergeResolver :=
  CheckConflicts G sort fuel { r with posted_tasks_ := r.posted_tasks_ - 1 }

/-- The completion callback `ResolveConflicts` hands to `Merge`. -/
def Merge_callback (r : MergeResolver) : MergeResolver :=
  let r1 : MergeResolver :=
    { r with merge_in_progress_ := false, merges_in_flight_ := r.merges_in_flight_ - 1 }
  let r2 : MergeResolver :=
    if r1.switch_strategy_ then
      { r1 with strategy_ := r1.next_strategy_, next_strategy_ := none,
                switch_strategy_ := false }
    else r1
  let r3 := PostCheckConflicts r2
  if r3.on_empty_callback_ then
    { r3 with calls := r3.calls ++ [ResolverCall.on_empty_callback] }
  else r3

/-- What can happen to a resolver: a commit notification, a call of
`SetMergeStrategy`, a posted conflict check that runs (the storage answering
`G`, `std::sort` doing `sort`), and the completion of the merge in flight. -/
inductive Event where
  | OnNewCommits
  | SetMergeStrategy (strategy : Option MergeStrategy)
  | CheckConflicts (G : CommitStorage) (sort : List Commit → List Commit) (fuel : Nat)
  | MergeDone

/-- One event; `none` when the event cannot happen: a conflict check runs only
as a task that was posted, a completion callback only for a merge that is in
flight. -/
def step (r : MergeResolver) : Event → Option MergeResolver
  | Event.OnNewCommits => some (OnNewCommits r)
  | Event.SetMergeStrategy strategy => some (SetMergeStrategy strategy r)
  | Event.CheckConflicts G sort fuel =>
    if r.posted_tasks_ = 0 then none else some (RunPostedTask G sort fuel r)
  | Event.MergeDone => if r.merges_in_flight_ = 0 then none else some (Merge_callback r)

/-- A sequence of events, from the first to the last. -/
def run : List Event → MergeResolver → Option MergeResolver
  | [], r => some r
  | e :: events, r =>
    match step r e with
    | none => none
    | some r1 => run events r1

/-- The `Merge` calls of a log, as (strategy, first head, second head, common
ancestor). -/
def merges : List ResolverCall → List (MergeStrategy × Commit × Commit × Commit)
  | [] => []
  | ResolverCall.Merge strategy head_1 head_2 common_ancestor :: calls =>
    (strategy, head_1, head_2, common_ancestor) :: merges calls
  | _ :: calls => merges calls

end MergeResolver

/-- In the commit graph `G`, `a` is `c` or an ancestor of `c`: `c` is reached
from `a` through parent ids the storage resolves. -/
inductive IsAncestorOrSelf (G : CommitStorage) : CommitId → CommitId → Prop where
  | self (a : CommitId) : IsAncestorOrSelf G a a
  | parent (a c p : CommitId) (commit : Commit) :
      (G.GetCommitSynchronous c).2 = some commit → p ∈ commit.parent_ids →
      IsAncestorOrSelf G a p → IsAncestorOrSelf G a c

/-- The commit `c` is a commit of the graph: the storage answers its id with
it. -/
def Stored (G : CommitStorage) (c : Commit) : Prop :=
  (G.GetCommitSynchronous c.id).2 = some c

instance (G : CommitStorage) (c : Commit) : Decidable (Stored G c) :=
  inferInstanceAs (Decidable ((G.GetCommitSynchronous c.id).2 = some c))

/-- The graph is well formed and generations decrease from child to parent:
the commit stored under an id has that id, and every parent of a stored commit
is stored, with a generation smaller than its child's. -/
def GenerationsDecrease (G : CommitStorage) : Prop :=
  ∀ (id : CommitId) (c : Commit), (G.GetCommitSynchronous id).2 = some c →
    c.id = id ∧
    ∀ p ∈ c.parent_ids, ∃ q : Commit,
      (G.GetCommitSynchronous p).2 = some q ∧ q.generation < c.generation

/-- A parent path of the graph: each commit of the list is followed by one of
its parents. -/
inductive IsParentPath (G : CommitStorage) : List CommitId → Prop where
  | single (c : CommitId) : IsParentPath G [c]
  | cons (c p : CommitId) (rest : List CommitId) (commit : Commit) :
      (G.GetCommitSynchronous c).2 = some commit → p ∈ commit.parent_ids →
      IsParentPath G (p :: rest) → IsParentPath G (c :: p :: rest)

/-- Every commit of the graph descends from the single parentless commit
`root`. -/
def SingleRoot (G : CommitStorage) (root : Commit) : Prop :=
  Stored G root ∧ root.parent_ids = [] ∧
  ∀ (id : CommitId) (c : Commit), (G.GetCommitSynchronous id).2 = some c →
    IsAncestorOrSelf G root.id c.id

/-- The commit `c` lies on every parent path from `head` to `root`. -/
def OnEveryPath (G : CommitStorage) (root : Commit) (c head : Commit) : Prop :=
  ∀ path : List CommitId, IsParentPath G path → path.head? = some head.id →
    path.getLast? = some root.id → c.id ∈ path

/-- Every parent path from `head` to `root` goes through a commit of the set
`commits`. -/
def MergeResolver.Covers (G : CommitStorage) (root : Commit) (commits : List Commit)
    (head : Commit) : Prop :=
  ∀ path : List CommitId, IsParentPath G path → path.head? = some head.id →
    path.getLast? = some root.id → ∃ x ∈ commits, x.id ∈ path

/-- The invariant of the set `FindCommonAncestor` works on: it is not empty, it
is in the strict order of `GenerationComparator` (so no two of its commits
agree on generation and id), and its commits are commits of the graph. -/
def MergeResolver.IsFrontier (G : CommitStorage) (commits : List Commit) : Prop :=
  commits ≠ [] ∧
  commits.Pairwise (fun a b => GenerationComparator a b = true) ∧
  ∀ c ∈ commits, Stored G c

end ledger

/-! ## Concrete worlds used to exercise the theorems -/

namespace Example

open ledger storage storage.fake

/-- A stand-in for `glue::RandBytes`: the ids handed out, in order. -/
def RandomId (n : Nat) : String :=
  ["id0", "id1", "id2", "id3", "id4", "id5", "id6", "id7"].getD n "id"

/-- The fake storage. -/
def Fake : PageStorage FakePageStorage := FakePageStorage.toPageStorage RandomId

/-- The fake storage as `PageImplTest::SetUp` creates it. -/
def storage0 : FakePageStorage :=
  { page_id_ := "aaaaaaaaaaaaaaaa", autocommit_ := true, journals_ := [], objects_ := [],
    random_ids_drawn_ := 0 }

/-- A page handle just bound on `storage0`: no journal, and the head is the empty
id `GetHeadCommitIds` reports while no journal is committed. -/
def world0 : World FakePageStorage :=
  { page := { journal_ := none, journal_parent_commit_ := "", in_progress_journals_ := [] },
    branch_tracker := { current_commit_ := "", transaction_in_progress_ := false,
                        watchers_ := [] },
    storage := storage0, calls := [], undefined_behaviour := false }

/-- The handle `world0` after `StartTransaction`. -/
def world1 : World FakePageStorage := (PageImpl.StartTransaction Fake world0).2

/-- A storage like `Fake` whose `StartCommit` hands out the journal and reports
`IO_ERROR`. -/
def FailingStartCommit : PageStorage FakePageStorage :=
  { Fake with
    StartCommit := fun s commit_id journal_type =>
      ((Status.IO_ERROR, (Fake.StartCommit s commit_id journal_type).1.2),
       (Fake.StartCommit s commit_id journal_type).2) }

/-- A storage like `Fake` whose journals refuse every mutation. -/
def FailingJournal : PageStorage FakePageStorage :=
  { Fake with
    Journal_Put := fun s _ _ _ _ => (Status.IO_ERROR, s)
    Journal_Delete := fun s _ _ => (Status.NOT_FOUND, s) }

/-- The fake storage of `storage0` after a test stored the object
`a small value` in it (`PageImplTest::AddObjectToStorage`); its id is `id0`. -/
def storage_with_object : FakePageStorage :=
  (Fake.AddObjectFromLocal storage0 "a small value" 13).2

/-- A page handle just bound on `storage_with_object`. -/
def world_with_object : World FakePageStorage :=
  { world0 with storage := storage_with_object }

/-- The test `ParallelPut`, first handle: a transaction is started and
`some_key` is put. -/
def handleA : World FakePageStorage :=
  (PageImpl.Put Fake "some_key" "a small value" (PageImpl.StartTransaction Fake world0).2).2

/-- The test `ParallelPut`, second handle on the same storage: a transaction is
started and another value is put under `some_key`. -/
def handleB : World FakePageStorage :=
  (PageImpl.Put Fake "some_key" "another value"
    (PageImpl.StartTransaction Fake { world0 with storage := handleA.storage }).2).2

/-- The first handle after its `Commit`, on the storage the second handle left. -/
def handleA_committed : World FakePageStorage :=
  (PageImpl.Commit Fake { handleA with storage := handleB.storage }).2

/-- The second handle after its `Commit`, on the storage the first handle left. -/
def handleB_committed : World FakePageStorage :=
  (PageImpl.Commit Fake { handleB with storage := handleA_committed.storage }).2

/-- What a snapshot of `commit_id` reads under `key` on the fake storage: the
entry of the commit, then the content of its object. -/
def snapshotGet (s : FakePageStorage) (commit_id : CommitId) (key : String) :
    storage.Status × String :=
  if (FakePageStorage.GetEntryFromCommit s commit_id key).1.1 = storage.Status.OK then
    FakePageStorage.GetObjectSynchronous s
      (FakePageStorage.GetEntryFromCommit s commit_id key).1.2.object_id
  else ((FakePageStorage.GetEntryFromCommit s commit_id key).1.1, "")

/-- The handle `world0` after a `Put` outside any transaction: the head is the
commit `id1`. -/
def world_after_put : World FakePageStorage :=
  (PageImpl.Put Fake "some_key" "a small value" world0).2

/-- The handle `world_after_put` after `StartTransaction`: the journal `id2`
is open on the commit `id1`. -/
def world_in_transaction : World FakePageStorage :=
  (PageImpl.StartTransaction Fake world_after_put).2

/-- A commit made elsewhere on top of the commit `id1`. -/
def commit_on_id1 : Commit :=
  { id := "remote", parent_ids := ["id1"], timestamp := 7, generation := 1 }

/-- The handle `world_in_transaction` after the commit notification for
`commit_on_id1`: the transaction is still open on `id1`. -/
def world_head_moved : World FakePageStorage :=
  { world_in_transaction with
    branch_tracker := world_in_transaction.branch_tracker.OnNewCommits [commit_on_id1] }

/-- The `GetCommit` of a storage that holds `commit_on_id1` besides the commits
of the fake storage. -/
def GetCommit_remote (s : FakePageStorage) (commit_id : CommitId) :
    storage.Status × Option Commit :=
  if commit_id = "remote" then (storage.Status.OK, some commit_on_id1)
  else FakePageStorage.GetCommitSynchronous s commit_id

/-- The commit graph of the example: the root `R`, its children `A` and `B`,
the child `X` of `A`, and the merge `Y` of `A` and `B`. -/
def commitR : Commit := { id := "R", parent_ids := [], timestamp := 0, generation := 0 }

/-- Child of `R`. -/
def commitA : Commit := { id := "A", parent_ids := ["R"], timestamp := 1, generation := 1 }

/-- Child of `R`. -/
def commitB : Commit := { id := "B", parent_ids := ["R"], timestamp := 2, generation := 1 }

/-- Child of `A`. -/
def commitX : Commit := { id := "X", parent_ids := ["A"], timestamp := 3, generation := 2 }

/-- Merge of `A` and `B`. -/
def commitY : Commit :=
  { id := "Y", parent_ids := ["A", "B"], timestamp := 4, generation := 2 }

/-- A storage holding the commits above, with the heads `X` and `Y`. -/
def graph : CommitStorage :=
  { GetHeadCommitIds := (storage.Status.OK, ["X", "Y"])
    GetCommitSynchronous := fun id =>
      match [commitR, commitA, commitB, commitX, commitY].find? (fun c => c.id = id) with
      | some c => (storage.Status.OK, some c)
      | none => (storage.Status.NOT_FOUND, none) }

/-- A watcher registered on the commit `c0`, with a snapshot of `c0`. -/
def watcher0 : PageWatcherContainer := PageWatcherContainer.create "c0" (some "c0")

/-- The diff from `c0` to `c1`: `key1` gets the object `o1`, `key2` is deleted,
`key3` gets the object `o3`. -/
def diff_c0_c1 : List EntryChange :=
  [{ entry := { key := "key1", object_id := "o1", priority := KeyPriority.EAGER },
     deleted := false },
   { entry := { key := "key2", object_id := "", priority := KeyPriority.EAGER },
     deleted := true },
   { entry := { key := "key3", object_id := "o3", priority := KeyPriority.LAZY },
     deleted := false }]

/-- Timestamps of the commits `c0`, `c1`, .. of the watcher examples. -/
def timestampOf (id : CommitId) : Int := if id = "c1" then 11 else 0

/-- The watcher `watcher0` after the acknowledgement of `OnInitialState`, the
head advance to `c1`, and the diff that yields `diff_c0_c1`: the objects `o1`
and `o3` are being fetched. -/
def watcher_fetching : PageWatcherContainer :=
  PageWatcherContainer.diff_callback timestampOf storage.Status.OK diff_c0_c1
    (PageWatcherContainer.UpdateCommit "c1"
      (PageWatcherContainer.OnInitialState_callback watcher0))

/-- One `std::sort` by timestamp: an insertion sort, which keeps commits of
equal timestamp in the order they had. -/
def sortByTimestamp (commits : List Commit) : List Commit :=
  commits.insertionSort (fun lhs rhs => lhs.timestamp ≤ rhs.timestamp)

/-- A resolver with the strategy `last_one_wins` after its conflict check on
`graph`: the merge of the heads `X` and `Y` is in progress. -/
def resolver_merging : MergeResolver :=
  MergeResolver.CheckConflicts graph sortByTimestamp 10
    (MergeResolver.SetMergeStrategy (some "last_one_wins") MergeResolver.create)

/-- A run of a resolver on `graph`: the strategy `last_one_wins` is set, the
conflict check starts a merge, a commit notification arrives and its conflict
check runs during the merge, the merge completes, and the next conflict check
starts a second merge. -/
def resolver_events : List MergeResolver.Event :=
  [MergeResolver.Event.SetMergeStrategy (some "last_one_wins"),
   MergeResolver.Event.CheckConflicts graph sortByTimestamp 10,
   MergeResolver.Event.OnNewCommits,
   MergeResolver.Event.CheckConflicts graph sortByTimestamp 10,
   MergeResolver.Event.MergeDone,
   MergeResolver.Event.CheckConflicts graph sortByTimestamp 10]

/-- The resolver after `resolver_events`. -/
def resolver_after : MergeResolver :=
  (MergeResolver.run resolver_events MergeResolver.create).getD MergeResolver.create

/-- The fake storage after a transaction that puts `key30`, `key40`, `key29`
and `key31`, in this order, was committed: the commit is `id0`. -/
def storage_keys : FakePageStorage :=
  (PageImpl.steps Fake
    [PageImpl.Op.StartTransaction, PageImpl.Op.Put "key30" "v30",
     PageImpl.Op.Put "key40" "v40", PageImpl.Op.Put "key29" "v29",
     PageImpl.Op.Put "key31" "v31", PageImpl.Op.Commit] world0).storage

/-- The journal of the commit `id0` of `storage_keys`. -/
def journal_keys : FakeJournalDelegate :=
  { autocommit_ := true, id_ := "id0", is_committed_ := true, is_rolled_back_ := false,
    data_ := [("key29", { value := "id3", deleted := false, priority := KeyPriority.EAGER }),
              ("key30", { value := "id1", deleted := false, priority := KeyPriority.EAGER }),
              ("key31", { value := "id4", deleted := false, priority := KeyPriority.EAGER }),
              ("key40", { value := "id2", deleted := false, priority := KeyPriority.EAGER })],
    commit_pending_ := false }

/-- The `on_next` of the test `ForEachEntryPrefix`: "continue" while the key
starts with `key3`. -/
def hasPrefix_key3 (e : storage.Entry) : Bool := e.key.toList.take 4 == "key3".toList

/-- A tree with the keys `key00`, `key01`, `key40` and `key41`. -/
def tree0 : btree.Tree :=
  [{ key := "key00", object_id := "object00", priority := KeyPriority.EAGER },
   { key := "key01", object_id := "object01", priority := KeyPriority.EAGER },
   { key := "key40", object_id := "object40", priority := KeyPriority.EAGER },
   { key := "key41", object_id := "object41", priority := KeyPriority.EAGER }]

/-- The changes of the test `ForEachDiff`, for `tree0`: a new value for
`key01`, the new entry `key255`, and the deletion of `key40`. -/
def changes0 : List EntryChange :=
  [{ entry := { key := "key01", object_id := "change1", priority := KeyPriority.LAZY },
     deleted := false },
   { entry := { key := "key255", object_id := "change1", priority := KeyPriority.LAZY },
     deleted := false },
   { entry := { key := "key40", object_id := "", priority := KeyPriority.LAZY },
     deleted := true }]

/-- The tree `tree0` after the changes `changes0`. -/
def tree1 : btree.Tree :=
  [{ key := "key00", object_id := "object00", priority := KeyPriority.EAGER },
   { key := "key01", object_id := "change1", priority := KeyPriority.LAZY },
   { key := "key255", object_id := "change1", priority := KeyPriority.LAZY },
   { key := "key41", object_id := "object41", priority := KeyPriority.EAGER }]

/-- Scenario S2 on the storage that holds the object `id0`: a transaction puts
`some_key1`, puts the reference `id0` at `some_key2` (the storage answers the
request before the next operation), deletes `some_key2`, and is committed.
The journal, and the commit, is `id1`. -/
def world_S2 : World FakePageStorage :=
  PageImpl.steps Fake
    [PageImpl.Op.StartTransaction, PageImpl.Op.Put "some_key1" "a small value",
     PageImpl.Op.PutReference "some_key2" "id0" Priority.LAZY,
     PageImpl.Op.PutReference_completion "some_key2" "id0" Priority.LAZY,
     PageImpl.Op.Delete "some_key2", PageImpl.Op.Commit] world_with_object

/-- The journal `id1` of `world_S2`. -/
def journal_S2 : FakeJournalDelegate :=
  { autocommit_ := true, id_ := "id1", is_committed_ := true, is_rolled_back_ := false,
    data_ :=
      [("some_key1", { value := "id2", deleted := false, priority := KeyPriority.EAGER }),
       ("some_key2", { value := "id0", deleted := true, priority := KeyPriority.LAZY })],
    commit_pending_ := false }

/-- A commit on top of the commit `id1`. -/
def chain1 : Commit := { id := "c1", parent_ids := ["id1"], timestamp := 1, generation := 1 }

/-- A commit on top of `chain1`. -/
def chain2 : Commit := { id := "c2", parent_ids := ["c1"], timestamp := 2, generation := 2 }

/-- A commit on top of `chain2`. -/
def chain3 : Commit := { id := "c3", parent_ids := ["c2"], timestamp := 3, generation := 3 }

/-- Child of `B`, more recent than `X` and `Y`. -/
def commitZ : Commit := { id := "Z", parent_ids := ["B"], timestamp := 5, generation := 2 }

/-- The storage of `graph` with the commit `Z` added and the three heads `Z`,
`X` and `Y`, read in this order. -/
def graph_three_heads : CommitStorage :=
  { GetHeadCommitIds := (storage.Status.OK, ["Z", "X", "Y"])
    GetCommitSynchronous := fun id =>
      match [commitR, commitA, commitB, commitX, commitY, commitZ].find?
        (fun c => c.id = id) with
      | some c => (storage.Status.OK, some c)
      | none => (storage.Status.NOT_FOUND, none) }

/-- A resolver with the strategy `last_one_wins` and no merge in progress. -/
def resolver_idle : MergeResolver :=
  MergeResolver.SetMergeStrategy (some "last_one_wins") MergeResolver.create

/-- A storage like `Fake` whose `StartCommit` reports `IO_ERROR` and hands out
no journal. -/
def NoJournal : PageStorage FakePageStorage :=
  { Fake with
    StartCommit := fun s _ _ => ((storage.Status.IO_ERROR, none), s) }

/-- Whether, in the storage `G`, every parent of the commits listed is stored
with a generation smaller than its child's. -/
def parentsOlder (G : CommitStorage) (commits : List Commit) : Bool :=
  commits.all (fun c => c.parent_ids.all (fun p =>
    match (G.GetCommitSynchronous p).2 with
    | some parent => decide (parent.generation < c.generation)
    | none => false))

end Example

/-! ## Lemmas on the fake storage's maps -/

namespace storage

theorem charsLess_irrefl (l : List Char) : charsLess l l = false := by
  induction l with
  | nil => rfl
  | cons a as ih => simp [charsLess, ih]

theorem stringLess_irrefl (a : String) : stringLess a a = false := charsLess_irrefl _

/-- Reading a key right after assigning it yields the assigned value. -/
theorem mapFind_mapAssign_self {V : Type} (key : String) (value : V) (m : List (String × V)) :
    mapFind key (mapAssign key value m) = some value := by
  induction m with
  | nil => simp [mapAssign, mapFind]
  | cons e rest ih =>
    obtain ⟨k, v⟩ := e
    unfold mapAssign
    by_cases h1 : stringLess key k = true
    · simp [h1, mapFind]
    · by_cases h2 : key = k
      · subst h2
        simp [stringLess_irrefl, mapFind]
      · have h3 : ¬ k = key := fun h => h2 h.symm
        simp [h1, h2, h3, mapFind, ih]

/-- A second assignment to a key replaces the first one. -/
theorem mapAssign_mapAssign_self {V : Type} (key : String) (v1 v2 : V)
    (m : List (String × V)) :
    mapAssign key v2 (mapAssign key v1 m) = mapAssign key v2 m := by
  induction m with
  | nil => simp [mapAssign, stringLess_irrefl]
  | cons e rest ih =>
    obtain ⟨k, v⟩ := e
    by_cases h1 : stringLess key k = true
    · simp [mapAssign, h1, stringLess_irrefl]
    · by_cases h2 : key = k
      · subst h2
        simp [mapAssign, stringLess_irrefl]
      · simp [mapAssign, h1, h2, ih]

end storage

/-! ## Lemmas on the page handle -/

namespace ledger

open storage (CommitId ObjectId JournalPtr JournalType KeyPriority PageStorage StorageCall)
open storage.fake (FakePageStorage FakeJournalDelegate)
open PageUtils (ConvertStatus kDefaultNotFoundStatus)

variable {σ : Type}

theorem kDefault_ne_OK : kDefaultNotFoundStatus ≠ Status.OK := by decide

/-- With a not-found status that is not `OK`, `ConvertStatus` yields `OK` for
`OK` only. -/
theorem ConvertStatus_eq_OK_iff (status : storage.Status) (not_found_status : Status)
    (h : not_found_status ≠ Status.OK) :
    ConvertStatus status not_found_status = Status.OK ↔ status = storage.Status.OK := by
  cases status <;> simp [ConvertStatus, h]

theorem ConvertStatus_ne_OK (status : storage.Status) (not_found_status : Status)
    (h : not_found_status ≠ Status.OK) (hs : status ≠ storage.Status.OK) :
    ConvertStatus status not_found_status ≠ Status.OK :=
  fun hc => hs ((ConvertStatus_eq_OK_iff status not_found_status h).1 hc)

theorem SetTransactionInProgress_flag (flag : Bool) (b : BranchTracker) :
    (b.SetTransactionInProgress flag).transaction_in_progress_ = flag := by
  unfold BranchTracker.SetTransactionInProgress
  by_cases h : b.transaction_in_progress_ = flag
  · simp [h]
  · cases flag <;> simp [h]

theorem SetTransactionInProgress_head (flag : Bool) (b : BranchTracker) :
    (b.SetTransactionInProgress flag).current_commit_ = b.current_commit_ := by
  unfold BranchTracker.SetTransactionInProgress
  by_cases h : b.transaction_in_progress_ = flag
  · simp [h]
  · cases flag <;> simp [h]

/-- What `CommitJournal` does, by the answer of `Journal::Commit`. -/
theorem CommitJournal_eq (S : PageStorage σ) (journal : JournalPtr) (w : World σ) :
    PageImpl.CommitJournal S journal w =
      match (S.Journal_Commit w.storage journal).1 with
      | none =>
        (none, { w with
          page := { w.page with in_progress_journals_ := w.page.in_progress_journals_ ++ [journal] },
          storage := (S.Journal_Commit w.storage journal).2,
          calls := w.calls ++ [StorageCall.Journal_Commit journal] })
      | some (status, commit_id) =>
        (some (ConvertStatus status kDefaultNotFoundStatus),
         { w with
          page := { w.page with in_progress_journals_ :=
                      w.page.in_progress_journals_.filter (fun j => j != journal) },
          branch_tracker :=
            if status = storage.Status.OK then w.branch_tracker.SetBranchHead commit_id
            else w.branch_tracker,
          storage := (S.Journal_Commit w.storage journal).2,
          calls := w.calls ++ [StorageCall.Journal_Commit journal] }) := by
  unfold PageImpl.CommitJournal PageImpl.CommitJournal_callback World.Journal_Commit
  rcases hC : (S.Journal_Commit w.storage journal).1 with _ | ⟨status, commit_id⟩
  · simp [hC]
  · by_cases hs : status = storage.Status.OK <;> simp [hC, hs, List.filter_append]

/-- What `RunInTransaction` reports `OK` for when no explicit journal is open:
the storage started a journal, `runnable` succeeded on it, and the storage
resolved its commit with `OK`. -/
theorem RunInTransaction_implicit_OK (S : PageStorage σ)
    (runnable : JournalPtr → World σ → Status × World σ) (w : World σ)
    (h : w.page.journal_ = none)
    (hOK : (PageImpl.RunInTransaction S runnable w).1 = some Status.OK) :
    ∃ (journal : JournalPtr) (commit_id : CommitId),
      (S.StartCommit w.storage w.branch_tracker.current_commit_ JournalType.IMPLICIT).1 =
        (storage.Status.OK, some journal) ∧
      (runnable journal
        (w.StartCommit S w.branch_tracker.current_commit_ JournalType.IMPLICIT).2).1 = Status.OK ∧
      (S.Journal_Commit (runnable journal
        (w.StartCommit S w.branch_tracker.current_commit_ JournalType.IMPLICIT).2).2.storage
        journal).1 = some (storage.Status.OK, commit_id) ∧
      PageImpl.RunInTransaction S runnable w =
        PageImpl.CommitJournal S journal (runnable journal
          (w.StartCommit S w.branch_tracker.current_commit_ JournalType.IMPLICIT).2).2 := by
  unfold PageImpl.RunInTransaction at hOK ⊢
  simp only [h, BranchTracker.GetBranchHeadId] at hOK ⊢
  rcases hS : (S.StartCommit w.storage w.branch_tracker.current_commit_ JournalType.IMPLICIT).1
    with ⟨status, journal⟩
  have hS1 : (w.StartCommit S w.branch_tracker.current_commit_ JournalType.IMPLICIT).1
      = (status, journal) := by simp [World.StartCommit, hS]
  simp only [hS1] at hOK ⊢
  by_cases hst : status = storage.Status.OK
  · subst hst
    simp only [ne_eq, not_true_eq_false, ↓reduceIte] at hOK ⊢
    cases journal with
    | none => simp at hOK
    | some journal =>
      simp only at hOK ⊢
      by_cases hr : (runnable journal
          (w.StartCommit S w.branch_tracker.current_commit_ JournalType.IMPLICIT).2).1 = Status.OK
      · simp only [hr, ne_eq, not_true_eq_false, ↓reduceIte] at hOK ⊢
        rw [CommitJournal_eq] at hOK
        rcases hC : (S.Journal_Commit (runnable journal
          (w.StartCommit S w.branch_tracker.current_commit_ JournalType.IMPLICIT).2).2.storage
          journal).1 with _ | ⟨cstatus, commit_id⟩
        · simp [hC] at hOK
        · simp only [hC, Option.some.injEq] at hOK
          have := (ConvertStatus_eq_OK_iff cstatus _ kDefault_ne_OK).1 hOK
          subst this
          exact ⟨journal, commit_id, rfl, hr, hC, by simp [hr]⟩
      · simp [hr] at hOK
  · have : ConvertStatus status kDefaultNotFoundStatus ≠ Status.OK :=
      ConvertStatus_ne_OK _ _ kDefault_ne_OK hst
    simp [hst, this] at hOK

/-- The requests `RunInTransaction` sends when no explicit journal is open start
with `StartCommit` of an `IMPLICIT` journal on the branch head, for a `runnable`
that only adds requests. -/
theorem RunInTransaction_implicit_calls (S : PageStorage σ)
    (runnable : JournalPtr → World σ → Status × World σ) (w : World σ)
    (h : w.page.journal_ = none)
    (hrun : ∀ (j : JournalPtr) (w1 : World σ),
      ∃ extra : List StorageCall, (runnable j w1).2.calls = w1.calls ++ extra) :
    ∃ rest : List StorageCall,
      (PageImpl.RunInTransaction S runnable w).2.calls = w.calls ++
        StorageCall.StartCommit w.branch_tracker.current_commit_ JournalType.IMPLICIT :: rest := by
  unfold PageImpl.RunInTransaction
  simp only [h, BranchTracker.GetBranchHeadId]
  have hcalls : (World.StartCommit S w.branch_tracker.current_commit_ JournalType.IMPLICIT
      w).2.calls = w.calls ++
        [StorageCall.StartCommit w.branch_tracker.current_commit_ JournalType.IMPLICIT] := rfl
  generalize World.StartCommit S w.branch_tracker.current_commit_ JournalType.IMPLICIT w = r
    at hcalls ⊢
  split
  · cases r.1.2 with
    | none => exact ⟨[], by simp [World.Journal_Rollback, hcalls]⟩
    | some j => exact ⟨[StorageCall.Journal_Rollback j], by simp [World.Journal_Rollback, hcalls]⟩
  · split
    · exact ⟨[], by simp [hcalls]⟩
    · rename_i j _
      obtain ⟨extra, hextra⟩ := hrun j r.2
      split
      · exact ⟨extra ++ [StorageCall.Journal_Rollback j],
          by simp [World.Journal_Rollback, hextra, hcalls]⟩
      · rw [CommitJournal_eq]
        split
        · exact ⟨extra ++ [StorageCall.Journal_Commit j], by simp [hextra, hcalls]⟩
        · exact ⟨extra ++ [StorageCall.Journal_Commit j], by simp [hextra, hcalls]⟩

/-- Outside a transaction, `Put` first stores the value and then, if that went
well, starts an `IMPLICIT` journal on the branch head. -/
theorem Put_implicit_calls (S : PageStorage σ) (w : World σ) (key value : String)
    (h : w.page.journal_ = none) :
    ∃ rest : List StorageCall,
      (PageImpl.Put S key value w).2.calls =
        w.calls ++ StorageCall.AddObjectFromLocal value value.length :: rest ∧
      ((S.AddObjectFromLocal w.storage value value.length).1.1 = storage.Status.OK →
        ∃ rest1 : List StorageCall, rest =
          StorageCall.StartCommit w.branch_tracker.current_commit_ JournalType.IMPLICIT ::
            rest1) := by
  unfold PageImpl.Put PageImpl.PutWithPriority PageImpl.PutWithPriority_callback
  have hA0 : World.AddObjectFromLocal S value value.length w =
      ((S.AddObjectFromLocal w.storage value value.length).1,
       { w with storage := (S.AddObjectFromLocal w.storage value value.length).2,
                calls := w.calls ++ [StorageCall.AddObjectFromLocal value value.length] }) := rfl
  rw [hA0]
  by_cases hA : (S.AddObjectFromLocal w.storage value value.length).1.1 = storage.Status.OK
  · simp only [hA, ne_eq, not_true_eq_false, ↓reduceIte, PageImpl.PutInCommit]
    obtain ⟨rest, hrest⟩ := RunInTransaction_implicit_calls S
      (fun journal w1 =>
        (ConvertStatus (w1.Journal_Put S journal key
            (S.AddObjectFromLocal w.storage value value.length).1.2
            (PageImpl.toKeyPriority Priority.EAGER)).1 kDefaultNotFoundStatus,
         (w1.Journal_Put S journal key
            (S.AddObjectFromLocal w.storage value value.length).1.2
            (PageImpl.toKeyPriority Priority.EAGER)).2))
      { w with storage := (S.AddObjectFromLocal w.storage value value.length).2,
               calls := w.calls ++ [StorageCall.AddObjectFromLocal value value.length] }
      h
      (fun j w1 => ⟨[StorageCall.Journal_Put j key
          (S.AddObjectFromLocal w.storage value value.length).1.2
          (PageImpl.toKeyPriority Priority.EAGER)], by simp [World.Journal_Put]⟩)
    refine ⟨_, ?_, fun _ => ⟨rest, rfl⟩⟩
    rw [hrest]
    simp
  · refine ⟨[], ?_, fun hok => absurd hok hA⟩
    simp [hA]

/-! ## The claims on the page handle -/

/-- Claim C1: when an explicit journal is already open, `StartTransaction`
answers `TRANSACTION_ALREADY_IN_PROGRESS` and leaves the whole world as it was:
the open journal, its recorded parent commit, the branch tracker with its head,
the storage, and the log of storage requests (so no `StartCommit` is sent and no
second journal is started). -/
theorem StartTransaction_while_journal_open (S : PageStorage σ) (w : World σ)
    (journal : JournalPtr) (h : w.page.journal_ = some journal) :
    PageImpl.StartTransaction S w = (some Status.TRANSACTION_ALREADY_IN_PROGRESS, w) := by
  simp [PageImpl.StartTransaction, h]

/-- The test `NoTwoTransactions`: on the fake storage the first
`StartTransaction` opens the journal `id0`, the second one is refused and
changes nothing. -/
theorem StartTransaction_while_journal_open_witness :
    Example.world1.page.journal_ = some "id0" ∧
    PageImpl.StartTransaction Example.Fake Example.world1 =
      (some Status.TRANSACTION_ALREADY_IN_PROGRESS, Example.world1) :=
  ⟨by decide, StartTransaction_while_journal_open Example.Fake Example.world1 "id0" (by decide)⟩

/-- Claim C2: with no explicit journal open, `Commit` and `Rollback` each answer
`NO_TRANSACTION_IN_PROGRESS` and leave the whole world as it was: no request is
sent to the storage (nothing is started, committed or rolled back) and the
branch tracker keeps its head. -/
theorem Commit_Rollback_without_journal (S : PageStorage σ) (w : World σ)
    (h : w.page.journal_ = none) :
    PageImpl.Commit S w = (some Status.NO_TRANSACTION_IN_PROGRESS, w) ∧
    PageImpl.Rollback S w = (some Status.NO_TRANSACTION_IN_PROGRESS, w) := by
  simp [PageImpl.Commit, PageImpl.Rollback, h]

/-- The tests `NoTransactionCommit` and `NoTransactionRollback` on a handle just
bound on the fake storage. -/
theorem Commit_Rollback_without_journal_witness :
    Example.world0.page.journal_ = none ∧
    PageImpl.Commit Example.Fake Example.world0 =
      (some Status.NO_TRANSACTION_IN_PROGRESS, Example.world0) ∧
    PageImpl.Rollback Example.Fake Example.world0 =
      (some Status.NO_TRANSACTION_IN_PROGRESS, Example.world0) :=
  ⟨by decide, Commit_Rollback_without_journal Example.Fake Example.world0 (by decide)⟩

/-- Claim C3: with no explicit transaction open, a `Put` that reports `OK` has
stored the value (object id `object_id`), started exactly one `IMPLICIT` journal
on the branch head, sent that journal the single mutation
`Put(key, object_id, EAGER)` and committed it, in this order and with no other
request, the storage having answered `OK` to each; the branch head is then the
new commit and no explicit journal is open.  A `Delete` that reports `OK` has
started exactly one `IMPLICIT` journal on the branch head, sent it the single
mutation `Delete(key)` and committed it: no object is stored.  `OK` is reported
from the commit callback only.  On the fake storage with `autocommit_` both
operations do report `OK`, for every key and value. -/
theorem Put_Delete_outside_transaction (S : PageStorage σ) (w : World σ) (key value : String)
    (h : w.page.journal_ = none) :
    ((PageImpl.Put S key value w).1 = some Status.OK →
      ∃ (object_id : ObjectId) (journal : JournalPtr) (commit_id : CommitId) (s1 s2 s3 s4 : σ),
        S.AddObjectFromLocal w.storage value value.length =
          ((storage.Status.OK, object_id), s1) ∧
        S.StartCommit s1 w.branch_tracker.current_commit_ JournalType.IMPLICIT =
          ((storage.Status.OK, some journal), s2) ∧
        S.Journal_Put s2 journal key object_id KeyPriority.EAGER = (storage.Status.OK, s3) ∧
        S.Journal_Commit s3 journal = (some (storage.Status.OK, commit_id), s4) ∧
        (PageImpl.Put S key value w).2.calls = w.calls ++
          [StorageCall.AddObjectFromLocal value value.length,
           StorageCall.StartCommit w.branch_tracker.current_commit_ JournalType.IMPLICIT,
           StorageCall.Journal_Put journal key object_id KeyPriority.EAGER,
           StorageCall.Journal_Commit journal] ∧
        (PageImpl.Put S key value w).2.storage = s4 ∧
        (PageImpl.Put S key value w).2.page.journal_ = none ∧
        (PageImpl.Put S key value w).2.branch_tracker =
          w.branch_tracker.SetBranchHead commit_id) ∧
    ((PageImpl.Delete S key w).1 = some Status.OK →
      ∃ (journal : JournalPtr) (commit_id : CommitId) (s1 s2 s3 : σ),
        S.StartCommit w.storage w.branch_tracker.current_commit_ JournalType.IMPLICIT =
          ((storage.Status.OK, some journal), s1) ∧
        S.Journal_Delete s1 journal key = (storage.Status.OK, s2) ∧
        S.Journal_Commit s2 journal = (some (storage.Status.OK, commit_id), s3) ∧
        (PageImpl.Delete S key w).2.calls = w.calls ++
          [StorageCall.StartCommit w.branch_tracker.current_commit_ JournalType.IMPLICIT,
           StorageCall.Journal_Delete journal key,
           StorageCall.Journal_Commit journal] ∧
        (PageImpl.Delete S key w).2.storage = s3 ∧
        (PageImpl.Delete S key w).2.page.journal_ = none ∧
        (PageImpl.Delete S key w).2.branch_tracker =
          w.branch_tracker.SetBranchHead commit_id) ∧
    (∀ (RandomId : Nat → String) (wf : World FakePageStorage),
      wf.page.journal_ = none → wf.storage.autocommit_ = true →
      (PageImpl.Put (FakePageStorage.toPageStorage RandomId) key value wf).1 =
        some Status.OK ∧
      (PageImpl.Delete (FakePageStorage.toPageStorage RandomId) key wf).1 =
        some Status.OK) := by
  refine ⟨?_, ?_, ?_⟩
  · intro hOK
    unfold PageImpl.Put PageImpl.PutWithPriority PageImpl.PutWithPriority_callback at hOK ⊢
    rcases hA : S.AddObjectFromLocal w.storage value value.length with ⟨⟨astatus, object_id⟩, s1⟩
    have hA1 : w.AddObjectFromLocal S value value.length =
        ((astatus, object_id), { w with storage := s1, calls := w.calls ++
          [StorageCall.AddObjectFromLocal value value.length] }) := by
      simp [World.AddObjectFromLocal, hA]
    simp only [hA1] at hOK ⊢
    by_cases hst : astatus = storage.Status.OK
    · subst hst
      simp only [ne_eq, not_true_eq_false, ↓reduceIte] at hOK ⊢
      unfold PageImpl.PutInCommit at hOK ⊢
      obtain ⟨journal, commit_id, hS, hR, hC, hEq⟩ :=
        RunInTransaction_implicit_OK S _ _ (by simpa using h) hOK
      rw [hEq, CommitJournal_eq]
      simp only [World.StartCommit, World.Journal_Put] at hS hR hC ⊢
      simp only [hC]
      refine ⟨object_id, journal, commit_id, s1, _, _, _, rfl, Prod.ext hS rfl,
        Prod.ext ?_ rfl, Prod.ext hC rfl, ?_, rfl, ?_, ?_⟩
      · exact (ConvertStatus_eq_OK_iff _ _ kDefault_ne_OK).1 hR
      · simp [PageImpl.toKeyPriority]
      · simpa using h
      · simp
    · have : ConvertStatus astatus kDefaultNotFoundStatus ≠ Status.OK :=
        ConvertStatus_ne_OK _ _ kDefault_ne_OK hst
      simp [hst, this] at hOK
  · intro hOK
    unfold PageImpl.Delete at hOK ⊢
    obtain ⟨journal, commit_id, hS, hR, hC, hEq⟩ :=
      RunInTransaction_implicit_OK S _ _ h hOK
    rw [hEq, CommitJournal_eq]
    simp only [World.StartCommit, World.Journal_Delete] at hS hR hC ⊢
    simp only [hC]
    refine ⟨journal, commit_id, _, _, _, Prod.ext hS rfl, Prod.ext ?_ rfl, Prod.ext hC rfl,
      ?_, rfl, ?_, ?_⟩
    · exact (ConvertStatus_eq_OK_iff _ _ (by decide)).1 hR
    · simp
    · simpa using h
    · simp
  · intro RandomId wf hjournal hauto
    constructor
    · simp [PageImpl.Put, PageImpl.PutWithPriority, PageImpl.PutWithPriority_callback,
        World.AddObjectFromLocal, FakePageStorage.toPageStorage,
        FakePageStorage.AddObjectFromLocal, PageImpl.PutInCommit,
        PageImpl.RunInTransaction, hjournal, World.StartCommit, FakePageStorage.StartCommit,
        World.Journal_Put, FakePageStorage.withDelegate, storage.mapFind_mapAssign_self,
        FakeJournalDelegate.create, FakeJournalDelegate.SetValue, ConvertStatus,
        PageImpl.CommitJournal, World.Journal_Commit, FakeJournalDelegate.Commit, hauto,
        PageImpl.CommitJournal_callback]
    · simp [PageImpl.Delete, PageImpl.RunInTransaction, hjournal, World.StartCommit,
        FakePageStorage.toPageStorage, FakePageStorage.StartCommit, World.Journal_Delete,
        FakePageStorage.withDelegate, storage.mapFind_mapAssign_self,
        FakeJournalDelegate.create, FakeJournalDelegate.Delete, ConvertStatus,
        PageImpl.CommitJournal, World.Journal_Commit, FakeJournalDelegate.Commit, hauto,
        PageImpl.CommitJournal_callback]

/-- The tests `PutNoTransaction` and `DeleteNoTransaction`: on a handle just
bound on the fake storage both operations report `OK`; the requests are the
ones of the theorem, and the fake storage ends with one object and one
committed journal of one entry (`Put`), with no object and one committed journal
whose single entry is marked deleted (`Delete`). -/
theorem Put_Delete_outside_transaction_witness :
    Example.world0.page.journal_ = none ∧
    (PageImpl.Put Example.Fake "some_key" "a small value" Example.world0).1 = some Status.OK ∧
    (PageImpl.Delete Example.Fake "some_key" Example.world0).1 = some Status.OK ∧
    (∃ (object_id : ObjectId) (journal : JournalPtr),
      (PageImpl.Put Example.Fake "some_key" "a small value" Example.world0).2.calls =
        Example.world0.calls ++
          [StorageCall.AddObjectFromLocal "a small value" ("a small value" : String).length,
           StorageCall.StartCommit "" JournalType.IMPLICIT,
           StorageCall.Journal_Put journal "some_key" object_id KeyPriority.EAGER,
           StorageCall.Journal_Commit journal]) ∧
    (∃ journal : JournalPtr,
      (PageImpl.Delete Example.Fake "some_key" Example.world0).2.calls =
        Example.world0.calls ++
          [StorageCall.StartCommit "" JournalType.IMPLICIT,
           StorageCall.Journal_Delete journal "some_key",
           StorageCall.Journal_Commit journal]) ∧
    (PageImpl.Put Example.Fake "some_key" "a small value" Example.world0).2.storage.objects_ =
      [("id0", "a small value")] ∧
    (PageImpl.Put Example.Fake "some_key" "a small value" Example.world0).2.storage.journals_ =
      [("id1", some
        { autocommit_ := true, id_ := "id1", is_committed_ := true, is_rolled_back_ := false,
          data_ := [("some_key", { value := "id0", deleted := false, priority := KeyPriority.EAGER })],
          commit_pending_ := false })] ∧
    (PageImpl.Delete Example.Fake "some_key" Example.world0).2.storage.objects_ = [] ∧
    (PageImpl.Delete Example.Fake "some_key" Example.world0).2.storage.journals_ =
      [("id0", some
        { autocommit_ := true, id_ := "id0", is_committed_ := true, is_rolled_back_ := false,
          data_ := [("some_key", { value := "", deleted := true, priority := KeyPriority.EAGER })],
          commit_pending_ := false })] := by
  have H := Put_Delete_outside_transaction Example.Fake Example.world0 "some_key"
    "a small value" (by decide)
  obtain ⟨object_id, journal, _, _, _, _, _, _, _, _, _, hcalls, _⟩ := H.1 (by decide)
  obtain ⟨journal2, _, _, _, _, _, _, _, hcalls2, _⟩ := H.2.1 (by decide)
  exact ⟨by decide, by decide, by decide, ⟨object_id, journal, hcalls⟩, ⟨journal2, hcalls2⟩,
    by decide, by decide, by decide, by decide⟩

/-- Claim C4: `PutReference` sends the `GetObject` request and nothing else.
When the fake storage serves the request in a state in which the object store
does not hold the id, the operation reports `REFERENCE_NOT_FOUND` and changes
nothing: the page (with its open journal, if any), the branch tracker, the
storage (objects and journals) and the log are as before, so no `StartCommit`
is sent.  A `PutReference` whose request is served at once thus changes
nothing but the log, which gains the `GetObject` request.  The same holds for
every storage whose `GetObject` answers `NOT_FOUND`, whenever it answers. -/
theorem PutReference_missing_object (RandomId : Nat → String) (w : World FakePageStorage)
    (key : String) (reference : ObjectId) (priority : Priority)
    (h : storage.mapFind reference w.storage.objects_ = none) :
    PageImpl.PutReference key reference priority w =
      (none, { w with calls := w.calls ++ [StorageCall.GetObject reference] }) ∧
    PageImpl.PutReference_completion (FakePageStorage.toPageStorage RandomId) key reference
      priority w = (some Status.REFERENCE_NOT_FOUND, w) ∧
    PageImpl.PutReference_completion (FakePageStorage.toPageStorage RandomId) key reference
      priority (PageImpl.PutReference key reference priority w).2 =
      (some Status.REFERENCE_NOT_FOUND,
       { w with calls := w.calls ++ [StorageCall.GetObject reference] }) ∧
    ∀ (τ : Type) (S : PageStorage τ) (w1 : World τ),
      PageImpl.PutReference_callback S key reference priority storage.Status.NOT_FOUND w1 =
        (some Status.REFERENCE_NOT_FOUND, w1) := by
  refine ⟨rfl, ?_, ?_, ?_⟩
  · simp [PageImpl.PutReference_completion, PageImpl.PutReference_callback,
      World.GetObject_response, FakePageStorage.toPageStorage, FakePageStorage.GetObject, h,
      ConvertStatus]
  · simp [PageImpl.PutReference, PageImpl.PutReference_completion,
      PageImpl.PutReference_callback, World.GetObject, World.GetObject_response,
      FakePageStorage.toPageStorage, FakePageStorage.GetObject, h, ConvertStatus]
  · intro τ S w1
    simp [PageImpl.PutReference_callback, ConvertStatus]

/-- A reference to `some_id`, which the fake storage does not hold, inside the
transaction of `world1`: the request is served at once. -/
theorem PutReference_missing_object_witness :
    storage.mapFind "some_id" Example.world1.storage.objects_ = none ∧
    PageImpl.PutReference_completion Example.Fake "some_key" "some_id" Priority.LAZY
      (PageImpl.PutReference "some_key" "some_id" Priority.LAZY Example.world1).2 =
      (some Status.REFERENCE_NOT_FOUND,
       { Example.world1 with
         calls := Example.world1.calls ++ [StorageCall.GetObject "some_id"] }) :=
  ⟨by decide,
   (PutReference_missing_object Example.RandomId Example.world1 "some_key" "some_id"
      Priority.LAZY (by decide)).2.2.1⟩

/-- Claim C5, as stated, fails on the code, in two ways.  The test
`PutReferenceNoTransaction` puts a reference to `some_id`, never added to the
fake storage, outside a transaction: when the storage serves the `GetObject`
request it answers `NOT_FOUND`, the operation reports `REFERENCE_NOT_FOUND`
instead of `OK`, and no journal is created.  And for the id `id0`, which the
storage holds: when a `StartTransaction` comes between the `PutReference`,
issued outside a transaction, and the answer of the storage, the operation
reports `OK` but the entry goes into the journal `id1` of that transaction,
which is left open and not committed. -/
theorem PutReference_unknown_id_counterexample :
    storage.mapFind "some_id" Example.world0.storage.objects_ = none ∧
    Example.world0.page.journal_ = none ∧
    (PageImpl.PutReference "some_key" "some_id" Priority.LAZY Example.world0).1 = none ∧
    (PageImpl.PutReference_completion Example.Fake "some_key" "some_id" Priority.LAZY
      (PageImpl.PutReference "some_key" "some_id" Priority.LAZY Example.world0).2).1
      ≠ some Status.OK ∧
    (PageImpl.PutReference_completion Example.Fake "some_key" "some_id" Priority.LAZY
      (PageImpl.PutReference "some_key" "some_id" Priority.LAZY Example.world0).2).1
      = some Status.REFERENCE_NOT_FOUND ∧
    (PageImpl.PutReference_completion Example.Fake "some_key" "some_id" Priority.LAZY
      (PageImpl.PutReference "some_key" "some_id" Priority.LAZY
        Example.world0).2).2.storage.journals_ = [] ∧
    -- a transaction is started before the storage answers
    storage.mapFind "id0" Example.world_with_object.storage.objects_ = some "a small value" ∧
    Example.world_with_object.page.journal_ = none ∧
    (PageImpl.PutReference_completion Example.Fake "some_key" "id0" Priority.LAZY
      (PageImpl.StartTransaction Example.Fake
        (PageImpl.PutReference "some_key" "id0" Priority.LAZY
          Example.world_with_object).2).2).1 = some Status.OK ∧
    (PageImpl.PutReference_completion Example.Fake "some_key" "id0" Priority.LAZY
      (PageImpl.StartTransaction Example.Fake
        (PageImpl.PutReference "some_key" "id0" Priority.LAZY
          Example.world_with_object).2).2).2.page.journal_ = some "id1" ∧
    (PageImpl.PutReference_completion Example.Fake "some_key" "id0" Priority.LAZY
      (PageImpl.StartTransaction Example.Fake
        (PageImpl.PutReference "some_key" "id0" Priority.LAZY
          Example.world_with_object).2).2).2.storage.journals_ =
      [("id1", some
        { autocommit_ := true, id_ := "id1", is_committed_ := false, is_rolled_back_ := false,
          data_ := [("some_key", { value := "id0", deleted := false, priority := KeyPriority.LAZY })],
          commit_pending_ := false })] := by
  decide

/-- Claim C5, amended: `PutReference` sends the `GetObject` request and reports
nothing yet.  On the fake storage with `autocommit_`, for every key, priority
and reference: when the storage serves the request in a state in which the
object store holds the id and the handle has no explicit journal open, the
operation reports `OK`, adds no object, and adds one journal (under a fresh id,
the only journal when there was none), committed, whose single entry maps the
key to the reference's object id, not deleted, with the requested priority; the
branch head becomes that commit. -/
theorem PutReference_existing_object (RandomId : Nat → String) (w : World FakePageStorage)
    (key : String) (reference : ObjectId) (priority : Priority) (content : String)
    (hjournal : w.page.journal_ = none)
    (hobject : storage.mapFind reference w.storage.objects_ = some content)
    (hauto : w.storage.autocommit_ = true) :
    (∀ w0 : World FakePageStorage,
      PageImpl.PutReference key reference priority w0 =
        (none, { w0 with calls := w0.calls ++ [StorageCall.GetObject reference] })) ∧
    (PageImpl.PutReference_completion (FakePageStorage.toPageStorage RandomId) key reference
      priority w).1 = some Status.OK ∧
    (PageImpl.PutReference_completion (FakePageStorage.toPageStorage RandomId) key reference
      priority w).2.storage.objects_ = w.storage.objects_ ∧
    (PageImpl.PutReference_completion (FakePageStorage.toPageStorage RandomId) key reference
      priority w).2.storage.journals_ =
      storage.mapAssign (RandomId w.storage.random_ids_drawn_)
        (some
          { autocommit_ := true, id_ := RandomId w.storage.random_ids_drawn_,
            is_committed_ := true, is_rolled_back_ := false,
            data_ := [(key, { value := reference, deleted := false,
                              priority := PageImpl.toKeyPriority priority })],
            commit_pending_ := false })
        w.storage.journals_ ∧
    (PageImpl.PutReference_completion (FakePageStorage.toPageStorage RandomId) key reference
      priority w).2.page.journal_ = none ∧
    (PageImpl.PutReference_completion (FakePageStorage.toPageStorage RandomId) key reference
      priority w).2.branch_tracker.current_commit_ = RandomId w.storage.random_ids_drawn_ := by
  refine ⟨fun _ => rfl, ?_⟩
  simp [PageImpl.PutReference_completion, PageImpl.PutReference_callback,
    World.GetObject_response,
    FakePageStorage.toPageStorage, FakePageStorage.GetObject, hobject, PageImpl.PutInCommit,
    PageImpl.RunInTransaction, hjournal, World.StartCommit, FakePageStorage.StartCommit,
    World.Journal_Put, FakePageStorage.withDelegate, storage.mapFind_mapAssign_self,
    storage.mapAssign_mapAssign_self, FakeJournalDelegate.create, FakeJournalDelegate.SetValue,
    ConvertStatus, PageImpl.CommitJournal, World.Journal_Commit, FakeJournalDelegate.Commit,
    hauto, PageImpl.CommitJournal_callback, BranchTracker.SetBranchHead, storage.mapAssign,
    BranchTracker.GetBranchHeadId]

/-- A reference to the object `id0` the fake storage holds, put with priority
`LAZY` outside a transaction, the request being served at once: `OK`, still
one object, and exactly one journal, committed, with the single entry
`some_key`. -/
theorem PutReference_existing_object_witness :
    (PageImpl.PutReference "some_key" "id0" Priority.LAZY
      Example.world_with_object).2.page.journal_ = none ∧
    storage.mapFind "id0"
      (PageImpl.PutReference "some_key" "id0" Priority.LAZY
        Example.world_with_object).2.storage.objects_ = some "a small value" ∧
    (PageImpl.PutReference "some_key" "id0" Priority.LAZY
      Example.world_with_object).2.storage.autocommit_ = true ∧
    (PageImpl.PutReference_completion Example.Fake "some_key" "id0" Priority.LAZY
      (PageImpl.PutReference "some_key" "id0" Priority.LAZY
        Example.world_with_object).2).1 = some Status.OK ∧
    (PageImpl.PutReference_completion Example.Fake "some_key" "id0" Priority.LAZY
      (PageImpl.PutReference "some_key" "id0" Priority.LAZY
        Example.world_with_object).2).2.storage.objects_ = [("id0", "a small value")] ∧
    (PageImpl.PutReference_completion Example.Fake "some_key" "id0" Priority.LAZY
      (PageImpl.PutReference "some_key" "id0" Priority.LAZY
        Example.world_with_object).2).2.storage.journals_ =
      [("id1", some
        { autocommit_ := true, id_ := "id1", is_committed_ := true, is_rolled_back_ := false,
          data_ := [("some_key", { value := "id0", deleted := false, priority := KeyPriority.LAZY })],
          commit_pending_ := false })] := by
  have H := PutReference_existing_object Example.RandomId
    (PageImpl.PutReference "some_key" "id0" Priority.LAZY Example.world_with_object).2
    "some_key" "id0" Priority.LAZY "a small value" (by decide) (by decide) (by decide)
  exact ⟨by decide, by decide, by decide, H.2.1, H.2.2.1, H.2.2.2.1⟩

/-- Claim C6, as stated, fails on the code, in two ways.  With the explicit
journal `id0` open on the fake storage, `PutReference` of `some_id2` (which the
storage does not hold, as in the test `TransactionCommit`) is stopped when the
storage serves the `GetObject` request: it reports `REFERENCE_NOT_FOUND`, the
only request sent is `GetObject`, the storage with the journal is untouched,
although the journal would have taken the mutation and answered `OK`.  And for
the id `id0`, which the storage holds: when the `Commit` of the transaction
comes between the `PutReference` and the answer of the storage, the journal
`id1` of the transaction is committed without the entry, and the callback
starts the journal `id2` of its own (`StartCommit` of an `IMPLICIT` journal),
puts the entry there and commits it. -/
theorem PutReference_in_transaction_counterexample :
    Example.world1.page.journal_ = some "id0" ∧
    (PageImpl.PutReference_completion Example.Fake "some_key2" "some_id2" Priority.LAZY
      (PageImpl.PutReference "some_key2" "some_id2" Priority.LAZY Example.world1).2).1
      = some Status.REFERENCE_NOT_FOUND ∧
    (PageImpl.PutReference_completion Example.Fake "some_key2" "some_id2" Priority.LAZY
      (PageImpl.PutReference "some_key2" "some_id2" Priority.LAZY Example.world1).2).2.calls =
      Example.world1.calls ++ [StorageCall.GetObject "some_id2"] ∧
    (PageImpl.PutReference_completion Example.Fake "some_key2" "some_id2" Priority.LAZY
      (PageImpl.PutReference "some_key2" "some_id2" Priority.LAZY Example.world1).2).2.storage =
      Example.world1.storage ∧
    ConvertStatus
      (Example.Fake.Journal_Put Example.world1.storage "id0" "some_key2" "some_id2"
        KeyPriority.LAZY).1 kDefaultNotFoundStatus = Status.OK ∧
    -- the transaction is committed before the storage answers
    (PageImpl.StartTransaction Example.Fake Example.world_with_object).2.page.journal_ =
      some "id1" ∧
    (PageImpl.steps Example.Fake
      [PageImpl.Op.StartTransaction,
       PageImpl.Op.PutReference "some_key2" "id0" Priority.LAZY,
       PageImpl.Op.Commit,
       PageImpl.Op.PutReference_completion "some_key2" "id0" Priority.LAZY]
      Example.world_with_object).calls =
      [StorageCall.StartCommit "" JournalType.EXPLICIT,
       StorageCall.GetObject "id0",
       StorageCall.Journal_Commit "id1",
       StorageCall.StartCommit "id1" JournalType.IMPLICIT,
       StorageCall.Journal_Put "id2" "some_key2" "id0" KeyPriority.LAZY,
       StorageCall.Journal_Commit "id2"] ∧
    (PageImpl.steps Example.Fake
      [PageImpl.Op.StartTransaction,
       PageImpl.Op.PutReference "some_key2" "id0" Priority.LAZY,
       PageImpl.Op.Commit,
       PageImpl.Op.PutReference_completion "some_key2" "id0" Priority.LAZY]
      Example.world_with_object).storage.journals_ =
      [("id1", some
        { autocommit_ := true, id_ := "id1", is_committed_ := true, is_rolled_back_ := false,
          data_ := [], commit_pending_ := false }),
       ("id2", some
        { autocommit_ := true, id_ := "id2", is_committed_ := true, is_rolled_back_ := false,
          data_ := [("some_key2", { value := "id0", deleted := false,
                                    priority := KeyPriority.LAZY })],
          commit_pending_ := false })] := by
  decide

/-- Claim C6, amended: while the explicit journal `journal` is open,
* `Delete` sends `Delete(key)` to that journal and reports its converted status;
* `Put` stores the value and, if the object store answered `OK`, sends
  `Put(key, object_id, EAGER)` to that journal and reports its converted status;
  else it reports the object store's converted status and sends the journal
  nothing;
* `PutReference` asks for the object and reports nothing yet; when the storage
  serves the request while the journal is open, then, if `GetObject` answered
  `OK`, `Put(key, reference, priority)` is sent to that journal and its
  converted status is reported; else the converted `GetObject` status is
  reported (`REFERENCE_NOT_FOUND` for `NOT_FOUND`) and the journal is sent
  nothing.
In every case, whatever the status, the page (the journal stays open, its
parent commit and the in-progress list are kept) and the branch tracker (head
and transaction flag) are unchanged, and the requests sent are only the ones
listed: no `StartCommit`, no `Commit`, no `Rollback`. -/
theorem mutation_in_explicit_transaction (S : PageStorage σ) (w : World σ)
    (journal : JournalPtr) (key value : String) (reference : ObjectId) (priority : Priority)
    (h : w.page.journal_ = some journal) :
    PageImpl.Delete S key w =
      (some (ConvertStatus (S.Journal_Delete w.storage journal key).1 Status.KEY_NOT_FOUND),
       { w with storage := (S.Journal_Delete w.storage journal key).2,
                calls := w.calls ++ [StorageCall.Journal_Delete journal key] }) ∧
    PageImpl.Put S key value w =
      (if (S.AddObjectFromLocal w.storage value value.length).1.1 = storage.Status.OK then
        (some (ConvertStatus
            (S.Journal_Put (S.AddObjectFromLocal w.storage value value.length).2 journal key
              (S.AddObjectFromLocal w.storage value value.length).1.2 KeyPriority.EAGER).1
            kDefaultNotFoundStatus),
         { w with
           storage :=
             (S.Journal_Put (S.AddObjectFromLocal w.storage value value.length).2 journal key
               (S.AddObjectFromLocal w.storage value value.length).1.2 KeyPriority.EAGER).2,
           calls := w.calls ++
             [StorageCall.AddObjectFromLocal value value.length,
              StorageCall.Journal_Put journal key
                (S.AddObjectFromLocal w.storage value value.length).1.2 KeyPriority.EAGER] })
      else
        (some (ConvertStatus (S.AddObjectFromLocal w.storage value value.length).1.1
            kDefaultNotFoundStatus),
         { w with
           storage := (S.AddObjectFromLocal w.storage value value.length).2,
           calls := w.calls ++ [StorageCall.AddObjectFromLocal value value.length] })) ∧
    PageImpl.PutReference key reference priority w =
      (none, { w with calls := w.calls ++ [StorageCall.GetObject reference] }) ∧
    PageImpl.PutReference_completion S key reference priority w =
      (if (S.GetObject w.storage reference).1 = storage.Status.OK then
        (some (ConvertStatus
            (S.Journal_Put (S.GetObject w.storage reference).2 journal key reference
              (PageImpl.toKeyPriority priority)).1
            kDefaultNotFoundStatus),
         { w with
           storage :=
             (S.Journal_Put (S.GetObject w.storage reference).2 journal key reference
               (PageImpl.toKeyPriority priority)).2,
           calls := w.calls ++
             [StorageCall.Journal_Put journal key reference
                (PageImpl.toKeyPriority priority)] })
      else
        (some (ConvertStatus (S.GetObject w.storage reference).1 Status.REFERENCE_NOT_FOUND),
         { w with storage := (S.GetObject w.storage reference).2 })) := by
  refine ⟨?_, ?_, rfl, ?_⟩
  · simp [PageImpl.Delete, PageImpl.RunInTransaction, h, World.Journal_Delete]
  · by_cases hA : (S.AddObjectFromLocal w.storage value value.length).1.1 = storage.Status.OK <;>
      simp [PageImpl.Put, PageImpl.PutWithPriority, PageImpl.PutWithPriority_callback,
        World.AddObjectFromLocal, hA, PageImpl.PutInCommit, PageImpl.RunInTransaction, h,
        World.Journal_Put, PageImpl.toKeyPriority]
  · by_cases hG : (S.GetObject w.storage reference).1 = storage.Status.OK <;>
      simp [PageImpl.PutReference_completion, PageImpl.PutReference_callback,
        World.GetObject_response, hG, PageImpl.PutInCommit, PageImpl.RunInTransaction, h,
        World.Journal_Put]

/-- As in the test `TransactionCommit`, on the fake storage: in the
transaction of `handleA` (journal `id0`, holding `some_key`) a `Put` and a
`Delete` report `OK`, leave the journal open, and reach the journal `id0`. -/
theorem mutation_in_explicit_transaction_witness :
    Example.handleA.page.journal_ = some "id0" ∧
    (PageImpl.Delete Example.Fake "some_key" Example.handleA).1 = some Status.OK ∧
    (PageImpl.Delete Example.Fake "some_key" Example.handleA).2.page = Example.handleA.page ∧
    (PageImpl.Delete Example.Fake "some_key" Example.handleA).2.branch_tracker =
      Example.handleA.branch_tracker ∧
    (PageImpl.Delete Example.Fake "some_key" Example.handleA).2.calls =
      Example.handleA.calls ++ [StorageCall.Journal_Delete "id0" "some_key"] ∧
    (PageImpl.Put Example.Fake "some_key1" "another value" Example.handleA).1 = some Status.OK ∧
    (PageImpl.Put Example.Fake "some_key1" "another value" Example.handleA).2.calls =
      Example.handleA.calls ++
        [StorageCall.AddObjectFromLocal "another value" 13,
         StorageCall.Journal_Put "id0" "some_key1" "id2" KeyPriority.EAGER] := by
  have H := mutation_in_explicit_transaction Example.Fake Example.handleA "id0" "some_key1"
    "another value" "some_id2" Priority.LAZY (by decide)
  have H1 := (mutation_in_explicit_transaction Example.Fake Example.handleA "id0" "some_key"
    "another value" "some_id2" Priority.LAZY (by decide)).1
  refine ⟨by decide, ?_, ?_, ?_, ?_, ?_, ?_⟩
  · rw [H1]; decide
  · rw [H1]
  · rw [H1]
  · rw [H1]
  · rw [H.2.1]; decide
  · rw [H.2.1]; decide

/-- Failures of an implicit transaction whose journal exists: outside any
explicit transaction, when the storage hands out the implicit journal and
either `StartCommit` reports an error or the journal's `Delete` (for `Delete`)
or `Put` (for `Put`, the value being stored) reports one, the operation reports
that failure, converted and never `OK`; the last request sent is the `Rollback`
of the implicit journal, no `Commit` is sent, and the page (no journal in
progress added) and the branch tracker (head included) are unchanged. -/
theorem implicit_mutation_failure (S : PageStorage σ) (w : World σ) (key value : String)
    (h : w.page.journal_ = none) :
    (∀ (status : storage.Status) (journal : JournalPtr) (s1 : σ),
      S.StartCommit w.storage w.branch_tracker.current_commit_ JournalType.IMPLICIT =
        ((status, some journal), s1) →
      (status ≠ storage.Status.OK ∨ (S.Journal_Delete s1 journal key).1 ≠ storage.Status.OK) →
      ∃ failure : Status,
        (PageImpl.Delete S key w).1 = some failure ∧ failure ≠ Status.OK ∧
        failure =
          (if status ≠ storage.Status.OK then ConvertStatus status kDefaultNotFoundStatus
           else ConvertStatus (S.Journal_Delete s1 journal key).1 Status.KEY_NOT_FOUND) ∧
        (PageImpl.Delete S key w).2.calls = w.calls ++
          (if status ≠ storage.Status.OK then
            [StorageCall.StartCommit w.branch_tracker.current_commit_ JournalType.IMPLICIT,
             StorageCall.Journal_Rollback journal]
           else
            [StorageCall.StartCommit w.branch_tracker.current_commit_ JournalType.IMPLICIT,
             StorageCall.Journal_Delete journal key,
             StorageCall.Journal_Rollback journal]) ∧
        (PageImpl.Delete S key w).2.page = w.page ∧
        (PageImpl.Delete S key w).2.branch_tracker = w.branch_tracker ∧
        (PageImpl.Delete S key w).2.undefined_behaviour = w.undefined_behaviour) ∧
    (∀ (object_id : ObjectId) (s0 : σ) (status : storage.Status) (journal : JournalPtr)
        (s1 : σ),
      S.AddObjectFromLocal w.storage value value.length =
        ((storage.Status.OK, object_id), s0) →
      S.StartCommit s0 w.branch_tracker.current_commit_ JournalType.IMPLICIT =
        ((status, some journal), s1) →
      (status ≠ storage.Status.OK ∨
        (S.Journal_Put s1 journal key object_id KeyPriority.EAGER).1 ≠ storage.Status.OK) →
      ∃ failure : Status,
        (PageImpl.Put S key value w).1 = some failure ∧ failure ≠ Status.OK ∧
        failure =
          (if status ≠ storage.Status.OK then ConvertStatus status kDefaultNotFoundStatus
           else ConvertStatus (S.Journal_Put s1 journal key object_id KeyPriority.EAGER).1
             kDefaultNotFoundStatus) ∧
        (PageImpl.Put S key value w).2.calls = w.calls ++
          (if status ≠ storage.Status.OK then
            [StorageCall.AddObjectFromLocal value value.length,
             StorageCall.StartCommit w.branch_tracker.current_commit_ JournalType.IMPLICIT,
             StorageCall.Journal_Rollback journal]
           else
            [StorageCall.AddObjectFromLocal value value.length,
             StorageCall.StartCommit w.branch_tracker.current_commit_ JournalType.IMPLICIT,
             StorageCall.Journal_Put journal key object_id KeyPriority.EAGER,
             StorageCall.Journal_Rollback journal]) ∧
        (PageImpl.Put S key value w).2.page = w.page ∧
        (PageImpl.Put S key value w).2.branch_tracker = w.branch_tracker ∧
        (PageImpl.Put S key value w).2.undefined_behaviour = w.undefined_behaviour) := by
  constructor
  · intro status journal s1 hS hfail
    by_cases hst : status = storage.Status.OK
    · subst hst
      have hD : (S.Journal_Delete s1 journal key).1 ≠ storage.Status.OK := by
        rcases hfail with hf | hf
        · exact absurd rfl hf
        · exact hf
      have hD2 := ConvertStatus_ne_OK _ Status.KEY_NOT_FOUND (by decide) hD
      refine ⟨_, ?_, hD2, by simp, ?_, ?_, ?_, ?_⟩ <;>
        simp [PageImpl.Delete, PageImpl.RunInTransaction, h, World.StartCommit, hS,
          BranchTracker.GetBranchHeadId, World.Journal_Delete, hD2, World.Journal_Rollback]
    · have hC := ConvertStatus_ne_OK _ _ kDefault_ne_OK hst
      refine ⟨_, ?_, hC, by simp [hst], ?_, ?_, ?_, ?_⟩ <;>
        simp [PageImpl.Delete, PageImpl.RunInTransaction, h, World.StartCommit, hS,
          BranchTracker.GetBranchHeadId, hst, World.Journal_Rollback]
  · intro object_id s0 status journal s1 hA hS hfail
    by_cases hst : status = storage.Status.OK
    · subst hst
      have hP : (S.Journal_Put s1 journal key object_id KeyPriority.EAGER).1
          ≠ storage.Status.OK := by
        rcases hfail with hf | hf
        · exact absurd rfl hf
        · exact hf
      have hP2 := ConvertStatus_ne_OK _ _ kDefault_ne_OK hP
      refine ⟨_, ?_, hP2, by simp, ?_, ?_, ?_, ?_⟩ <;>
        simp [PageImpl.Put, PageImpl.PutWithPriority, PageImpl.PutWithPriority_callback,
          World.AddObjectFromLocal, hA, PageImpl.PutInCommit, PageImpl.toKeyPriority,
          PageImpl.RunInTransaction, h, World.StartCommit, hS,
          BranchTracker.GetBranchHeadId, World.Journal_Put, hP2, World.Journal_Rollback]
    · have hC := ConvertStatus_ne_OK _ _ kDefault_ne_OK hst
      refine ⟨_, ?_, hC, by simp [hst], ?_, ?_, ?_, ?_⟩ <;>
        simp [PageImpl.Put, PageImpl.PutWithPriority, PageImpl.PutWithPriority_callback,
          World.AddObjectFromLocal, hA, PageImpl.PutInCommit, PageImpl.toKeyPriority,
          PageImpl.RunInTransaction, h, World.StartCommit, hS,
          BranchTracker.GetBranchHeadId, hst, World.Journal_Rollback]

/-- A `Delete` on a storage whose `StartCommit` reports `IO_ERROR` and hands out
the journal all the same, and a `Put` on a storage whose journals refuse
mutations, both outside a transaction: the failure is reported, the implicit
journal is rolled back and not committed, and the head stays the empty id. -/
theorem implicit_mutation_failure_witness :
    Example.world0.page.journal_ = none ∧
    (PageImpl.Delete Example.FailingStartCommit "some_key" Example.world0).1 =
      some Status.IO_ERROR ∧
    (PageImpl.Delete Example.FailingStartCommit "some_key" Example.world0).2.calls =
      [StorageCall.StartCommit "" JournalType.IMPLICIT, StorageCall.Journal_Rollback "id0"] ∧
    (PageImpl.Delete Example.FailingStartCommit "some_key"
      Example.world0).2.branch_tracker.current_commit_ = "" ∧
    (PageImpl.Put Example.FailingJournal "some_key" "a small value" Example.world0).1 =
      some Status.IO_ERROR ∧
    (PageImpl.Put Example.FailingJournal "some_key" "a small value" Example.world0).2.calls =
      [StorageCall.AddObjectFromLocal "a small value" 13,
       StorageCall.StartCommit "" JournalType.IMPLICIT,
       StorageCall.Journal_Put "id1" "some_key" "id0" KeyPriority.EAGER,
       StorageCall.Journal_Rollback "id1"] ∧
    (PageImpl.Put Example.FailingJournal "some_key" "a small value"
      Example.world0).2.branch_tracker.current_commit_ = "" := by
  obtain ⟨f1, h1, _, h3, h4, _, h6, _⟩ :=
    (implicit_mutation_failure Example.FailingStartCommit Example.world0 "some_key"
      "a small value" (by decide)).1 storage.Status.IO_ERROR "id0"
      (Example.FailingStartCommit.StartCommit Example.world0.storage "" JournalType.IMPLICIT).2
      (by decide) (Or.inl (by decide))
  obtain ⟨f2, k1, _, k3, k4, _, k6, _⟩ :=
    (implicit_mutation_failure Example.FailingJournal Example.world0 "some_key"
      "a small value" (by decide)).2 "id0"
      (Example.FailingJournal.AddObjectFromLocal Example.world0.storage "a small value" 13).2
      storage.Status.OK "id1"
      (Example.FailingJournal.StartCommit
        (Example.FailingJournal.AddObjectFromLocal Example.world0.storage "a small value" 13).2
        "" JournalType.IMPLICIT).2
      (by decide) (by decide) (Or.inr (by decide))
  subst h3 k3
  exact ⟨by decide, h1, h4, by rw [h6]; decide, k1, k4, by rw [k6]; decide⟩

/-- Claim C7 on the code: outside any explicit transaction, when `StartCommit`
reports an error and leaves the journal pointer null, `Delete` and `Put` (the
value being stored) report the converted error, which is not `OK`, and then
`RunInTransaction` calls `Rollback` through the null pointer: no `Rollback`
request reaches a journal, and the behaviour of the handle is undefined from
there on. -/
theorem implicit_mutation_null_journal (S : PageStorage σ) (w : World σ) (key value : String)
    (status : storage.Status) (h : w.page.journal_ = none)
    (hst : status ≠ storage.Status.OK) :
    (∀ s1 : σ,
      S.StartCommit w.storage w.branch_tracker.current_commit_ JournalType.IMPLICIT =
        ((status, none), s1) →
      (PageImpl.Delete S key w).1 = some (ConvertStatus status kDefaultNotFoundStatus) ∧
      ConvertStatus status kDefaultNotFoundStatus ≠ Status.OK ∧
      (PageImpl.Delete S key w).2.calls = w.calls ++
        [StorageCall.StartCommit w.branch_tracker.current_commit_ JournalType.IMPLICIT] ∧
      (PageImpl.Delete S key w).2.undefined_behaviour = true) ∧
    (∀ (object_id : ObjectId) (s0 s1 : σ),
      S.AddObjectFromLocal w.storage value value.length =
        ((storage.Status.OK, object_id), s0) →
      S.StartCommit s0 w.branch_tracker.current_commit_ JournalType.IMPLICIT =
        ((status, none), s1) →
      (PageImpl.Put S key value w).1 = some (ConvertStatus status kDefaultNotFoundStatus) ∧
      (PageImpl.Put S key value w).2.calls = w.calls ++
        [StorageCall.AddObjectFromLocal value value.length,
         StorageCall.StartCommit w.branch_tracker.current_commit_ JournalType.IMPLICIT] ∧
      (PageImpl.Put S key value w).2.undefined_behaviour = true) := by
  constructor
  · intro s1 hS
    refine ⟨?_, ConvertStatus_ne_OK _ _ kDefault_ne_OK hst, ?_, ?_⟩ <;>
      simp [PageImpl.Delete, PageImpl.RunInTransaction, h, World.StartCommit, hS,
        BranchTracker.GetBranchHeadId, hst, World.Journal_Rollback]
  · intro object_id s0 s1 hA hS
    refine ⟨?_, ?_, ?_⟩ <;>
      simp [PageImpl.Put, PageImpl.PutWithPriority, PageImpl.PutWithPriority_callback,
        World.AddObjectFromLocal, hA, PageImpl.PutInCommit, PageImpl.toKeyPriority,
        PageImpl.RunInTransaction, h, World.StartCommit, hS,
        BranchTracker.GetBranchHeadId, hst, World.Journal_Rollback]

/-- On a storage whose `StartCommit` reports `IO_ERROR` and hands out no
journal, a `Delete` and a `Put` outside a transaction, on a handle that was
well so far: `IO_ERROR` is reported, no journal is rolled back, and the handle
has gone through a null pointer. -/
theorem implicit_mutation_null_journal_witness :
    Example.world0.page.journal_ = none ∧
    Example.world0.undefined_behaviour = false ∧
    (Example.NoJournal.StartCommit Example.world0.storage "" JournalType.IMPLICIT).1 =
      (storage.Status.IO_ERROR, none) ∧
    (PageImpl.Delete Example.NoJournal "some_key" Example.world0).1 = some Status.IO_ERROR ∧
    (PageImpl.Delete Example.NoJournal "some_key" Example.world0).2.calls =
      [StorageCall.StartCommit "" JournalType.IMPLICIT] ∧
    (PageImpl.Delete Example.NoJournal "some_key" Example.world0).2.undefined_behaviour =
      true ∧
    (PageImpl.Put Example.NoJournal "some_key" "a small value" Example.world0).1 =
      some Status.IO_ERROR ∧
    (PageImpl.Put Example.NoJournal "some_key" "a small value"
      Example.world0).2.undefined_behaviour = true :=
  ⟨by decide, by decide, by decide,
   ((implicit_mutation_null_journal Example.NoJournal Example.world0 "some_key"
      "a small value" storage.Status.IO_ERROR (by decide) (by decide)).1
      Example.world0.storage (by decide)).1,
   ((implicit_mutation_null_journal Example.NoJournal Example.world0 "some_key"
      "a small value" storage.Status.IO_ERROR (by decide) (by decide)).1
      Example.world0.storage (by decide)).2.2.1,
   ((implicit_mutation_null_journal Example.NoJournal Example.world0 "some_key"
      "a small value" storage.Status.IO_ERROR (by decide) (by decide)).1
      Example.world0.storage (by decide)).2.2.2,
   ((implicit_mutation_null_journal Example.NoJournal Example.world0 "some_key"
      "a small value" storage.Status.IO_ERROR (by decide) (by decide)).2 "id0"
      (Example.NoJournal.AddObjectFromLocal Example.world0.storage "a small value" 13).2
      (Example.NoJournal.AddObjectFromLocal Example.world0.storage "a small value" 13).2
      (by decide) (by decide)).1,
   ((implicit_mutation_null_journal Example.NoJournal Example.world0 "some_key"
      "a small value" storage.Status.IO_ERROR (by decide) (by decide)).2 "id0"
      (Example.NoJournal.AddObjectFromLocal Example.world0.storage "a small value" 13).2
      (Example.NoJournal.AddObjectFromLocal Example.world0.storage "a small value" 13).2
      (by decide) (by decide)).2.2⟩

/-- Claim C8: when `StartTransaction` succeeds (no journal was open and
`StartCommit` answered `OK` with the journal `journal`), a following `Rollback`
reports the converted status of the journal's `Rollback` (`OK` when the journal
answers `OK`); the only requests sent are the `StartCommit` and that `Rollback`
(no mutation reached the journal, no `Commit` was sent); the handle has no
journal any more, the in-progress list and the branch head are as before and the
tracker is out of transaction mode; a second `Rollback` right after reports
`NO_TRANSACTION_IN_PROGRESS` and changes nothing. -/
theorem StartTransaction_then_Rollback (S : PageStorage σ) (w : World σ)
    (journal : JournalPtr) (s1 : σ)
    (h : w.page.journal_ = none)
    (hS : S.StartCommit w.storage w.branch_tracker.current_commit_ JournalType.EXPLICIT =
      ((storage.Status.OK, some journal), s1)) :
    (PageImpl.StartTransaction S w).1 = some Status.OK ∧
    (PageImpl.StartTransaction S w).2.page.journal_ = some journal ∧
    (PageImpl.Rollback S (PageImpl.StartTransaction S w).2).1 =
      some (ConvertStatus (S.Journal_Rollback s1 journal).1 kDefaultNotFoundStatus) ∧
    ((S.Journal_Rollback s1 journal).1 = storage.Status.OK →
      (PageImpl.Rollback S (PageImpl.StartTransaction S w).2).1 = some Status.OK) ∧
    (PageImpl.Rollback S (PageImpl.StartTransaction S w).2).2.calls = w.calls ++
      [StorageCall.StartCommit w.branch_tracker.current_commit_ JournalType.EXPLICIT,
       StorageCall.Journal_Rollback journal] ∧
    (PageImpl.Rollback S (PageImpl.StartTransaction S w).2).2.storage =
      (S.Journal_Rollback s1 journal).2 ∧
    (PageImpl.Rollback S (PageImpl.StartTransaction S w).2).2.page.journal_ = none ∧
    (PageImpl.Rollback S (PageImpl.StartTransaction S w).2).2.page.in_progress_journals_ =
      w.page.in_progress_journals_ ∧
    (PageImpl.Rollback S (PageImpl.StartTransaction S w).2).2.branch_tracker.current_commit_ =
      w.branch_tracker.current_commit_ ∧
    (PageImpl.Rollback S (PageImpl.StartTransaction S
      w).2).2.branch_tracker.transaction_in_progress_ = false ∧
    PageImpl.Rollback S (PageImpl.Rollback S (PageImpl.StartTransaction S w).2).2 =
      (some Status.NO_TRANSACTION_IN_PROGRESS,
       (PageImpl.Rollback S (PageImpl.StartTransaction S w).2).2) := by
  have hST : PageImpl.StartTransaction S w =
      (some Status.OK,
       { w with page := { w.page with journal_ := some journal,
                                      journal_parent_commit_ := w.branch_tracker.current_commit_ },
                branch_tracker := w.branch_tracker.SetTransactionInProgress true,
                storage := s1,
                calls := w.calls ++
                  [StorageCall.StartCommit w.branch_tracker.current_commit_
                    JournalType.EXPLICIT] }) := by
    simp [PageImpl.StartTransaction, h, World.StartCommit, hS, BranchTracker.GetBranchHeadId,
      ConvertStatus]
  rw [hST]
  refine ⟨rfl, rfl, ?_, ?_, ?_, ?_, ?_, ?_, ?_, ?_, ?_⟩
  · simp [PageImpl.Rollback, World.Journal_Rollback]
  · intro hR
    simp [PageImpl.Rollback, World.Journal_Rollback, hR, ConvertStatus]
  · simp [PageImpl.Rollback, World.Journal_Rollback]
  · simp [PageImpl.Rollback, World.Journal_Rollback]
  · simp [PageImpl.Rollback, World.Journal_Rollback]
  · simp [PageImpl.Rollback, World.Journal_Rollback]
  · simp [PageImpl.Rollback, World.Journal_Rollback, SetTransactionInProgress_head]
  · simp [PageImpl.Rollback, World.Journal_Rollback, SetTransactionInProgress_flag]
  · simp [PageImpl.Rollback, World.Journal_Rollback]

/-- The test `TransactionRollback` on the fake storage: `OK` twice, then
`NO_TRANSACTION_IN_PROGRESS`; no object, and one journal, rolled back, without
entries. -/
theorem StartTransaction_then_Rollback_witness :
    Example.world0.page.journal_ = none ∧
    (PageImpl.StartTransaction Example.Fake Example.world0).1 = some Status.OK ∧
    (PageImpl.Rollback Example.Fake Example.world1).1 = some Status.OK ∧
    (PageImpl.Rollback Example.Fake (PageImpl.Rollback Example.Fake Example.world1).2).1 =
      some Status.NO_TRANSACTION_IN_PROGRESS ∧
    (PageImpl.Rollback Example.Fake Example.world1).2.branch_tracker.current_commit_ = "" ∧
    (PageImpl.Rollback Example.Fake Example.world1).2.storage.objects_ = [] ∧
    (PageImpl.Rollback Example.Fake Example.world1).2.storage.journals_ =
      [("id0", some
        { autocommit_ := true, id_ := "id0", is_committed_ := false, is_rolled_back_ := true,
          data_ := [], commit_pending_ := false })] := by
  have H := StartTransaction_then_Rollback Example.Fake Example.world0 "id0"
    (Example.Fake.StartCommit Example.world0.storage "" JournalType.EXPLICIT).2
    (by decide) (by decide)
  exact ⟨by decide, H.1, H.2.2.2.1 (by decide),
    congrArg Prod.fst H.2.2.2.2.2.2.2.2.2.2, H.2.2.2.2.2.2.2.2.1, by decide, by decide⟩

/-- Claim C9: `Commit` with an explicit journal open leaves the handle without
journal and the tracker out of transaction mode, whether `Journal::Commit` runs
its callback at once or later and whatever status that callback carries (the
callback touches neither).  Afterwards `Commit` and `Rollback` report
`NO_TRANSACTION_IN_PROGRESS` and change nothing, `StartTransaction` is not
refused and sends `StartCommit` for an `EXPLICIT` journal on the head, and a
`Put` stores its value and then (the store answering `OK`) sends `StartCommit`
for a fresh `IMPLICIT` journal on the head. -/
theorem Commit_discards_journal (S : PageStorage σ) (w : World σ) (journal : JournalPtr)
    (key value : String) (h : w.page.journal_ = some journal) :
    (PageImpl.Commit S w).2.page.journal_ = none ∧
    (PageImpl.Commit S w).2.branch_tracker.transaction_in_progress_ = false ∧
    (∀ (status : storage.Status) (commit_id : CommitId),
      (PageImpl.CommitJournal_callback journal status commit_id
        (PageImpl.Commit S w).2).2.page.journal_ = none ∧
      (PageImpl.CommitJournal_callback journal status commit_id
        (PageImpl.Commit S w).2).2.branch_tracker.transaction_in_progress_ = false) ∧
    PageImpl.Commit S (PageImpl.Commit S w).2 =
      (some Status.NO_TRANSACTION_IN_PROGRESS, (PageImpl.Commit S w).2) ∧
    PageImpl.Rollback S (PageImpl.Commit S w).2 =
      (some Status.NO_TRANSACTION_IN_PROGRESS, (PageImpl.Commit S w).2) ∧
    (PageImpl.StartTransaction S (PageImpl.Commit S w).2).1 ≠
      some Status.TRANSACTION_ALREADY_IN_PROGRESS ∧
    (PageImpl.StartTransaction S (PageImpl.Commit S w).2).2.calls =
      (PageImpl.Commit S w).2.calls ++
        [StorageCall.StartCommit (PageImpl.Commit S w).2.branch_tracker.current_commit_
          JournalType.EXPLICIT] ∧
    (∃ rest : List StorageCall,
      (PageImpl.Put S key value (PageImpl.Commit S w).2).2.calls =
        (PageImpl.Commit S w).2.calls ++
          StorageCall.AddObjectFromLocal value value.length :: rest ∧
      ((S.AddObjectFromLocal (PageImpl.Commit S w).2.storage value value.length).1.1 =
          storage.Status.OK →
        ∃ rest1 : List StorageCall, rest =
          StorageCall.StartCommit (PageImpl.Commit S w).2.branch_tracker.current_commit_
            JournalType.IMPLICIT :: rest1)) := by
  have hC : (PageImpl.Commit S w).2.page.journal_ = none := by
    simp only [PageImpl.Commit, h]
    rw [CommitJournal_eq]
    split <;> rfl
  have hF : (PageImpl.Commit S w).2.branch_tracker.transaction_in_progress_ = false := by
    simp only [PageImpl.Commit, h]
    exact SetTransactionInProgress_flag _ _
  generalize (PageImpl.Commit S w).2 = w2 at hC hF ⊢
  refine ⟨hC, hF, ?_, ?_, ?_, ?_, ?_, ?_⟩
  · intro status commit_id
    unfold PageImpl.CommitJournal_callback
    by_cases hs : status = storage.Status.OK
    · simp [hs, hC, hF, BranchTracker.SetBranchHead]
    · simp [hs, hC, hF]
  · simp [PageImpl.Commit, hC]
  · simp [PageImpl.Rollback, hC]
  · simp only [PageImpl.StartTransaction, hC]
    cases (World.StartCommit S _ JournalType.EXPLICIT _).1.1 <;>
      simp [ConvertStatus, kDefaultNotFoundStatus]
  · simp [PageImpl.StartTransaction, hC, World.StartCommit, BranchTracker.GetBranchHeadId]
  · exact Put_implicit_calls S w2 key value hC

/-- The first handle of the test `ParallelPut` on the fake storage: after its
`Commit` the handle has no journal, a second `Commit` and a `Rollback` are
refused, `StartTransaction` is accepted, and a `Put` runs in the fresh implicit
journal `id3`. -/
theorem Commit_discards_journal_witness :
    Example.handleA.page.journal_ = some "id0" ∧
    (PageImpl.Commit Example.Fake Example.handleA).1 = some Status.OK ∧
    (PageImpl.Commit Example.Fake Example.handleA).2.page.journal_ = none ∧
    (PageImpl.Commit Example.Fake
      Example.handleA).2.branch_tracker.transaction_in_progress_ = false ∧
    (PageImpl.Commit Example.Fake (PageImpl.Commit Example.Fake Example.handleA).2).1 =
      some Status.NO_TRANSACTION_IN_PROGRESS ∧
    (PageImpl.Rollback Example.Fake (PageImpl.Commit Example.Fake Example.handleA).2).1 =
      some Status.NO_TRANSACTION_IN_PROGRESS ∧
    (PageImpl.StartTransaction Example.Fake
      (PageImpl.Commit Example.Fake Example.handleA).2).1 = some Status.OK ∧
    (PageImpl.Put Example.Fake "some_key2" "another value"
      (PageImpl.Commit Example.Fake Example.handleA).2).2.calls =
      (PageImpl.Commit Example.Fake Example.handleA).2.calls ++
        [StorageCall.AddObjectFromLocal "another value" 13,
         StorageCall.StartCommit "id0" JournalType.IMPLICIT,
         StorageCall.Journal_Put "id3" "some_key2" "id2" KeyPriority.EAGER,
         StorageCall.Journal_Commit "id3"] := by
  have H := Commit_discards_journal Example.Fake Example.handleA "id0" "some_key2"
    "another value" (by decide)
  exact ⟨by decide, by decide, H.1, H.2.1, congrArg Prod.fst H.2.2.2.1,
    congrArg Prod.fst H.2.2.2.2.1, by decide, by decide⟩

/-- Claim C10: when the commit callback of `CommitJournal` runs with
`(status, commit_id)`, later or from inside `Journal::Commit`: the client gets
the converted status; on `OK` the branch head of this handle becomes
`commit_id` (`SetBranchHead`), on any other status the branch tracker is
unchanged; the journal is no longer in the in-progress list while the other
journals of the list stay; the open explicit journal, if any, and the storage
are not touched. -/
theorem CommitJournal_completion (S : PageStorage σ) (w : World σ) (journal : JournalPtr)
    (status : storage.Status) (commit_id : CommitId) :
    ((PageImpl.CommitJournal_callback journal status commit_id w).1 =
        ConvertStatus status kDefaultNotFoundStatus ∧
      (PageImpl.CommitJournal_callback journal status commit_id w).2.branch_tracker =
        (if status = storage.Status.OK then w.branch_tracker.SetBranchHead commit_id
         else w.branch_tracker) ∧
      (PageImpl.CommitJournal_callback journal status commit_id
          w).2.branch_tracker.current_commit_ =
        (if status = storage.Status.OK then commit_id else w.branch_tracker.current_commit_) ∧
      journal ∉ (PageImpl.CommitJournal_callback journal status commit_id
          w).2.page.in_progress_journals_ ∧
      (∀ j : JournalPtr, j ≠ journal →
        (j ∈ (PageImpl.CommitJournal_callback journal status commit_id
            w).2.page.in_progress_journals_ ↔ j ∈ w.page.in_progress_journals_)) ∧
      (PageImpl.CommitJournal_callback journal status commit_id w).2.page.journal_ =
        w.page.journal_ ∧
      (PageImpl.CommitJournal_callback journal status commit_id w).2.storage = w.storage ∧
      (PageImpl.CommitJournal_callback journal status commit_id w).2.calls = w.calls) ∧
    ((S.Journal_Commit w.storage journal).1 = some (status, commit_id) →
      (PageImpl.CommitJournal S journal w).1 =
        some (ConvertStatus status kDefaultNotFoundStatus) ∧
      (PageImpl.CommitJournal S journal w).2.branch_tracker.current_commit_ =
        (if status = storage.Status.OK then commit_id else w.branch_tracker.current_commit_) ∧
      journal ∉ (PageImpl.CommitJournal S journal w).2.page.in_progress_journals_ ∧
      (PageImpl.CommitJournal S journal w).2.calls =
        w.calls ++ [StorageCall.Journal_Commit journal]) := by
  constructor
  · unfold PageImpl.CommitJournal_callback
    by_cases hs : status = storage.Status.OK
    · simp [hs, BranchTracker.SetBranchHead]
      intro j hj _
      exact hj
    · simp [hs]
      intro j hj _
      exact hj
  · intro hC
    rw [CommitJournal_eq]
    simp only [hC]
    by_cases hs : status = storage.Status.OK
    · simp [hs, BranchTracker.SetBranchHead]
    · simp [hs]

/-- The test `ParallelPut` on the fake storage: the commit of the first handle's
journal `id0` completes with `OK`, its head becomes `id0` and the journal
leaves the in-progress list; after both handles committed, the first one is on
the commit `id0` and reads `a small value` under `some_key`, the second one is
on the commit `id2` and reads `another value`. -/
theorem CommitJournal_completion_witness :
    (Example.Fake.Journal_Commit Example.handleA.storage "id0").1 =
      some (storage.Status.OK, "id0") ∧
    (PageImpl.CommitJournal Example.Fake "id0" Example.handleA).1 = some Status.OK ∧
    (PageImpl.CommitJournal Example.Fake "id0" Example.handleA).2.branch_tracker.current_commit_
      = "id0" ∧
    "id0" ∉ (PageImpl.CommitJournal Example.Fake "id0"
      Example.handleA).2.page.in_progress_journals_ ∧
    PageImpl.GetCurrentCommitId Example.handleA_committed = "id0" ∧
    PageImpl.GetCurrentCommitId Example.handleB_committed = "id2" ∧
    Example.snapshotGet Example.handleB_committed.storage
      (PageImpl.GetCurrentCommitId Example.handleA_committed) "some_key" =
      (storage.Status.OK, "a small value") ∧
    Example.snapshotGet Example.handleB_committed.storage
      (PageImpl.GetCurrentCommitId Example.handleB_committed) "some_key" =
      (storage.Status.OK, "another value") := by
  have H := (CommitJournal_completion Example.Fake Example.handleA "id0" storage.Status.OK
    "id0").2 (by decide)
  exact ⟨by decide, H.1, H.2.1, H.2.2.1, by decide, by decide, by decide, by decide⟩

end ledger


/-! ## The claims on snapshots, watchers and the branch head -/

namespace ledger

open storage (CommitId ObjectId JournalPtr JournalType KeyPriority PageStorage StorageCall
  Commit CommitStorage)
open storage.fake (FakePageStorage FakeJournalDelegate)
open PageUtils (ConvertStatus kDefaultNotFoundStatus)

variable {σ : Type}

/-- Claim C11: `GetSnapshot` reads the commit named by `GetCurrentCommitId` and,
when the storage answers `OK`, reports `OK` and binds the snapshot to that
commit; when the storage answers an error, it reports the converted error (never
`OK`) and binds nothing.  `GetCurrentCommitId` is the branch head when no
journal is open and the recorded parent commit while one is open; after a
`StartTransaction` that got a journal, the recorded parent is the branch head
of that moment, whatever the branch tracker and the storage become later (so
also after `OnNewCommits` or `SetBranchHead` moved the head). -/
theorem GetSnapshot_binds_current_commit (S : PageStorage σ)
    (GetCommit : σ → CommitId → storage.Status × Option Commit) (w : World σ) :
    ((GetCommit w.storage (PageImpl.GetCurrentCommitId w)).1 = storage.Status.OK →
      PageImpl.GetSnapshot GetCommit w =
        (Status.OK, (GetCommit w.storage (PageImpl.GetCurrentCommitId w)).2)) ∧
    ((GetCommit w.storage (PageImpl.GetCurrentCommitId w)).1 ≠ storage.Status.OK →
      PageImpl.GetSnapshot GetCommit w =
        (ConvertStatus (GetCommit w.storage (PageImpl.GetCurrentCommitId w)).1
          kDefaultNotFoundStatus, none) ∧
      (PageImpl.GetSnapshot GetCommit w).1 ≠ Status.OK) ∧
    (w.page.journal_ = none →
      PageImpl.GetCurrentCommitId w = w.branch_tracker.current_commit_) ∧
    (∀ journal : JournalPtr, w.page.journal_ = some journal →
      PageImpl.GetCurrentCommitId w = w.page.journal_parent_commit_) ∧
    (w.page.journal_ = none →
      ∀ journal : JournalPtr,
        (S.StartCommit w.storage w.branch_tracker.current_commit_
          JournalType.EXPLICIT).1.2 = some journal →
        ∀ (b : BranchTracker) (s : σ),
          PageImpl.GetCurrentCommitId
            { (PageImpl.StartTransaction S w).2 with branch_tracker := b, storage := s } =
            w.branch_tracker.current_commit_) := by
  refine ⟨?_, ?_, ?_, ?_, ?_⟩
  · intro h
    simp [PageImpl.GetSnapshot, h]
  · intro h
    have hC := ConvertStatus_ne_OK _ _ kDefault_ne_OK h
    simp [PageImpl.GetSnapshot, h, hC]
  · intro h
    simp [PageImpl.GetCurrentCommitId, h, BranchTracker.GetBranchHeadId]
  · intro journal h
    simp [PageImpl.GetCurrentCommitId, h]
  · intro h journal hS b s
    simp [PageImpl.GetCurrentCommitId, PageImpl.StartTransaction, h, World.StartCommit, hS,
      BranchTracker.GetBranchHeadId]

/-- On the fake storage: outside a transaction the snapshot is bound to the
head `id1`; after `StartTransaction` and a commit notification that moves the
branch head to `remote`, the snapshot is still bound to `id1`; on a handle whose
head is the empty id the storage answers `NOT_FOUND`, an error is reported and
nothing is bound. -/
theorem GetSnapshot_binds_current_commit_witness :
    Example.world_after_put.page.journal_ = none ∧
    PageImpl.GetSnapshot FakePageStorage.GetCommitSynchronous Example.world_after_put =
      (Status.OK, some { id := "id1", parent_ids := [], timestamp := 0, generation := 0 }) ∧
    (Example.world_in_transaction.branch_tracker.OnNewCommits
      [Example.commit_on_id1]).current_commit_ = "remote" ∧
    PageImpl.GetCurrentCommitId
      { Example.world_in_transaction with
        branch_tracker := Example.world_in_transaction.branch_tracker.OnNewCommits
          [Example.commit_on_id1] } = "id1" ∧
    PageImpl.GetSnapshot FakePageStorage.GetCommitSynchronous
      { Example.world_in_transaction with
        branch_tracker := Example.world_in_transaction.branch_tracker.OnNewCommits
          [Example.commit_on_id1] } =
      (Status.OK, some { id := "id1", parent_ids := [], timestamp := 0, generation := 0 }) ∧
    PageImpl.GetSnapshot FakePageStorage.GetCommitSynchronous Example.world0 =
      (Status.INTERNAL_ERROR, none) := by
  have H := GetSnapshot_binds_current_commit Example.Fake FakePageStorage.GetCommitSynchronous
    Example.world_after_put
  have H0 := GetSnapshot_binds_current_commit Example.Fake
    FakePageStorage.GetCommitSynchronous Example.world0
  exact ⟨by decide, H.1 (by decide), by decide,
    H.2.2.2.2 (by decide) "id2" (by decide) _ _, by decide, (H0.2.1 (by decide)).1⟩

/-- While a change is in flight, `UpdateCommit` only stores the commit. -/
theorem UpdateCommit_in_flight (commit_id : CommitId) (c : PageWatcherContainer)
    (h : c.change_in_flight_ = true) :
    c.UpdateCommit commit_id = { c with current_commit_ := some commit_id } := by
  simp [PageWatcherContainer.UpdateCommit, PageWatcherContainer.SendCommit, h]

/-- While a change is in flight, head advances only replace the stored
commit. -/
theorem UpdateCommits_in_flight (commit_ids : List CommitId) (last : CommitId)
    (c : PageWatcherContainer) (h : c.change_in_flight_ = true) :
    PageWatcherContainer.UpdateCommits (commit_ids ++ [last]) c =
      { c with current_commit_ := some last } := by
  induction commit_ids generalizing c with
  | nil =>
    simp [PageWatcherContainer.UpdateCommits, UpdateCommit_in_flight, h]
  | cons id rest ih =>
    show PageWatcherContainer.UpdateCommits (rest ++ [last]) (c.UpdateCommit id) = _
    rw [UpdateCommit_in_flight id c h, ih _ (by simpa using h)]

/-- Claim C13 on the code, at the watcher `watcher_fetching` (last delivered
commit `c0`, notification for `c1` in flight, the objects `o1` and `o3` being
fetched): when the fetch fails (`result_callback` gets `NOT_FOUND`), or when
reading a fetched object fails, no `OnChange` is sent and `last_commit_` stays
`c0`, but `change_in_flight_` stays set, so the next head advance, to `c2`,
starts no diff and sends nothing; the flag is not reset by any later head
advance either.  When the diff itself fails, `diff_callback` resets the flag
and the next head advance starts the diff from `c0` to `c2`. -/
theorem result_callback_failure_blocks_watcher :
    Example.watcher_fetching.change_in_flight_ = true ∧
    Example.watcher_fetching.last_commit_ = "c0" ∧
    Example.watcher_fetching.calls =
      [WatcherCall.OnInitialState (some "c0"), WatcherCall.diff "c0" "c1",
       WatcherCall.GetObject "o1", WatcherCall.GetObject "o3"] ∧
    -- the fetch fails
    (PageWatcherContainer.result_callback storage.Status.NOT_FOUND []
      Example.watcher_fetching).calls = Example.watcher_fetching.calls ∧
    (PageWatcherContainer.result_callback storage.Status.NOT_FOUND []
      Example.watcher_fetching).last_commit_ = "c0" ∧
    (PageWatcherContainer.result_callback storage.Status.NOT_FOUND []
      Example.watcher_fetching).change_in_flight_ = true ∧
    (PageWatcherContainer.UpdateCommit "c2"
      (PageWatcherContainer.result_callback storage.Status.NOT_FOUND []
        Example.watcher_fetching)).calls = Example.watcher_fetching.calls ∧
    (∀ commit_ids : List CommitId,
      (PageWatcherContainer.UpdateCommits (commit_ids ++ ["c2"])
        (PageWatcherContainer.result_callback storage.Status.NOT_FOUND []
          Example.watcher_fetching)).calls = Example.watcher_fetching.calls ∧
      (PageWatcherContainer.UpdateCommits (commit_ids ++ ["c2"])
        (PageWatcherContainer.result_callback storage.Status.NOT_FOUND []
          Example.watcher_fetching)).change_in_flight_ = true) ∧
    -- reading the second object fails
    (PageWatcherContainer.UpdateCommit "c2"
      (PageWatcherContainer.result_callback storage.Status.OK
        [{ id := "o1", GetData := (storage.Status.OK, "v1") },
         { id := "o3", GetData := (storage.Status.IO_ERROR, "") }]
        Example.watcher_fetching)).calls = Example.watcher_fetching.calls ∧
    (PageWatcherContainer.UpdateCommit "c2"
      (PageWatcherContainer.result_callback storage.Status.OK
        [{ id := "o1", GetData := (storage.Status.OK, "v1") },
         { id := "o3", GetData := (storage.Status.IO_ERROR, "") }]
        Example.watcher_fetching)).change_in_flight_ = true ∧
    -- the diff fails
    (PageWatcherContainer.UpdateCommit "c2"
      (PageWatcherContainer.diff_callback Example.timestampOf storage.Status.IO_ERROR []
        (PageWatcherContainer.UpdateCommit "c1"
          (PageWatcherContainer.OnInitialState_callback Example.watcher0)))).calls =
      [WatcherCall.OnInitialState (some "c0"), WatcherCall.diff "c0" "c1",
       WatcherCall.diff "c0" "c2"] := by
  refine ⟨by decide, by decide, by decide, by decide, by decide, by decide, by decide, ?_,
    by decide, by decide, by decide⟩
  intro commit_ids
  rw [UpdateCommits_in_flight commit_ids "c2" _ (by decide)]
  exact ⟨by decide, by decide⟩

/-- No operation of a watcher container sends `OnInitialState`. -/
theorem initialStates_append (l1 l2 : List WatcherCall) :
    PageWatcherContainer.initialStates (l1 ++ l2) =
      PageWatcherContainer.initialStates l1 ++ PageWatcherContainer.initialStates l2 := by
  induction l1 with
  | nil => rfl
  | cons a rest ih => cases a <;> simp [PageWatcherContainer.initialStates, ih]

theorem initialStates_map_GetObject (ids : List ObjectId) :
    PageWatcherContainer.initialStates (ids.map WatcherCall.GetObject) = [] := by
  induction ids with
  | nil => rfl
  | cons a rest ih => simpa [PageWatcherContainer.initialStates] using ih

theorem SendCommit_initialStates (c : PageWatcherContainer) :
    PageWatcherContainer.initialStates c.SendCommit.calls =
      PageWatcherContainer.initialStates c.calls := by
  unfold PageWatcherContainer.SendCommit
  split
  · rfl
  · split
    · rfl
    · split
      · rfl
      · simp [initialStates_append, PageWatcherContainer.initialStates]

theorem apply_initialStates (GetTimestamp : CommitId → Int) (c : PageWatcherContainer)
    (e : PageWatcherContainer.Event) :
    PageWatcherContainer.initialStates (PageWatcherContainer.apply GetTimestamp c e).calls =
      PageWatcherContainer.initialStates c.calls := by
  cases e with
  | UpdateCommit commit_id =>
    simp [PageWatcherContainer.apply, PageWatcherContainer.UpdateCommit,
      SendCommit_initialStates]
  | OnInitialState_callback =>
    simp [PageWatcherContainer.apply, PageWatcherContainer.OnInitialState_callback,
      SendCommit_initialStates]
  | diff_callback status it =>
    simp only [PageWatcherContainer.apply, PageWatcherContainer.diff_callback]
    split
    · rfl
    · split
      · rfl
      · split
        · simp [SendCommit_initialStates]
        · simp [initialStates_append, initialStates_map_GetObject]
  | result_callback status results =>
    simp only [PageWatcherContainer.apply, PageWatcherContainer.result_callback]
    split
    · split
      · rfl
      · split
        · rfl
        · simp [initialStates_append, PageWatcherContainer.initialStates]
    · rfl
  | OnChange_callback snapshot_request =>
    simp only [PageWatcherContainer.apply, PageWatcherContainer.OnChange_callback]
    split
    · rfl
    · cases snapshot_request <;>
        simp [SendCommit_initialStates, initialStates_append,
          PageWatcherContainer.initialStates]

theorem applyAll_initialStates (GetTimestamp : CommitId → Int)
    (events : List PageWatcherContainer.Event) (c : PageWatcherContainer) :
    PageWatcherContainer.initialStates
      (PageWatcherContainer.applyAll GetTimestamp events c).calls =
      PageWatcherContainer.initialStates c.calls := by
  induction events generalizing c with
  | nil => rfl
  | cons e rest ih =>
    simp only [PageWatcherContainer.applyAll]
    rw [ih, apply_initialStates]

/-- Claim C14, as stated, fails on the code: on the handle with a transaction
open on `id1` whose branch head has moved to `remote`, `Watch` succeeds and
registers a watcher whose `OnInitialState` carries the snapshot of `id1`, the
journal's parent, not of the branch head `remote`; the watcher's base commit is
`remote`, so its first diff, for a head advance to `c2`, starts from
`remote`. -/
theorem Watch_in_transaction_counterexample :
    Example.world_head_moved.branch_tracker.current_commit_ = "remote" ∧
    PageImpl.GetCurrentCommitId Example.world_head_moved = "id1" ∧
    (PageImpl.Watch Example.GetCommit_remote Example.world_head_moved).1 = Status.OK ∧
    (PageImpl.Watch Example.GetCommit_remote
      Example.world_head_moved).2.branch_tracker.watchers_ =
      [PageWatcherContainer.create "remote" (some "id1")] ∧
    (PageWatcherContainer.create "remote" (some "id1")).calls =
      [WatcherCall.OnInitialState (some "id1")] ∧
    (PageWatcherContainer.UpdateCommit "c2"
      (PageWatcherContainer.OnInitialState_callback
        (PageWatcherContainer.create "remote" (some "id1")))).calls =
      [WatcherCall.OnInitialState (some "id1"), WatcherCall.diff "remote" "c2"] := by
  decide

/-- Claim C14, amended: `RegisterPageWatcher` adds a watcher whose base commit
is the branch head of that moment and which gets `OnInitialState`, with the
snapshot handed in, at once; whatever happens to the watcher later, that stays
the only `OnInitialState` it gets.  Head advances that arrive before the
acknowledgement send nothing; the acknowledgement then starts the single diff
from the registration head to the most recent head (none when that is the
registration head, or when no head advance arrived).  The snapshot `Watch`
hands in is bound to the commit named by `GetCurrentCommitId`: the branch head
when no transaction is open, the parent of the open journal otherwise. -/
theorem RegisterPageWatcher_initial_state (b : BranchTracker) (snapshot : Option CommitId)
    (GetTimestamp : CommitId → Int) (events : List PageWatcherContainer.Event)
    (commit_ids : List CommitId) (last : CommitId)
    (GetCommit : σ → CommitId → storage.Status × Option Commit) (w : World σ) :
    (b.RegisterPageWatcher snapshot).watchers_ =
      b.watchers_ ++ [PageWatcherContainer.create b.current_commit_ snapshot] ∧
    (b.RegisterPageWatcher snapshot).current_commit_ = b.current_commit_ ∧
    (PageWatcherContainer.create b.current_commit_ snapshot).last_commit_ =
      b.current_commit_ ∧
    (PageWatcherContainer.create b.current_commit_ snapshot).calls =
      [WatcherCall.OnInitialState snapshot] ∧
    PageWatcherContainer.initialStates
      (PageWatcherContainer.applyAll GetTimestamp events
        (PageWatcherContainer.create b.current_commit_ snapshot)).calls = [snapshot] ∧
    (PageWatcherContainer.UpdateCommits (commit_ids ++ [last])
      (PageWatcherContainer.create b.current_commit_ snapshot)).calls =
      [WatcherCall.OnInitialState snapshot] ∧
    (PageWatcherContainer.OnInitialState_callback
      (PageWatcherContainer.UpdateCommits (commit_ids ++ [last])
        (PageWatcherContainer.create b.current_commit_ snapshot))).calls =
      [WatcherCall.OnInitialState snapshot] ++
        (if b.current_commit_ = last then []
         else [WatcherCall.diff b.current_commit_ last]) ∧
    (PageWatcherContainer.OnInitialState_callback
      (PageWatcherContainer.create b.current_commit_ snapshot)).calls =
      [WatcherCall.OnInitialState snapshot] ∧
    (∀ commit : Commit,
      GetCommit w.storage (PageImpl.GetCurrentCommitId w) =
        (storage.Status.OK, some commit) →
      commit.id = PageImpl.GetCurrentCommitId w →
      (PageImpl.Watch GetCommit w).2.branch_tracker.watchers_ =
        w.branch_tracker.watchers_ ++
          [PageWatcherContainer.create w.branch_tracker.current_commit_
            (some (PageImpl.GetCurrentCommitId w))]) ∧
    (w.page.journal_ = none →
      PageImpl.GetCurrentCommitId w = w.branch_tracker.current_commit_) ∧
    (∀ journal : JournalPtr, w.page.journal_ = some journal →
      PageImpl.GetCurrentCommitId w = w.page.journal_parent_commit_) := by
  have hU := UpdateCommits_in_flight commit_ids last
    (PageWatcherContainer.create b.current_commit_ snapshot) rfl
  refine ⟨rfl, rfl, rfl, rfl, ?_, ?_, ?_, ?_, ?_, ?_, ?_⟩
  · rw [applyAll_initialStates]
    rfl
  · rw [hU]
    rfl
  · rw [hU]
    by_cases hl : b.current_commit_ = last <;>
      simp [PageWatcherContainer.OnInitialState_callback, PageWatcherContainer.SendCommit,
        PageWatcherContainer.create, hl]
  · simp [PageWatcherContainer.OnInitialState_callback, PageWatcherContainer.SendCommit,
      PageWatcherContainer.create]
  · intro commit hG hid
    simp [PageImpl.Watch, PageImpl.GetSnapshot, hG, BranchTracker.RegisterPageWatcher, hid]
  · intro hj
    simp [PageImpl.GetCurrentCommitId, hj, BranchTracker.GetBranchHeadId]
  · intro journal hj
    simp [PageImpl.GetCurrentCommitId, hj]

/-- On the fake storage, `Watch` on the handle whose head is the commit `id1`,
no transaction being open, registers a watcher with base `id1` and a snapshot
of `id1`. -/
theorem RegisterPageWatcher_initial_state_witness :
    FakePageStorage.GetCommitSynchronous Example.world_after_put.storage
        (PageImpl.GetCurrentCommitId Example.world_after_put) =
      (storage.Status.OK,
       some { id := "id1", parent_ids := [], timestamp := 0, generation := 0 }) ∧
    Example.world_after_put.page.journal_ = none ∧
    PageImpl.GetCurrentCommitId Example.world_after_put =
      Example.world_after_put.branch_tracker.current_commit_ ∧
    (PageImpl.Watch FakePageStorage.GetCommitSynchronous
      Example.world_after_put).2.branch_tracker.watchers_ =
      Example.world_after_put.branch_tracker.watchers_ ++
        [PageWatcherContainer.create Example.world_after_put.branch_tracker.current_commit_
          (some (PageImpl.GetCurrentCommitId Example.world_after_put))] :=
  ⟨by decide, by decide,
   (RegisterPageWatcher_initial_state Example.world_after_put.branch_tracker none
      Example.timestampOf [] [] "c1" FakePageStorage.GetCommitSynchronous
      Example.world_after_put).2.2.2.2.2.2.2.2.2.1 (by decide),
   (RegisterPageWatcher_initial_state Example.world_after_put.branch_tracker none
      Example.timestampOf [] [] "c1" FakePageStorage.GetCommitSynchronous
      Example.world_after_put).2.2.2.2.2.2.2.2.1
      { id := "id1", parent_ids := [], timestamp := 0, generation := 0 } (by decide)
      (by decide)⟩

/-- The loop of `diff_callback`, by filters and maps over the diff. -/
theorem collect_eq (it : List storage.EntryChange) :
    PageWatcherContainer.collect it =
      ((it.filter (fun e => e.deleted)).map (fun e => e.entry.key),
       (it.filter (fun e => !e.deleted)).map
         (fun e => ({ key := e.entry.key, value := none,
                      priority := PageWatcherContainer.toPriority e.entry.priority } : Entry)),
       (it.filter (fun e => !e.deleted)).map (fun e => e.entry.object_id)) := by
  induction it with
  | nil => rfl
  | cons e rest ih =>
    unfold PageWatcherContainer.collect
    by_cases hd : e.deleted = true
    · simp [hd, ih]
    · simp [hd, ih]

/-- The loop of `result_callback` when every object is read: each entry gets the
bytes of the object fetched for it. -/
theorem setValues_eq (fetch : ObjectId → String) (l : List storage.EntryChange) :
    PageWatcherContainer.setValues
      (l.map (fun e => ({ id := e.entry.object_id,
                          GetData := (storage.Status.OK, fetch e.entry.object_id) } :
                        storage.Object)))
      (l.map (fun e => ({ key := e.entry.key, value := none,
                          priority := PageWatcherContainer.toPriority e.entry.priority } :
                        Entry))) =
      some (l.map (fun e => ({ key := e.entry.key, value := some (fetch e.entry.object_id),
                               priority := PageWatcherContainer.toPriority e.entry.priority } :
                             Entry))) := by
  induction l with
  | nil => rfl
  | cons e rest ih =>
    simp only [List.map_cons, PageWatcherContainer.setValues]
    simp [ih]

/-- Claim C15: for a notification in flight for the commit `n` and a non-empty
diff `it` that was computed without error, `diff_callback` requests the objects
of the non-deleted diff entries, in diff order, and, once they are fetched and
read (`fetch` gives the bytes of each object id), `result_callback` sends
exactly one `OnChange`, whose page change has the timestamp of `n`, as
`deleted_keys` the keys of the diff entries marked deleted, in diff order, and
as `changes` the non-deleted diff entries in diff order, each with its key, its
priority (`EAGER` for `EAGER`, `LAZY` for `LAZY`) and the bytes of the object
of its own object id. -/
theorem OnChange_page_change (GetTimestamp : CommitId → Int) (c : PageWatcherContainer)
    (n : CommitId) (it : List storage.EntryChange) (fetch : ObjectId → String)
    (hnew : c.new_commit = some n) (hit : it ≠ []) :
    (PageWatcherContainer.diff_callback GetTimestamp storage.Status.OK it c).calls =
      c.calls ++ (it.filter (fun e => !e.deleted)).map
        (fun e => WatcherCall.GetObject e.entry.object_id) ∧
    (PageWatcherContainer.result_callback storage.Status.OK
      ((it.filter (fun e => !e.deleted)).map
        (fun e => ({ id := e.entry.object_id,
                     GetData := (storage.Status.OK, fetch e.entry.object_id) } :
                   storage.Object)))
      (PageWatcherContainer.diff_callback GetTimestamp storage.Status.OK it c)).calls =
      (PageWatcherContainer.diff_callback GetTimestamp storage.Status.OK it c).calls ++
        [WatcherCall.OnChange
          { timestamp := GetTimestamp n,
            changes := (it.filter (fun e => !e.deleted)).map
              (fun e => ({ key := e.entry.key, value := some (fetch e.entry.object_id),
                           priority := PageWatcherContainer.toPriority e.entry.priority } :
                         Entry)),
            deleted_keys := (it.filter (fun e => e.deleted)).map (fun e => e.entry.key) }] ∧
    PageWatcherContainer.toPriority KeyPriority.EAGER = Priority.EAGER ∧
    PageWatcherContainer.toPriority KeyPriority.LAZY = Priority.LAZY := by
  have hne : it.isEmpty = false := by
    cases it with
    | nil => exact absurd rfl hit
    | cons a l => rfl
  have hD : PageWatcherContainer.diff_callback GetTimestamp storage.Status.OK it c =
      { c with
        page_change := some
          { timestamp := GetTimestamp n,
            changes := (PageWatcherContainer.collect it).2.1,
            deleted_keys := (PageWatcherContainer.collect it).1 },
        calls := c.calls ++
          (PageWatcherContainer.collect it).2.2.map WatcherCall.GetObject } := by
    simp [PageWatcherContainer.diff_callback, hnew, hne]
  rw [hD]
  refine ⟨?_, ?_, by decide, by decide⟩
  · simp [collect_eq]
  · simp only [PageWatcherContainer.result_callback, hnew, collect_eq]
    simp only [ne_eq, not_true_eq_false, ↓reduceIte, setValues_eq]

/-- The diff `diff_c0_c1` from `c0` to `c1`: the objects `o1` and `o3` are
requested and the single `OnChange` carries the timestamp 11 of `c1`, the
deleted key `key2`, and `key1` and `key3` with their bytes. -/
theorem OnChange_page_change_witness :
    (PageWatcherContainer.UpdateCommit "c1"
      (PageWatcherContainer.OnInitialState_callback Example.watcher0)).new_commit
      = some "c1" ∧
    Example.diff_c0_c1 ≠ [] ∧
    (PageWatcherContainer.result_callback storage.Status.OK
      [{ id := "o1", GetData := (storage.Status.OK, "bytes of o1") },
       { id := "o3", GetData := (storage.Status.OK, "bytes of o3") }]
      Example.watcher_fetching).calls =
      Example.watcher_fetching.calls ++
        [WatcherCall.OnChange
          { timestamp := 11,
            changes :=
              [{ key := "key1", value := some "bytes of o1", priority := Priority.EAGER },
               { key := "key3", value := some "bytes of o3", priority := Priority.LAZY }],
            deleted_keys := ["key2"] }] := by
  have H := OnChange_page_change Example.timestampOf
    (PageWatcherContainer.UpdateCommit "c1"
      (PageWatcherContainer.OnInitialState_callback Example.watcher0))
    "c1" Example.diff_c0_c1 (fun id => "bytes of " ++ id) (by decide) (by decide)
  exact ⟨by decide, by decide, H.2.1⟩

/-- Claim C16, as stated, fails on the code: with a transaction in progress on
the head `id1`, `OnNewCommits` with the commit `remote`, whose parent is `id1`,
moves `current_commit_` to `remote` (no watcher is updated). -/
theorem OnNewCommits_in_transaction_counterexample :
    Example.world_in_transaction.branch_tracker.transaction_in_progress_ = true ∧
    Example.world_in_transaction.branch_tracker.current_commit_ = "id1" ∧
    (Example.world_in_transaction.branch_tracker.OnNewCommits
      [Example.commit_on_id1]).current_commit_ = "remote" ∧
    (Example.world_in_transaction.branch_tracker.OnNewCommits
      [Example.commit_on_id1]).current_commit_ ≠
      Example.world_in_transaction.branch_tracker.current_commit_ := by
  decide

/-- Claim C16, amended: while `transaction_in_progress_` is set, `OnNewCommits`
updates no watcher and keeps the flag, but `current_commit_` follows the branch
as it does without a transaction: it becomes the head the loop over the batch
reaches, for a single commit `c` other than the head whose parent ids contain
the head that is the id of `c`, and for a commit that is the head or does not
have it as a parent it stays.  The watchers get the head when
`SetTransactionInProgress(false)` ends the transaction. -/
theorem OnNewCommits_in_transaction (b : BranchTracker) (commits : List Commit) (c : Commit)
    (h : b.transaction_in_progress_ = true) :
    (b.OnNewCommits commits).watchers_ = b.watchers_ ∧
    (b.OnNewCommits commits).transaction_in_progress_ = true ∧
    (b.OnNewCommits commits).current_commit_ =
      (BranchTracker.OnNewCommits_loop commits (false, b.current_commit_)).2 ∧
    (b.OnNewCommits [c]).current_commit_ =
      (if c.id ≠ b.current_commit_ ∧ b.current_commit_ ∈ c.parent_ids then c.id
       else b.current_commit_) ∧
    ((b.OnNewCommits commits).SetTransactionInProgress false).watchers_ =
      b.watchers_.map
        (PageWatcherContainer.UpdateCommit (b.OnNewCommits commits).current_commit_) := by
  have hO : b.OnNewCommits commits =
      { b with current_commit_ :=
          (BranchTracker.OnNewCommits_loop commits (false, b.current_commit_)).2 } := by
    simp [BranchTracker.OnNewCommits, h]
  refine ⟨?_, ?_, ?_, ?_, ?_⟩
  · rw [hO]
  · rw [hO]; exact h
  · rw [hO]
  · by_cases h1 : c.id = b.current_commit_
    · simp [BranchTracker.OnNewCommits, BranchTracker.OnNewCommits_loop, h, h1]
    · by_cases h2 : b.current_commit_ ∈ c.parent_ids <;>
        simp [BranchTracker.OnNewCommits, BranchTracker.OnNewCommits_loop, h, h1, h2]
  · rw [hO]
    simp [BranchTracker.SetTransactionInProgress, h]

/-- The transaction of `world_in_transaction` with one watcher registered: the
commit notification updates no watcher, and the end of the transaction hands
the new head `remote` to the watcher. -/
theorem OnNewCommits_in_transaction_witness :
    (Example.world_in_transaction.branch_tracker.RegisterPageWatcher
      (some "id1")).transaction_in_progress_ = true ∧
    ((Example.world_in_transaction.branch_tracker.RegisterPageWatcher
      (some "id1")).OnNewCommits [Example.commit_on_id1]).watchers_ =
      [PageWatcherContainer.create "id1" (some "id1")] ∧
    ((Example.world_in_transaction.branch_tracker.RegisterPageWatcher
      (some "id1")).OnNewCommits [Example.commit_on_id1]).current_commit_ = "remote" ∧
    (((Example.world_in_transaction.branch_tracker.RegisterPageWatcher
      (some "id1")).OnNewCommits [Example.commit_on_id1]).SetTransactionInProgress
      false).watchers_ =
      [PageWatcherContainer.UpdateCommit "remote"
        (PageWatcherContainer.create "id1" (some "id1"))] := by
  have H := OnNewCommits_in_transaction
    (Example.world_in_transaction.branch_tracker.RegisterPageWatcher (some "id1"))
    [Example.commit_on_id1] Example.commit_on_id1 (by decide)
  exact ⟨by decide, H.1, by decide, by decide⟩

/-- Claim C17: with no transaction in progress and a single new commit `c`:
when `c` is not the head and its parent ids contain the head, `current_commit_`
becomes the id of `c` and every registered watcher is updated with it
(`UpdateCommit`); when `c` is the head itself or its parent ids do not contain
the head, the branch tracker is unchanged: same head, no watcher updated. -/
theorem OnNewCommits_single_commit (b : BranchTracker) (c : Commit)
    (h : b.transaction_in_progress_ = false) :
    (c.id ≠ b.current_commit_ → b.current_commit_ ∈ c.parent_ids →
      b.OnNewCommits [c] =
        { b with current_commit_ := c.id,
                 watchers_ := b.watchers_.map (PageWatcherContainer.UpdateCommit c.id) }) ∧
    (c.id = b.current_commit_ ∨ b.current_commit_ ∉ c.parent_ids →
      b.OnNewCommits [c] = b) := by
  obtain ⟨current, flag, watchers⟩ := b
  simp only at h
  subst h
  constructor
  · intro h1 h2
    simp only at h1 h2
    simp [BranchTracker.OnNewCommits, BranchTracker.OnNewCommits_loop, h1, h2]
  · intro h1
    simp only at h1
    by_cases h2 : c.id = current
    · simp [BranchTracker.OnNewCommits, BranchTracker.OnNewCommits_loop, h2]
    · have h3 : current ∉ c.parent_ids := by
        rcases h1 with h1 | h1
        · exact absurd h1 h2
        · exact h1
      simp [BranchTracker.OnNewCommits, BranchTracker.OnNewCommits_loop, h2, h3]

/-- The handle `world_after_put` (head `id1`, no transaction) with one watcher:
the commit `remote` on top of `id1` becomes the head and the watcher is
updated; the commit `X` of another branch and the head commit itself change
nothing. -/
theorem OnNewCommits_single_commit_witness :
    (Example.world_after_put.branch_tracker.RegisterPageWatcher
      (some "id1")).transaction_in_progress_ = false ∧
    ((Example.world_after_put.branch_tracker.RegisterPageWatcher
      (some "id1")).OnNewCommits [Example.commit_on_id1]).current_commit_ = "remote" ∧
    ((Example.world_after_put.branch_tracker.RegisterPageWatcher
      (some "id1")).OnNewCommits [Example.commit_on_id1]).watchers_ =
      [PageWatcherContainer.UpdateCommit "remote"
        (PageWatcherContainer.create "id1" (some "id1"))] ∧
    (Example.world_after_put.branch_tracker.RegisterPageWatcher
      (some "id1")).OnNewCommits [Example.commitX] =
      Example.world_after_put.branch_tracker.RegisterPageWatcher (some "id1") ∧
    (Example.world_after_put.branch_tracker.RegisterPageWatcher
      (some "id1")).OnNewCommits
        [{ id := "id1", parent_ids := [], timestamp := 0, generation := 0 }] =
      Example.world_after_put.branch_tracker.RegisterPageWatcher (some "id1") := by
  have H := OnNewCommits_single_commit
    (Example.world_after_put.branch_tracker.RegisterPageWatcher (some "id1"))
    Example.commit_on_id1 (by decide)
  have HX := OnNewCommits_single_commit
    (Example.world_after_put.branch_tracker.RegisterPageWatcher (some "id1"))
    Example.commitX (by decide)
  have HH := OnNewCommits_single_commit
    (Example.world_after_put.branch_tracker.RegisterPageWatcher (some "id1"))
    { id := "id1", parent_ids := [], timestamp := 0, generation := 0 } (by decide)
  refine ⟨by decide, ?_, ?_, HX.2 (Or.inr (by decide)), HH.2 (Or.inl (by decide))⟩
  · rw [H.1 (by decide) (by decide)]
    rfl
  · rw [H.1 (by decide) (by decide)]
    rfl

/-! ## The claims on the merge resolver -/

/-- Several calls of `SetMergeStrategy` while a merge is in progress: the
current strategy stays, the last strategy handed in is the next one, and the
current strategy is cancelled once per call. -/
theorem SetMergeStrategy_sequence_in_progress (strategies : List (Option MergeStrategy))
    (S : Option MergeStrategy) (r : MergeResolver) (active : MergeStrategy)
    (hprog : r.merge_in_progress_ = true) (hstrat : r.strategy_ = some active) :
    (strategies ++ [S]).foldl (fun acc s => MergeResolver.SetMergeStrategy s acc) r =
      { r with next_strategy_ := S, switch_strategy_ := true,
               calls := r.calls ++
                 List.replicate (strategies.length + 1) (ResolverCall.Cancel active) } := by
  induction strategies generalizing r with
  | nil => simp [MergeResolver.SetMergeStrategy, hprog, hstrat]
  | cons s rest ih =>
    simp only [List.cons_append, List.foldl_cons]
    rw [ih _ (by simp [MergeResolver.SetMergeStrategy, hprog, hstrat])
      (by simp [MergeResolver.SetMergeStrategy, hprog, hstrat])]
    simp [MergeResolver.SetMergeStrategy, hprog, hstrat, List.replicate_succ]

/-- Claim C18: with a merge in progress (current strategy `active`),
`SetMergeStrategy(S)` keeps the current strategy, records `S` as the next one,
raises `switch_strategy_` and calls `Cancel` on the current strategy; after any
number of such calls the last `S` (null or not) is the one recorded.  When the
completion callback of the merge runs, `S` becomes the current strategy, the
next-strategy slot is emptied, `switch_strategy_` and `merge_in_progress_` are
cleared and one more conflict check is posted.  With no merge in progress
`SetMergeStrategy(S)` installs `S` at once and posts a conflict check exactly
when `S` is not null. -/
theorem SetMergeStrategy_switch (r : MergeResolver) (active : MergeStrategy)
    (strategies : List (Option MergeStrategy)) (S : Option MergeStrategy)
    (hprog : r.merge_in_progress_ = true) (hstrat : r.strategy_ = some active) :
    MergeResolver.SetMergeStrategy S r =
      { r with next_strategy_ := S, switch_strategy_ := true,
               calls := r.calls ++ [ResolverCall.Cancel active] } ∧
    ((strategies ++ [S]).foldl
        (fun acc s => MergeResolver.SetMergeStrategy s acc) r).strategy_ = some active ∧
    ((strategies ++ [S]).foldl
        (fun acc s => MergeResolver.SetMergeStrategy s acc) r).next_strategy_ = S ∧
    ((strategies ++ [S]).foldl
        (fun acc s => MergeResolver.SetMergeStrategy s acc) r).merge_in_progress_ = true ∧
    ((strategies ++ [S]).foldl
        (fun acc s => MergeResolver.SetMergeStrategy s acc) r).calls =
      r.calls ++ List.replicate (strategies.length + 1) (ResolverCall.Cancel active) ∧
    (MergeResolver.Merge_callback ((strategies ++ [S]).foldl
        (fun acc s => MergeResolver.SetMergeStrategy s acc) r)).strategy_ = S ∧
    (MergeResolver.Merge_callback ((strategies ++ [S]).foldl
        (fun acc s => MergeResolver.SetMergeStrategy s acc) r)).next_strategy_ = none ∧
    (MergeResolver.Merge_callback ((strategies ++ [S]).foldl
        (fun acc s => MergeResolver.SetMergeStrategy s acc) r)).switch_strategy_ = false ∧
    (MergeResolver.Merge_callback ((strategies ++ [S]).foldl
        (fun acc s => MergeResolver.SetMergeStrategy s acc) r)).merge_in_progress_ = false ∧
    (MergeResolver.Merge_callback ((strategies ++ [S]).foldl
        (fun acc s => MergeResolver.SetMergeStrategy s acc) r)).posted_tasks_ =
      r.posted_tasks_ + 1 ∧
    (∀ idle : MergeResolver, idle.merge_in_progress_ = false →
      MergeResolver.SetMergeStrategy S idle =
        { idle with strategy_ := S,
                    posted_tasks_ :=
                      if S.isSome then idle.posted_tasks_ + 1 else idle.posted_tasks_ }) := by
  rw [SetMergeStrategy_sequence_in_progress strategies S r active hprog hstrat]
  refine ⟨?_, hstrat, rfl, hprog, rfl, ?_, ?_, ?_, ?_, ?_, ?_⟩
  · simp [MergeResolver.SetMergeStrategy, hprog, hstrat]
  · by_cases he : r.on_empty_callback_ = true <;>
      simp [MergeResolver.Merge_callback, MergeResolver.PostCheckConflicts, he]
  · by_cases he : r.on_empty_callback_ = true <;>
      simp [MergeResolver.Merge_callback, MergeResolver.PostCheckConflicts, he]
  · by_cases he : r.on_empty_callback_ = true <;>
      simp [MergeResolver.Merge_callback, MergeResolver.PostCheckConflicts, he]
  · by_cases he : r.on_empty_callback_ = true <;>
      simp [MergeResolver.Merge_callback, MergeResolver.PostCheckConflicts, he]
  · by_cases he : r.on_empty_callback_ = true <;>
      simp [MergeResolver.Merge_callback, MergeResolver.PostCheckConflicts, he]
  · intro idle hidle
    cases S with
    | none => simp [MergeResolver.SetMergeStrategy, hidle]
    | some s => simp [MergeResolver.SetMergeStrategy, hidle, MergeResolver.PostCheckConflicts]

/-- On the resolver merging `X` and `Y` with `last_one_wins`: two strategy
changes arrive during the merge, the first to `custom`, the second to null;
`last_one_wins` stays current and is cancelled twice; when the merge completes,
the current strategy is null. -/
theorem SetMergeStrategy_switch_witness :
    Example.resolver_merging.merge_in_progress_ = true ∧
    Example.resolver_merging.strategy_ = some "last_one_wins" ∧
    (([some "custom"] ++ [none]).foldl
      (fun acc s => MergeResolver.SetMergeStrategy s acc)
      Example.resolver_merging).strategy_ = some "last_one_wins" ∧
    (([some "custom"] ++ [none]).foldl
      (fun acc s => MergeResolver.SetMergeStrategy s acc)
      Example.resolver_merging).calls =
      Example.resolver_merging.calls ++
        [ResolverCall.Cancel "last_one_wins", ResolverCall.Cancel "last_one_wins"] ∧
    (MergeResolver.Merge_callback (([some "custom"] ++ [none]).foldl
      (fun acc s => MergeResolver.SetMergeStrategy s acc)
      Example.resolver_merging)).strategy_ = none ∧
    (MergeResolver.Merge_callback (([some "custom"] ++ [none]).foldl
      (fun acc s => MergeResolver.SetMergeStrategy s acc)
      Example.resolver_merging)).merge_in_progress_ = false := by
  have H := SetMergeStrategy_switch Example.resolver_merging "last_one_wins" [some "custom"]
    none (by decide) (by decide)
  exact ⟨by decide, by decide, H.2.1, H.2.2.2.2.1, H.2.2.2.2.2.1, H.2.2.2.2.2.2.2.2.1⟩

/-- With a strategy set, `ResolveConflicts` either stops on an undefined access,
having changed the log only, or raises `merge_in_progress_` and hands one merge
to the strategy. -/
theorem ResolveConflicts_cases (G : CommitStorage) (sort : List Commit → List Commit)
    (fuel : Nat) (heads : List CommitId)
    (r : MergeResolver) (strategy : MergeStrategy) (hs : r.strategy_ = some strategy) :
    (MergeResolver.ResolveConflicts G sort fuel heads r =
      { r with calls := r.calls ++ heads.map ResolverCall.GetCommitSynchronous,
               undefined_behaviour := true }) ∨
    (∃ head_1 head_2 common_ancestor : Commit,
      MergeResolver.ResolveConflicts G sort fuel heads r =
        { r with merge_in_progress_ := true,
                 merges_in_flight_ := r.merges_in_flight_ + 1,
                 calls := r.calls ++ heads.map ResolverCall.GetCommitSynchronous ++
                   [ResolverCall.Merge strategy head_1 head_2 common_ancestor] }) := by
  cases hg : MergeResolver.getCommits G heads with
  | none => left; simp [MergeResolver.ResolveConflicts, hg]
  | some commits =>
    cases hsort : sort commits with
    | nil => left; simp [MergeResolver.ResolveConflicts, hg, hsort]
    | cons head_1 tail =>
      cases tail with
      | nil => left; simp [MergeResolver.ResolveConflicts, hg, hsort]
      | cons head_2 tail =>
        cases hf : MergeResolver.FindCommonAncestor G fuel head_1 head_2 with
        | none => left; simp [MergeResolver.ResolveConflicts, hg, hsort, hf]
        | some common_ancestor =>
          right
          exact ⟨head_1, head_2, common_ancestor,
            by simp [MergeResolver.ResolveConflicts, hg, hsort, hf, hs]⟩

/-- From a state with a strategy and no merge in progress, `ResolveConflicts`
keeps the count of merges in flight equal to 1 when a merge is in progress and
to 0 otherwise. -/
theorem ResolveConflicts_invariant (G : CommitStorage) (sort : List Commit → List Commit)
    (fuel : Nat) (heads : List CommitId)
    (r : MergeResolver) (strategy : MergeStrategy) (hs : r.strategy_ = some strategy)
    (hp : r.merge_in_progress_ = false) (h0 : r.merges_in_flight_ = 0) :
    (MergeResolver.ResolveConflicts G sort fuel heads r).merges_in_flight_ =
      (if (MergeResolver.ResolveConflicts G sort fuel heads r).merge_in_progress_ then 1
       else 0) := by
  rcases ResolveConflicts_cases G sort fuel heads r strategy hs
    with hR | ⟨head_1, head_2, common_ancestor, hR⟩
  · rw [hR]; simp [hp, h0]
  · rw [hR]; simp [h0]

/-- `CheckConflicts` starts a merge only from a state with a strategy and no
merge in progress, and then raises `merge_in_progress_`. -/
theorem CheckConflicts_invariant (G : CommitStorage) (sort : List Commit → List Commit)
    (fuel : Nat) (r : MergeResolver)
    (h : r.merges_in_flight_ = (if r.merge_in_progress_ then 1 else 0)) :
    (MergeResolver.CheckConflicts G sort fuel r).merges_in_flight_ =
      (if (MergeResolver.CheckConflicts G sort fuel r).merge_in_progress_ then 1 else 0) := by
  unfold MergeResolver.CheckConflicts
  cases hs : r.strategy_ with
  | none => simpa [hs] using h
  | some strategy =>
    by_cases hp : r.merge_in_progress_ = true
    · simpa [hs, hp] using h
    · have hp' : r.merge_in_progress_ = false := by simpa using hp
      have h0 : r.merges_in_flight_ = 0 := by simpa [hp'] using h
      simp only [Option.isNone_some, hp', Bool.or_self, Bool.false_eq_true, ↓reduceIte]
      split
      · simp [hp', h0]
      · exact ResolveConflicts_invariant G sort fuel _ _ strategy rfl rfl h0

/-- Every event keeps the count of merges in flight equal to 1 when
`merge_in_progress_` is set and to 0 when it is not. -/
theorem step_invariant (r r1 : MergeResolver) (e : MergeResolver.Event)
    (h : r.merges_in_flight_ = (if r.merge_in_progress_ then 1 else 0))
    (hstep : MergeResolver.step r e = some r1) :
    r1.merges_in_flight_ = (if r1.merge_in_progress_ then 1 else 0) := by
  cases e with
  | OnNewCommits =>
    simp only [MergeResolver.step, Option.some.injEq] at hstep
    subst hstep
    simpa [MergeResolver.OnNewCommits, MergeResolver.PostCheckConflicts] using h
  | SetMergeStrategy strategy =>
    simp only [MergeResolver.step, Option.some.injEq] at hstep
    subst hstep
    unfold MergeResolver.SetMergeStrategy
    by_cases hp : r.merge_in_progress_ = true
    · cases hs : r.strategy_ <;> simpa [hp, hs] using h
    · cases strategy <;>
        simpa [hp, MergeResolver.PostCheckConflicts] using h
  | CheckConflicts G sort fuel =>
    simp only [MergeResolver.step] at hstep
    by_cases h0 : r.posted_tasks_ = 0
    · simp [h0] at hstep
    · simp only [h0, ↓reduceIte, Option.some.injEq] at hstep
      subst hstep
      exact CheckConflicts_invariant G sort fuel _ h
  | MergeDone =>
    simp only [MergeResolver.step] at hstep
    by_cases h0 : r.merges_in_flight_ = 0
    · simp [h0] at hstep
    · simp only [h0, ↓reduceIte, Option.some.injEq] at hstep
      subst hstep
      have hp : r.merge_in_progress_ = true := by
        by_contra hp
        simp [hp] at h
        exact h0 h
      have h1 : r.merges_in_flight_ = 1 := by simpa [hp] using h
      unfold MergeResolver.Merge_callback
      by_cases hsw : r.switch_strategy_ = true <;>
        by_cases he : r.on_empty_callback_ = true <;>
          simp [MergeResolver.PostCheckConflicts, hsw, he, h1]

theorem run_invariant (events : List MergeResolver.Event) (r r1 : MergeResolver)
    (h : r.merges_in_flight_ = (if r.merge_in_progress_ then 1 else 0))
    (hrun : MergeResolver.run events r = some r1) :
    r1.merges_in_flight_ = (if r1.merge_in_progress_ then 1 else 0) := by
  induction events generalizing r with
  | nil =>
    simp only [MergeResolver.run, Option.some.injEq] at hrun
    subst hrun
    exact h
  | cons e rest ih =>
    simp only [MergeResolver.run] at hrun
    cases hs : MergeResolver.step r e with
    | none => simp [hs] at hrun
    | some r2 =>
      simp only [hs] at hrun
      exact ih r2 (step_invariant r r2 e h hs) hrun

/-- While `merge_in_progress_` is set, no event makes the resolver call
`Merge`. -/
theorem step_no_merge_in_progress (r r1 : MergeResolver) (e : MergeResolver.Event)
    (hp : r.merge_in_progress_ = true) (hstep : MergeResolver.step r e = some r1) :
    MergeResolver.merges r1.calls = MergeResolver.merges r.calls := by
  have happ : ∀ (l : List ResolverCall) (c : ResolverCall),
      (∀ s h1 h2 a, c ≠ ResolverCall.Merge s h1 h2 a) →
      MergeResolver.merges (l ++ [c]) = MergeResolver.merges l := by
    intro l c hc
    induction l with
    | nil =>
      cases c with
      | Merge s h1 h2 a => exact absurd rfl (hc s h1 h2 a)
      | _ => rfl
    | cons a rest ih => cases a <;> simp [MergeResolver.merges, ih]
  cases e with
  | OnNewCommits =>
    simp only [MergeResolver.step, Option.some.injEq] at hstep
    subst hstep
    rfl
  | SetMergeStrategy strategy =>
    simp only [MergeResolver.step, Option.some.injEq] at hstep
    subst hstep
    unfold MergeResolver.SetMergeStrategy
    cases hs : r.strategy_ with
    | none => simp [hp]
    | some s =>
      simp only [hp, ↓reduceIte]
      exact happ _ _ (by intro _ _ _ _ hc; cases hc)
  | CheckConflicts G sort fuel =>
    simp only [MergeResolver.step] at hstep
    by_cases h0 : r.posted_tasks_ = 0
    · simp [h0] at hstep
    · simp only [h0, ↓reduceIte, Option.some.injEq] at hstep
      subst hstep
      simp [MergeResolver.RunPostedTask, MergeResolver.CheckConflicts, hp]
  | MergeDone =>
    simp only [MergeResolver.step] at hstep
    by_cases h0 : r.merges_in_flight_ = 0
    · simp [h0] at hstep
    · simp only [h0, ↓reduceIte, Option.some.injEq] at hstep
      subst hstep
      unfold MergeResolver.Merge_callback
      by_cases hsw : r.switch_strategy_ = true <;>
        by_cases he : r.on_empty_callback_ = true
      · simp only [MergeResolver.PostCheckConflicts, hsw, he, ↓reduceIte]
        exact happ _ _ (by intro _ _ _ _ hc; cases hc)
      · simp [MergeResolver.PostCheckConflicts, hsw, he]
      · simp only [MergeResolver.PostCheckConflicts, hsw, he, ↓reduceIte]
        exact happ _ _ (by intro _ _ _ _ hc; cases hc)
      · simp [MergeResolver.PostCheckConflicts, hsw, he]

/-- Claim C19: in every state `r` the resolver reaches from its construction by
commit notifications, `SetMergeStrategy` calls, conflict checks and merge
completions (a completion running only for a merge in flight), the number of
merges handed to a strategy and not yet completed is 1 when
`merge_in_progress_` is set and 0 when it is not, so at most 1; while
`merge_in_progress_` is set no event makes the resolver call `Merge`; and
`CheckConflicts` with a merge in progress or with no strategy leaves the
resolver as it is: it reads no heads and starts nothing. -/
theorem at_most_one_merge_in_flight (events : List MergeResolver.Event) (r : MergeResolver)
    (hrun : MergeResolver.run events MergeResolver.create = some r) :
    r.merges_in_flight_ = (if r.merge_in_progress_ then 1 else 0) ∧
    r.merges_in_flight_ ≤ 1 ∧
    (∀ (e : MergeResolver.Event) (r1 : MergeResolver),
      r.merge_in_progress_ = true → MergeResolver.step r e = some r1 →
      MergeResolver.merges r1.calls = MergeResolver.merges r.calls) ∧
    (∀ (G : CommitStorage) (sort : List Commit → List Commit) (fuel : Nat),
      r.merge_in_progress_ = true ∨ r.strategy_ = none →
      MergeResolver.CheckConflicts G sort fuel r = r) := by
  have hinv := run_invariant events MergeResolver.create r rfl hrun
  refine ⟨hinv, ?_, ?_, ?_⟩
  · rw [hinv]
    split <;> simp
  · intro e r1 hp hstep
    exact step_no_merge_in_progress r r1 e hp hstep
  · intro G sort fuel h
    rcases h with h | h
    · simp [MergeResolver.CheckConflicts, h]
    · simp [MergeResolver.CheckConflicts, h]

/-- On the run `Example.resolver_events`: the second conflict check finds the
first merge in progress and starts nothing, the third one runs after the
completion and starts the second merge; one merge is in flight at the end, and
a further conflict check leaves the resolver as it is. -/
theorem at_most_one_merge_in_flight_witness :
    MergeResolver.run Example.resolver_events MergeResolver.create =
      some Example.resolver_after ∧
    Example.resolver_after.merge_in_progress_ = true ∧
    Example.resolver_after.merges_in_flight_ = 1 ∧
    MergeResolver.merges Example.resolver_after.calls =
      [("last_one_wins", Example.commitX, Example.commitY, Example.commitR),
       ("last_one_wins", Example.commitX, Example.commitY, Example.commitR)] ∧
    Example.resolver_after.merges_in_flight_ ≤ 1 ∧
    MergeResolver.merges
      (MergeResolver.RunPostedTask Example.graph Example.sortByTimestamp 10
        Example.resolver_after).calls =
      MergeResolver.merges Example.resolver_after.calls ∧
    MergeResolver.CheckConflicts Example.graph Example.sortByTimestamp 10
      Example.resolver_after = Example.resolver_after :=
  ⟨by decide, by decide, by decide, by decide,
   (at_most_one_merge_in_flight Example.resolver_events Example.resolver_after
     (by decide)).2.1,
   (at_most_one_merge_in_flight Example.resolver_events Example.resolver_after
     (by decide)).2.2.1
     (MergeResolver.Event.CheckConflicts Example.graph Example.sortByTimestamp 10) _
     (by decide) (by decide),
   (at_most_one_merge_in_flight Example.resolver_events Example.resolver_after
     (by decide)).2.2.2 Example.graph Example.sortByTimestamp 10 (Or.inl (by decide))⟩

/-- Claim C20, the case where the code departs from it: in `Example.graph`
(`A` and `B` are children of the root `R`, `X` is a child of `A`, `Y` is the
merge of `A` and `B`; every parent has a smaller generation than its child)
`FindCommonAncestor` answers `R`, of generation 0, for the heads `X` and `Y`,
with any number of iterations from 5 on, although `A`, of generation 1, is an
ancestor of both heads. -/
theorem FindCommonAncestor_not_closest :
    Example.parentsOlder Example.graph
      [Example.commitR, Example.commitA, Example.commitB, Example.commitX,
       Example.commitY] = true ∧
    (∀ fuel : Nat,
      MergeResolver.FindCommonAncestor Example.graph (fuel + 5) Example.commitX
        Example.commitY = some Example.commitR) ∧
    IsAncestorOrSelf Example.graph Example.commitA.id Example.commitX.id ∧
    IsAncestorOrSelf Example.graph Example.commitA.id Example.commitY.id ∧
    IsAncestorOrSelf Example.graph Example.commitR.id Example.commitX.id ∧
    IsAncestorOrSelf Example.graph Example.commitR.id Example.commitY.id ∧
    Example.commitR.generation < Example.commitA.generation := by
  have hAX : IsAncestorOrSelf Example.graph "A" "X" :=
    IsAncestorOrSelf.parent "A" "X" "A" Example.commitX (by decide) (by decide)
      (IsAncestorOrSelf.self "A")
  have hAY : IsAncestorOrSelf Example.graph "A" "Y" :=
    IsAncestorOrSelf.parent "A" "Y" "A" Example.commitY (by decide) (by decide)
      (IsAncestorOrSelf.self "A")
  have hRA : IsAncestorOrSelf Example.graph "R" "A" :=
    IsAncestorOrSelf.parent "R" "A" "R" Example.commitA (by decide) (by decide)
      (IsAncestorOrSelf.self "R")
  refine ⟨by decide, ?_, hAX, hAY, ?_, ?_, by decide⟩
  · intro fuel
    rfl
  · exact IsAncestorOrSelf.parent "R" "X" "A" Example.commitX (by decide) (by decide) hRA
  · exact IsAncestorOrSelf.parent "R" "Y" "A" Example.commitY (by decide) (by decide) hRA

end ledger

/-! ## The order of keys and ids -/

namespace storage

theorem charsLess_nil_right (a : List Char) : charsLess a [] = false := by
  cases a <;> rfl

theorem charsLess_asymm (a b : List Char) (h : charsLess a b = true) :
    charsLess b a = false := by
  induction a generalizing b with
  | nil => exact charsLess_nil_right b
  | cons x xs ih =>
    cases b with
    | nil => simp [charsLess] at h
    | cons y ys =>
      simp only [charsLess] at h ⊢
      by_cases h1 : x.toNat < y.toNat
      · have h2 : ¬ y.toNat < x.toNat := by omega
        simp [h1, h2]
      · by_cases h2 : y.toNat < x.toNat
        · simp [h1, h2] at h
        · simp only [h1, h2, ↓reduceIte] at h ⊢
          exact ih ys h

theorem charsLess_trans (a b c : List Char) (hab : charsLess a b = true)
    (hbc : charsLess b c = true) : charsLess a c = true := by
  induction a generalizing b c with
  | nil =>
    cases c with
    | nil => simp [charsLess_nil_right] at hbc
    | cons z zs => rfl
  | cons x xs ih =>
    cases b with
    | nil => simp [charsLess] at hab
    | cons y ys =>
      cases c with
      | nil => simp [charsLess] at hbc
      | cons z zs =>
        simp only [charsLess] at hab hbc ⊢
        by_cases h1 : x.toNat < y.toNat
        · by_cases h3 : y.toNat < z.toNat
          · have : x.toNat < z.toNat := by omega
            simp [this]
          · by_cases h4 : z.toNat < y.toNat
            · simp [h3, h4] at hbc
            · have : x.toNat < z.toNat := by omega
              simp [this]
        · by_cases h2 : y.toNat < x.toNat
          · simp [h1, h2] at hab
          · simp only [h1, h2, ↓reduceIte] at hab
            by_cases h3 : y.toNat < z.toNat
            · have : x.toNat < z.toNat := by omega
              simp [this]
            · by_cases h4 : z.toNat < y.toNat
              · simp [h3, h4] at hbc
              · simp only [h3, h4, ↓reduceIte] at hbc
                have h5 : ¬ x.toNat < z.toNat := by omega
                have h6 : ¬ z.toNat < x.toNat := by omega
                simp only [h5, h6, ↓reduceIte]
                exact ih ys zs hab hbc

theorem charsLess_total (a b : List Char) (hab : charsLess a b = false)
    (hba : charsLess b a = false) : a = b := by
  induction a generalizing b with
  | nil =>
    cases b with
    | nil => rfl
    | cons y ys => simp [charsLess] at hab
  | cons x xs ih =>
    cases b with
    | nil => simp [charsLess] at hba
    | cons y ys =>
      simp only [charsLess] at hab hba
      by_cases h1 : x.toNat < y.toNat
      · simp [h1] at hab
      · by_cases h2 : y.toNat < x.toNat
        · simp [h2] at hba
        · simp only [h1, h2, ↓reduceIte] at hab hba
          have hxy : x = y := by
            apply Char.ext
            apply UInt32.ext
            have : x.toNat = y.toNat := by omega
            exact this
          rw [hxy, ih ys hab hba]

theorem stringLess_asymm (a b : String) (h : stringLess a b = true) :
    stringLess b a = false :=
  charsLess_asymm _ _ h

theorem stringLess_trans (a b c : String) (hab : stringLess a b = true)
    (hbc : stringLess b c = true) : stringLess a c = true :=
  charsLess_trans _ _ _ hab hbc

theorem stringLess_total (a b : String) (hab : stringLess a b = false)
    (hba : stringLess b a = false) : a = b :=
  String.ext (charsLess_total _ _ hab hba)

end storage

/-! ## The claims on the fake storage -/

namespace storage

open fake (FakePageStorage FakeJournalDelegate)

/-- Claim C21, as stated, fails on the code: with the declared size -1 the
stream `abc` of 3 bytes is stored and `OK` is reported, although 3 differs
from -1. -/
theorem AddObjectFromLocal_negative_size_counterexample :
    ((3 : Int) ≠ -1) ∧
    (FakePageStorage.AddObjectFromLocal Example.RandomId Example.storage0 "abc" (-1)).1 =
      (Status.OK, "id0") ∧
    (FakePageStorage.AddObjectFromLocal Example.RandomId Example.storage0 "abc" (-1)).2.objects_ =
      [("id0", "abc")] := by
  decide

/-- Claim C21, amended: for a declared size that is not negative,
`AddObjectFromLocal` reports `IO_ERROR` and leaves the storage as it was
whenever the number of bytes read differs from the size, and otherwise reports
`OK` with a fresh id under which exactly the bytes read are stored (the other
objects stay).  For a negative declared size the size is not checked: the
bytes read are stored and `OK` is reported. -/
theorem AddObjectFromLocal_size_check (RandomId : Nat → String) (s : FakePageStorage)
    (data : String) (size : Int) :
    (0 ≤ size → (data.length : Int) ≠ size →
      FakePageStorage.AddObjectFromLocal RandomId s data size =
        ((Status.IO_ERROR, ""), s)) ∧
    ((0 ≤ size ∧ (data.length : Int) = size) ∨ size < 0 →
      (FakePageStorage.AddObjectFromLocal RandomId s data size).1 =
        (Status.OK, RandomId s.random_ids_drawn_) ∧
      (FakePageStorage.AddObjectFromLocal RandomId s data size).2.objects_ =
        mapAssign (RandomId s.random_ids_drawn_) data s.objects_ ∧
      mapFind (RandomId s.random_ids_drawn_)
        (FakePageStorage.AddObjectFromLocal RandomId s data size).2.objects_ = some data ∧
      (FakePageStorage.AddObjectFromLocal RandomId s data size).2.journals_ = s.journals_) := by
  constructor
  · intro h0 hne
    simp [FakePageStorage.AddObjectFromLocal, h0, hne]
  · intro h
    have hc : ¬ (size ≥ 0 ∧ (data.length : Int) ≠ size) := by
      rcases h with ⟨_, h⟩ | h
      · simp [h]
      · intro hc
        omega
    simp [FakePageStorage.AddObjectFromLocal, hc, mapFind_mapAssign_self]

/-- The test `CreateReference` on the fake storage: `a small value` with the
declared size 13 is stored under `id0`; with the declared size 12 nothing is
stored. -/
theorem AddObjectFromLocal_size_check_witness :
    (FakePageStorage.AddObjectFromLocal Example.RandomId Example.storage0 "a small value" 13).1 =
      (Status.OK, "id0") ∧
    mapFind "id0"
      (FakePageStorage.AddObjectFromLocal Example.RandomId Example.storage0 "a small value"
        13).2.objects_ = some "a small value" ∧
    FakePageStorage.AddObjectFromLocal Example.RandomId Example.storage0 "a small value" 12 =
      ((Status.IO_ERROR, ""), Example.storage0) :=
  ⟨((AddObjectFromLocal_size_check Example.RandomId Example.storage0 "a small value" 13).2
      (Or.inl (by decide))).1,
   ((AddObjectFromLocal_size_check Example.RandomId Example.storage0 "a small value" 13).2
      (Or.inl (by decide))).2.2.1,
   (AddObjectFromLocal_size_check Example.RandomId Example.storage0 "a small value" 12).1
      (by decide) (by decide)⟩

/-- The keys of a map after `m[key] = value`: the key assigned and the keys the
map had. -/
theorem mapAssign_keys {V : Type} (key : String) (value : V) (m : List (String × V))
    (x : String × V) (hx : x ∈ mapAssign key value m) : x.1 = key ∨ x ∈ m := by
  induction m with
  | nil =>
    simp only [mapAssign, List.mem_singleton] at hx
    left
    rw [hx]
  | cons kv rest ih =>
    obtain ⟨k, v⟩ := kv
    unfold mapAssign at hx
    by_cases h1 : stringLess key k = true
    · simp only [h1, ↓reduceIte, List.mem_cons] at hx
      rcases hx with hx | hx | hx
      · left; rw [hx]
      · right; rw [hx]; exact List.mem_cons_self _ _
      · right; exact List.mem_cons_of_mem _ hx
    · by_cases h2 : key = k
      · subst h2
        simp only [stringLess_irrefl, Bool.false_eq_true, ↓reduceIte, List.mem_cons] at hx
        rcases hx with hx | hx
        · left; rw [hx]
        · right; exact List.mem_cons_of_mem _ hx
      · have h1f : stringLess key k = false := by simpa using h1
        simp only [h1f, Bool.false_eq_true, h2, ↓reduceIte, List.mem_cons] at hx
        rcases hx with hx | hx
        · right; rw [hx]; exact List.mem_cons_self _ _
        · rcases ih hx with h | h
          · left; exact h
          · right; exact List.mem_cons_of_mem _ h

/-- The assignment `m[key] = value` keeps a map in strictly ascending key
order. -/
theorem mapAssign_pairwise {V : Type} (key : String) (value : V) (m : List (String × V))
    (h : m.Pairwise (fun x y => stringLess x.1 y.1 = true)) :
    (mapAssign key value m).Pairwise (fun x y => stringLess x.1 y.1 = true) := by
  induction m with
  | nil => simp [mapAssign]
  | cons kv rest ih =>
    obtain ⟨k, v⟩ := kv
    rw [List.pairwise_cons] at h
    unfold mapAssign
    by_cases h1 : stringLess key k = true
    · simp only [h1, ↓reduceIte]
      refine List.Pairwise.cons ?_ (List.Pairwise.cons h.1 h.2)
      intro y hy
      rcases List.mem_cons.mp hy with hy | hy
      · rw [hy]; exact h1
      · exact stringLess_trans _ _ _ h1 (h.1 y hy)
    · by_cases h2 : key = k
      · subst h2
        simp only [stringLess_irrefl, Bool.false_eq_true, ↓reduceIte]
        exact List.Pairwise.cons h.1 h.2
      · have h1f : stringLess key k = false := by simpa using h1
        simp only [h1f, Bool.false_eq_true, h2, ↓reduceIte]
        have hk : stringLess k key = true := by
          by_contra hc
          exact h2 (stringLess_total key k (by simpa using h1) (by simpa using hc))
        refine List.Pairwise.cons ?_ (ih h.2)
        intro y hy
        rcases mapAssign_keys key value rest y hy with hy | hy
        · rw [hy]; exact hk
        · exact h.1 y hy

/-- The entries `GetCommitContents` may pass to `on_next`: those of the journal
whose key is not below `min_key`, all of them for an empty `min_key`, in the
order of the map. -/
theorem GetCommitContents_loop_initial {α : Type} (min_key : String)
    (on_next : α → Entry → Bool × α) (data : List (String × FakeJournalDelegate.Entry))
    (a : α) :
    (FakePageStorage.GetCommitContents_loop min_key on_next data a).1 <+:
      (data.filter (fun kv => min_key.isEmpty || !stringLess kv.1 min_key)).map
        (fun kv => ({ key := kv.1, object_id := kv.2.value, priority := kv.2.priority } :
          Entry)) := by
  induction data generalizing a with
  | nil => simp [FakePageStorage.GetCommitContents_loop]
  | cons kv rest ih =>
    obtain ⟨key, entry⟩ := kv
    unfold FakePageStorage.GetCommitContents_loop
    by_cases hk : (min_key.isEmpty || !stringLess key min_key) = true
    · simp only [hk, ↓reduceIte, List.filter_cons_of_pos, List.map_cons]
      split
      · exact List.prefix_cons_inj _ |>.mpr (ih _)
      · simp
    · simp only [hk, Bool.false_eq_true, ↓reduceIte]
      rw [List.filter_cons_of_neg (by simpa using hk)]
      exact ih a

/-- While `on_next` answers "continue", every entry from `min_key` on is passed
to it. -/
theorem GetCommitContents_loop_all {α : Type} (min_key : String)
    (on_next : α → Entry → Bool × α) (hall : ∀ a e, (on_next a e).1 = true)
    (data : List (String × FakeJournalDelegate.Entry)) (a : α) :
    (FakePageStorage.GetCommitContents_loop min_key on_next data a).1 =
      (data.filter (fun kv => min_key.isEmpty || !stringLess kv.1 min_key)).map
        (fun kv => ({ key := kv.1, object_id := kv.2.value, priority := kv.2.priority } :
          Entry)) := by
  induction data generalizing a with
  | nil => simp [FakePageStorage.GetCommitContents_loop]
  | cons kv rest ih =>
    obtain ⟨key, entry⟩ := kv
    unfold FakePageStorage.GetCommitContents_loop
    by_cases hk : (min_key.isEmpty || !stringLess key min_key) = true
    · simp only [hk, ↓reduceIte, List.filter_cons_of_pos, List.map_cons, hall]
      rw [ih]
    · simp only [hk, Bool.false_eq_true, ↓reduceIte]
      rw [List.filter_cons_of_neg (by simpa using hk)]
      exact ih a

/-- For an `on_next` that decides on the entry alone (`p`), the entries passed
are those from `min_key` on up to and including the first one on which `p`
answers "stop". -/
theorem GetCommitContents_loop_stop {α : Type} (min_key : String) (p : Entry → Bool)
    (data : List (String × FakeJournalDelegate.Entry)) (a : α) :
    (FakePageStorage.GetCommitContents_loop min_key (fun s e => (p e, s)) data a).1 =
      (((data.filter (fun kv => min_key.isEmpty || !stringLess kv.1 min_key)).map
        (fun kv => ({ key := kv.1, object_id := kv.2.value, priority := kv.2.priority } :
          Entry))).takeWhile p) ++
      ((((data.filter (fun kv => min_key.isEmpty || !stringLess kv.1 min_key)).map
        (fun kv => ({ key := kv.1, object_id := kv.2.value, priority := kv.2.priority } :
          Entry))).dropWhile p).take 1) := by
  induction data with
  | nil => simp [FakePageStorage.GetCommitContents_loop]
  | cons kv rest ih =>
    obtain ⟨key, entry⟩ := kv
    unfold FakePageStorage.GetCommitContents_loop
    by_cases hk : (min_key.isEmpty || !stringLess key min_key) = true
    · simp only [hk, ↓reduceIte, List.filter_cons_of_pos, List.map_cons]
      by_cases hp : p { key := key, object_id := entry.value, priority := entry.priority } = true
      · simp only [hp, ↓reduceIte, List.takeWhile_cons_of_pos, List.dropWhile_cons_of_pos,
          List.cons_append]
        rw [ih]
      · simp [hp]
    · simp only [hk, Bool.false_eq_true, ↓reduceIte]
      rw [List.filter_cons_of_neg (by simpa using hk)]
      exact ih

/-- Claim C22: for a commit the fake storage knows (its journal is `journal`),
whose data is in strictly ascending key order as a `std::map` keeps it, and any
`min_key` and `on_next`: `on_done` is called exactly once, with `OK`; the
entries passed to `on_next` are an initial part of the entries whose key is not
below `min_key` (all entries for an empty `min_key`), taken in map order, so
their keys are strictly ascending; all of these entries are passed while
`on_next` answers "continue"; and for an `on_next` that decides on the entry
alone the enumeration ends with the first entry on which it answers "stop".
The mutations of the journal keep its data in strictly ascending key order.
For a commit the storage does not know, or whose journal is null, `on_next` is
never called and `on_done` is called once, with `NOT_FOUND`. -/
theorem GetCommitContents_enumeration {α : Type} (s : FakePageStorage) (commit_id : CommitId)
    (min_key : String) (on_next : α → Entry → Bool × α) (a : α) :
    (∀ journal : FakeJournalDelegate, mapFind commit_id s.journals_ = some (some journal) →
      journal.data_.Pairwise (fun x y => stringLess x.1 y.1 = true) →
      (FakePageStorage.GetCommitContents s commit_id min_key on_next a).1.on_done =
        [Status.OK] ∧
      (FakePageStorage.GetCommitContents s commit_id min_key on_next a).2 = s ∧
      (FakePageStorage.GetCommitContents s commit_id min_key on_next a).1.on_next <+:
        (journal.data_.filter (fun kv => min_key.isEmpty || !stringLess kv.1 min_key)).map
          (fun kv => ({ key := kv.1, object_id := kv.2.value, priority := kv.2.priority } :
            Entry)) ∧
      (FakePageStorage.GetCommitContents s commit_id min_key on_next a).1.on_next.Pairwise
        (fun x y => stringLess x.key y.key = true) ∧
      ((∀ b e, (on_next b e).1 = true) →
        (FakePageStorage.GetCommitContents s commit_id min_key on_next a).1.on_next =
          (journal.data_.filter (fun kv => min_key.isEmpty || !stringLess kv.1 min_key)).map
            (fun kv => ({ key := kv.1, object_id := kv.2.value, priority := kv.2.priority } :
              Entry))) ∧
      (∀ (key : String) (value : ObjectId) (priority : KeyPriority),
        (FakeJournalDelegate.SetValue key value priority journal).2.data_.Pairwise
          (fun x y => stringLess x.1 y.1 = true) ∧
        (FakeJournalDelegate.Delete key journal).2.data_.Pairwise
          (fun x y => stringLess x.1 y.1 = true)) ∧
      (∀ p : Entry → Bool,
        (FakePageStorage.GetCommitContents s commit_id min_key
            (fun (b : α) e => (p e, b)) a).1.on_next =
          (((journal.data_.filter
              (fun kv => min_key.isEmpty || !stringLess kv.1 min_key)).map
            (fun kv => ({ key := kv.1, object_id := kv.2.value, priority := kv.2.priority } :
              Entry))).takeWhile p) ++
          ((((journal.data_.filter
              (fun kv => min_key.isEmpty || !stringLess kv.1 min_key)).map
            (fun kv => ({ key := kv.1, object_id := kv.2.value, priority := kv.2.priority } :
              Entry))).dropWhile p).take 1))) ∧
    (mapFind commit_id s.journals_ = none ∨ mapFind commit_id s.journals_ = some none →
      (FakePageStorage.GetCommitContents s commit_id min_key on_next a).1.on_next = [] ∧
      (FakePageStorage.GetCommitContents s commit_id min_key on_next a).1.on_done =
        [Status.NOT_FOUND]) := by
  constructor
  · intro journal hj hsorted
    have hpre := GetCommitContents_loop_initial min_key on_next journal.data_ a
    have hsortedL : ((journal.data_.filter
        (fun kv => min_key.isEmpty || !stringLess kv.1 min_key)).map
        (fun kv => ({ key := kv.1, object_id := kv.2.value, priority := kv.2.priority } :
          Entry))).Pairwise (fun x y => stringLess x.key y.key = true) := by
      rw [List.pairwise_map]
      exact hsorted.sublist (List.filter_sublist _)
    refine ⟨?_, ?_, ?_, ?_, ?_, ?_, ?_⟩
    · simp [FakePageStorage.GetCommitContents, hj]
    · simp [FakePageStorage.GetCommitContents, hj]
    · simpa [FakePageStorage.GetCommitContents, hj] using hpre
    · have : (FakePageStorage.GetCommitContents s commit_id min_key on_next a).1.on_next =
          (FakePageStorage.GetCommitContents_loop min_key on_next journal.data_ a).1 := by
        simp [FakePageStorage.GetCommitContents, hj]
      rw [this]
      exact hsortedL.sublist hpre.sublist
    · intro hall
      simpa [FakePageStorage.GetCommitContents, hj] using
        GetCommitContents_loop_all min_key on_next hall journal.data_ a
    · intro key value priority
      constructor
      · unfold FakeJournalDelegate.SetValue
        split
        · exact hsorted
        · exact mapAssign_pairwise _ _ _ hsorted
      · unfold FakeJournalDelegate.Delete
        split
        · exact hsorted
        · exact mapAssign_pairwise _ _ _ hsorted
    · intro p
      simpa [FakePageStorage.GetCommitContents, hj] using
        GetCommitContents_loop_stop min_key p journal.data_ a
  · intro h
    rcases h with h | h <;> simp [FakePageStorage.GetCommitContents, h]

/-- The test `ForEachEntryPrefix` in small, on the commit `id0` of
`storage_keys` (keys `key29`, `key30`, `key31`, `key40`): from `key3` on,
`key30` and `key31` are passed, then `key40`, on which `on_next` answers "stop";
with an `on_next` that always continues all three are passed; `on_done` gets
`OK`.  For the unknown commit `id7` nothing is passed and `on_done` gets
`NOT_FOUND`. -/
theorem GetCommitContents_enumeration_witness :
    mapFind "id0" Example.storage_keys.journals_ = some (some Example.journal_keys) ∧
    Example.journal_keys.data_.Pairwise (fun x y => stringLess x.1 y.1 = true) ∧
    (FakePageStorage.GetCommitContents Example.storage_keys "id0" "key3"
      (fun (u : Unit) e => (Example.hasPrefix_key3 e, u)) ()).1.on_done = [Status.OK] ∧
    (FakePageStorage.GetCommitContents Example.storage_keys "id0" "key3"
      (fun (u : Unit) e => (Example.hasPrefix_key3 e, u)) ()).1.on_next =
      [{ key := "key30", object_id := "id1", priority := KeyPriority.EAGER },
       { key := "key31", object_id := "id4", priority := KeyPriority.EAGER },
       { key := "key40", object_id := "id2", priority := KeyPriority.EAGER }] ∧
    (FakePageStorage.GetCommitContents Example.storage_keys "id0" "key3"
      (fun (u : Unit) e => (Example.hasPrefix_key3 e, u)) ()).1.on_next.Pairwise
      (fun x y => stringLess x.key y.key = true) ∧
    (FakePageStorage.GetCommitContents Example.storage_keys "id7" "key3"
      (fun (u : Unit) e => (Example.hasPrefix_key3 e, u)) ()).1.on_done =
      [Status.NOT_FOUND] := by
  have H := GetCommitContents_enumeration Example.storage_keys "id0" "key3"
    (fun (u : Unit) e => (Example.hasPrefix_key3 e, u)) ()
  have H7 := GetCommitContents_enumeration Example.storage_keys "id7" "key3"
    (fun (u : Unit) e => (Example.hasPrefix_key3 e, u)) ()
  have hj : mapFind "id0" Example.storage_keys.journals_ = some (some Example.journal_keys) := by
    decide
  have hs : Example.journal_keys.data_.Pairwise (fun x y => stringLess x.1 y.1 = true) := by
    decide
  exact ⟨hj, hs, (H.1 _ hj hs).1, by decide, (H.1 _ hj hs).2.2.2.1,
    (H7.2 (Or.inl (by decide))).2⟩

/-- Claim C23, as stated, fails on the code: after scenario S2 (the reference
names an object the store holds) the journal `id1` is committed and holds 2
entries, `some_key1` present and `some_key2` marked deleted, as claimed; but
listing the commit `id1` passes both keys to `on_next`, and the lookup of
`some_key2` in the commit answers `OK` with the entry. -/
theorem deleted_key_listed_counterexample :
    mapFind "id1" Example.world_S2.storage.journals_ =
      some (some Example.journal_S2) ∧
    Example.journal_S2.data_.length = 2 ∧
    mapFind "some_key1" Example.journal_S2.data_ =
      some { value := "id2", deleted := false, priority := KeyPriority.EAGER } ∧
    mapFind "some_key2" Example.journal_S2.data_ =
      some { value := "id0", deleted := true, priority := KeyPriority.LAZY } ∧
    ((FakePageStorage.GetCommitContents Example.world_S2.storage "id1" ""
      (fun (u : Unit) _ => (true, u)) ()).1.on_next.map (fun e => e.key)) =
      ["some_key1", "some_key2"] ∧
    (FakePageStorage.GetEntryFromCommit Example.world_S2.storage "id1" "some_key2").1 =
      (Status.OK, { key := "some_key2", object_id := "id0", priority := KeyPriority.LAZY }) := by
  decide

/-- Claim C23, amended: the commit contents and the entry lookup of the fake
storage read the data of the journal without looking at the `deleted` mark.
For a commit whose journal is `journal`: listing it from the empty `min_key`
with an `on_next` that always continues passes every key of the journal, marked
deleted or not, in map order; the lookup of a key the journal holds answers
`OK` with the object id and priority recorded for it, whatever its mark; and a
`Delete` on an open journal keeps the key in the data, marked deleted. -/
theorem commit_contents_keep_deleted {α : Type} (s : FakePageStorage) (commit_id : CommitId)
    (journal : FakeJournalDelegate) (on_next : α → Entry → Bool × α) (a : α)
    (hj : mapFind commit_id s.journals_ = some (some journal))
    (hall : ∀ b e, (on_next b e).1 = true) :
    (FakePageStorage.GetCommitContents s commit_id "" on_next a).1.on_next =
      journal.data_.map
        (fun kv => ({ key := kv.1, object_id := kv.2.value, priority := kv.2.priority } :
          Entry)) ∧
    (∀ (key : String) (entry : FakeJournalDelegate.Entry),
      mapFind key journal.data_ = some entry →
      (FakePageStorage.GetEntryFromCommit s commit_id key).1 =
        (Status.OK, { key := key, object_id := entry.value, priority := entry.priority })) ∧
    (∀ key : String, journal.is_committed_ = false → journal.is_rolled_back_ = false →
      ∃ entry : FakeJournalDelegate.Entry,
        mapFind key (FakeJournalDelegate.Delete key journal).2.data_ = some entry ∧
        entry.deleted = true) := by
  refine ⟨?_, ?_, ?_⟩
  · have h := GetCommitContents_loop_all "" on_next hall journal.data_ a
    simp only [FakePageStorage.GetCommitContents, hj]
    rw [h]
    have hf : (fun (kv : String × FakeJournalDelegate.Entry) =>
        ("" : String).isEmpty || !stringLess kv.1 "") = fun _ => true := by
      funext kv
      rfl
    rw [hf, List.filter_true]
  · intro key entry hk
    simp [FakePageStorage.GetEntryFromCommit, hj, hk]
  · intro key hc hr
    refine ⟨{ (mapFind key journal.data_).getD
        { value := "", deleted := false, priority := KeyPriority.EAGER } with
        deleted := true }, ?_, rfl⟩
    · simp only [FakeJournalDelegate.Delete, hc, hr, Bool.or_self, Bool.false_eq_true,
        ↓reduceIte]
      exact mapFind_mapAssign_self _ _ _

/-- Scenario S2 on the fake storage: the commit `id1` lists `some_key1` and
`some_key2`, and the lookup of `some_key2` finds the entry with the object
`id0`. -/
theorem commit_contents_keep_deleted_witness :
    mapFind "id1" Example.world_S2.storage.journals_ =
      some (some Example.journal_S2) ∧
    (FakePageStorage.GetCommitContents Example.world_S2.storage "id1" ""
      (fun (u : Unit) _ => (true, u)) ()).1.on_next =
      [{ key := "some_key1", object_id := "id2", priority := KeyPriority.EAGER },
       { key := "some_key2", object_id := "id0", priority := KeyPriority.LAZY }] ∧
    (FakePageStorage.GetEntryFromCommit Example.world_S2.storage "id1" "some_key2").1 =
      (Status.OK, { key := "some_key2", object_id := "id0", priority := KeyPriority.LAZY }) :=
  ⟨by decide,
   (commit_contents_keep_deleted Example.world_S2.storage "id1" Example.journal_S2
      (fun (u : Unit) _ => (true, u)) () (by decide) (fun _ _ => rfl)).1,
   (commit_contents_keep_deleted Example.world_S2.storage "id1" Example.journal_S2
      (fun (u : Unit) _ => (true, u)) () (by decide) (fun _ _ => rfl)).2.1
      "some_key2" { value := "id0", deleted := true, priority := KeyPriority.LAZY }
      (by decide)⟩

/-! ## The claim on the B-tree layer -/

namespace btree

/-- A key not below `b` is below whatever `b` is below. -/
theorem stringLess_of_not_lt_of_lt (b k y : String) (h1 : stringLess b k = false)
    (h2 : stringLess b y = true) : stringLess k y = true := by
  by_cases hk : stringLess k b = true
  · exact stringLess_trans _ _ _ hk h2
  · have : k = b := stringLess_total k b (by simpa using hk) h1
    rw [this]
    exact h2

theorem CopyUntil_append (key : String) (tree : Tree) :
    (CopyUntil key tree).1 ++ (CopyUntil key tree).2 = tree := by
  induction tree with
  | nil => rfl
  | cons e t ih =>
    unfold CopyUntil
    split
    · simp [ih]
    · rfl

theorem CopyUntil_fst_lt (key : String) (tree : Tree) :
    ∀ e ∈ (CopyUntil key tree).1, stringLess e.key key = true := by
  induction tree with
  | nil => intro e he; cases he
  | cons x t ih =>
    unfold CopyUntil
    split
    · rename_i hx
      intro e he
      rcases List.mem_cons.mp he with h | h
      · rw [h]; exact hx
      · exact ih e h
    · intro e he; cases he

theorem CopyUntil_snd_head (key : String) (tree : Tree) (b : Entry) (rest : Tree)
    (h : (CopyUntil key tree).2 = b :: rest) : stringLess b.key key = false := by
  induction tree with
  | nil => simp [CopyUntil] at h
  | cons x t ih =>
    unfold CopyUntil at h
    split at h
    · exact ih h
    · rename_i hx
      simp only [List.cons.injEq] at h
      rw [← h.1]
      simpa using hx

/-- The walk stops at once on a tree whose first key is not below the key. -/
theorem CopyUntil_stop (key : String) (b : Entry) (rest : Tree)
    (h : stringLess b.key key = false) : CopyUntil key (b :: rest) = ([], b :: rest) := by
  simp [CopyUntil, h]

/-- The walk passes over a tree all of whose keys are below the key. -/
theorem CopyUntil_all (key : String) (tree : Tree)
    (h : ∀ e ∈ tree, stringLess e.key key = true) : CopyUntil key tree = (tree, []) := by
  induction tree with
  | nil => rfl
  | cons x t ih =>
    have hx := h x (List.mem_cons_self _ _)
    have ht := ih (fun e he => h e (List.mem_cons_of_mem _ he))
    simp [CopyUntil, hx, ht]

/-- The walk over a part whose keys are below the key goes on into what
follows. -/
theorem CopyUntil_append_left (key : String) (before tree : Tree)
    (h : ∀ e ∈ before, stringLess e.key key = true) :
    CopyUntil key (before ++ tree) =
      (before ++ (CopyUntil key tree).1, (CopyUntil key tree).2) := by
  induction before with
  | nil => rfl
  | cons x t ih =>
    have hx := h x (List.mem_cons_self _ _)
    have ht := ih (fun e he => h e (List.mem_cons_of_mem _ he))
    simp [CopyUntil, hx, ht]

/-- In a tree in ascending key order, what the walk leaves is in ascending key
order and its keys after the first are above the key. -/
theorem CopyUntil_sorted (key : String) (tree : Tree)
    (hs : tree.Pairwise (fun a b => stringLess a.key b.key = true)) :
    (CopyUntil key tree).1.Pairwise (fun a b => stringLess a.key b.key = true) ∧
    (CopyUntil key tree).2.Pairwise (fun a b => stringLess a.key b.key = true) ∧
    (∀ (b : Entry) (rest : Tree), (CopyUntil key tree).2 = b :: rest →
      ∀ y ∈ rest, stringLess key y.key = true) := by
  have happ := CopyUntil_append key tree
  rw [← happ] at hs
  have hp := List.pairwise_append.mp hs
  refine ⟨hp.1, hp.2.1, ?_⟩
  intro b rest hb y hy
  have hbk := CopyUntil_snd_head key tree b rest hb
  rw [hb] at hp
  have hby : stringLess b.key y.key = true := (List.pairwise_cons.mp hp.2.1).1 y hy
  exact stringLess_of_not_lt_of_lt _ _ _ hbk hby

/-- Deleting the first entries of a tree one by one takes them off. -/
theorem ApplyChanges_walk_deletions (before rest : Tree) (changes : List EntryChange) :
    ApplyChanges_walk
      (before.map (fun e => ({ entry := e, deleted := true } : EntryChange)) ++ changes)
      (before ++ rest) = ApplyChanges_walk changes rest := by
  induction before with
  | nil => rfl
  | cons x t ih =>
    simp only [List.map_cons, List.cons_append, ApplyChanges_walk]
    rw [CopyUntil_stop x.key x (t ++ rest) (stringLess_irrefl _)]
    simp [ih]

/-- An entry whose key is below the key of the first change stays where it
is. -/
theorem ApplyChanges_walk_skip (b : Entry) (tree : Tree) (changes : List EntryChange)
    (h : ∀ c ∈ changes.head?, stringLess b.key c.entry.key = true) :
    ApplyChanges_walk changes (b :: tree) = b :: ApplyChanges_walk changes tree := by
  cases changes with
  | nil => rfl
  | cons c cs =>
    have hc : stringLess b.key c.entry.key = true := h c rfl
    simp [ApplyChanges_walk, CopyUntil, hc]

/-- The diff from a tree to itself is empty. -/
theorem ForEachDiff_self (tree : Tree) : ForEachDiff tree tree = [] := by
  induction tree with
  | nil => rfl
  | cons x t ih =>
    simp [ForEachDiff, CopyUntil_stop x.key x t (stringLess_irrefl _), ih]

/-- An entry of the diff comes from one of the two trees. -/
theorem ForEachDiff_mem (base other : Tree) (c : EntryChange)
    (hc : c ∈ ForEachDiff base other) : c.entry ∈ base ∨ c.entry ∈ other := by
  induction other generalizing base with
  | nil =>
    simp only [ForEachDiff, List.mem_map] at hc
    obtain ⟨e, he, hce⟩ := hc
    left
    rw [← hce]
    exact he
  | cons o os ih =>
    have happ := CopyUntil_append o.key base
    simp only [ForEachDiff, List.mem_append, List.mem_map] at hc
    rcases hc with ⟨e, he, hce⟩ | hc
    · left
      rw [← hce, ← happ]
      exact List.mem_append_left _ he
    · cases hrest : (CopyUntil o.key base).2 with
      | nil =>
        simp only [hrest, List.mem_cons] at hc
        rcases hc with hc | hc
        · right; rw [hc]; exact List.mem_cons_self _ _
        · rcases ih [] hc with h | h
          · cases h
          · right; exact List.mem_cons_of_mem _ h
      | cons b r =>
        rw [hrest] at happ
        have hsub : ∀ x ∈ b :: r, x ∈ base := by
          intro x hx
          rw [← happ]
          exact List.mem_append_right _ hx
        simp only [hrest] at hc
        by_cases hk : b.key = o.key
        · by_cases hb : b = o
          · simp only [hk, hb, ↓reduceIte] at hc
            rcases ih r hc with h | h
            · left; exact hsub _ (List.mem_cons_of_mem _ h)
            · right; exact List.mem_cons_of_mem _ h
          · simp only [hk, hb, ↓reduceIte, List.mem_cons] at hc
            rcases hc with hc | hc
            · right; rw [hc]; exact List.mem_cons_self _ _
            · rcases ih r hc with h | h
              · left; exact hsub _ (List.mem_cons_of_mem _ h)
              · right; exact List.mem_cons_of_mem _ h
        · simp only [hk, ↓reduceIte, List.mem_cons] at hc
          rcases hc with hc | hc
          · right; rw [hc]; exact List.mem_cons_self _ _
          · rcases ih (b :: r) hc with h | h
            · left; exact hsub _ h
            · right; exact List.mem_cons_of_mem _ h

/-- An entry of the tree after the changes comes from the tree or from a change
that is not a deletion. -/
theorem ApplyChanges_walk_mem (changes : List EntryChange) (tree : Tree) (x : Entry)
    (hx : x ∈ ApplyChanges_walk changes tree) :
    x ∈ tree ∨ ∃ c ∈ changes, c.deleted = false ∧ x = c.entry := by
  induction changes generalizing tree with
  | nil => exact Or.inl hx
  | cons c cs ih =>
    have happ := CopyUntil_append c.entry.key tree
    simp only [ApplyChanges_walk, List.mem_append] at hx
    rcases hx with hx | hx | hx
    · left
      rw [← happ]
      exact List.mem_append_left _ hx
    · right
      by_cases hd : c.deleted = true
      · simp [hd] at hx
      · simp only [hd, Bool.false_eq_true, ↓reduceIte, List.mem_singleton] at hx
        exact ⟨c, List.mem_cons_self _ _, by simpa using hd, hx⟩
    · rcases ih _ hx with h | ⟨c2, hc2, hd2, hx2⟩
      · left
        rw [← happ]
        apply List.mem_append_right
        cases hrest : (CopyUntil c.entry.key tree).2 with
        | nil => simp [hrest] at h
        | cons b r =>
          simp only [hrest] at h
          split at h
          · exact List.mem_cons_of_mem _ h
          · exact h
      · exact Or.inr ⟨c2, List.mem_cons_of_mem _ hc2, hd2, hx2⟩

/-- The first entry of `base` is emitted as a deletion when the first key of
`other` is above its key. -/
theorem ForEachDiff_delete_head (b : Entry) (base other : Tree)
    (h : ∀ o ∈ other.head?, stringLess b.key o.key = true) :
    ForEachDiff (b :: base) other =
      { entry := b, deleted := true } :: ForEachDiff base other := by
  cases other with
  | nil => rfl
  | cons o os =>
    have ho : stringLess b.key o.key = true := h o rfl
    simp [ForEachDiff, CopyUntil, ho]

/-- What two trees share at their start is not emitted. -/
theorem ForEachDiff_common_start (before base other : Tree) :
    ForEachDiff (before ++ base) (before ++ other) = ForEachDiff base other := by
  induction before with
  | nil => rfl
  | cons x t ih =>
    simp [ForEachDiff, CopyUntil_stop x.key x (t ++ base) (stringLess_irrefl _), ih]

/-- A change whose key is above the keys of the first part of a tree alters the
rest of the tree if it alters the tree. -/
theorem Alters_rest (before rest : Tree) (c : EntryChange)
    (h : ∀ e ∈ before, stringLess e.key c.entry.key = true) (ha : Alters (before ++ rest) c) :
    Alters rest c := by
  unfold Alters at ha ⊢
  by_cases hd : c.deleted = true
  · simp only [hd, ↓reduceIte] at ha ⊢
    obtain ⟨e, he, hk⟩ := ha
    rcases List.mem_append.mp he with he | he
    · have := h e he
      rw [hk, stringLess_irrefl] at this
      exact absurd this Bool.false_ne_true
    · exact ⟨e, he, hk⟩
  · simp only [hd, Bool.false_eq_true, ↓reduceIte] at ha ⊢
    intro hm
    exact ha (List.mem_append_right _ hm)

/-- The diff of two trees in ascending key order is strictly increasing by
key. -/
theorem ForEachDiff_sorted (base other : Tree)
    (hb : base.Pairwise (fun a b => stringLess a.key b.key = true))
    (ho : other.Pairwise (fun a b => stringLess a.key b.key = true)) :
    (ForEachDiff base other).Pairwise
      (fun a b => stringLess a.entry.key b.entry.key = true) := by
  induction other generalizing base with
  | nil =>
    simp only [ForEachDiff]
    rw [List.pairwise_map]
    exact hb
  | cons o os ih =>
    have hos := List.pairwise_cons.mp ho
    have hbefore := CopyUntil_fst_lt o.key base
    obtain ⟨hs1, hs2, hs3⟩ := CopyUntil_sorted o.key base hb
    -- every change emitted after the entries passed over has a key not below `o.key`
    have htail : ∀ (rest : Tree), rest.Pairwise (fun a b => stringLess a.key b.key = true) →
        (∀ y ∈ rest, stringLess o.key y.key = true) →
        ((ForEachDiff rest os).Pairwise
            (fun a b => stringLess a.entry.key b.entry.key = true) ∧
          ∀ c ∈ ForEachDiff rest os, stringLess o.key c.entry.key = true) := by
      intro rest hrs hry
      refine ⟨ih rest hrs hos.2, ?_⟩
      intro c hc
      rcases ForEachDiff_mem rest os c hc with h | h
      · exact hry _ h
      · exact hos.1 _ h
    simp only [ForEachDiff]
    rw [List.pairwise_append]
    refine ⟨?_, ?_, ?_⟩
    · rw [List.pairwise_map]
      exact hs1
    · cases hrest : (CopyUntil o.key base).2 with
      | nil =>
        simp only
        have := htail [] List.Pairwise.nil (fun y hy => absurd hy (List.not_mem_nil y))
        exact List.Pairwise.cons this.2 this.1
      | cons b r =>
        rw [hrest] at hs2
        have hbr := List.pairwise_cons.mp hs2
        have hr := hs3 b r hrest
        simp only
        by_cases hk : b.key = o.key
        · have ht := htail r hbr.2 hr
          by_cases hbo : b = o
          · simp only [hk, hbo, ↓reduceIte]
            exact ht.1
          · simp only [hk, hbo, ↓reduceIte]
            exact List.Pairwise.cons ht.2 ht.1
        · have hbk := CopyUntil_snd_head o.key base b r hrest
          have hob : stringLess o.key b.key = true := by
            by_contra hc
            exact hk (stringLess_total _ _ hbk (by simpa using hc))
          have ht := htail (b :: r) hs2 (by
            intro y hy
            rcases List.mem_cons.mp hy with h | h
            · rw [h]; exact hob
            · exact hr y h)
          simp only [hk, ↓reduceIte]
          exact List.Pairwise.cons ht.2 ht.1
    · intro x hx y hy
      simp only [List.mem_map] at hx
      obtain ⟨e, he, hxe⟩ := hx
      have hek : stringLess e.key o.key = true := hbefore e he
      have hoy : y.entry.key = o.key ∨ stringLess o.key y.entry.key = true := by
        cases hrest : (CopyUntil o.key base).2 with
        | nil =>
          simp only [hrest, List.mem_cons] at hy
          rcases hy with h | h
          · left; rw [h]
          · right
            exact (htail [] List.Pairwise.nil
              (fun y hy => absurd hy (List.not_mem_nil y))).2 y h
        | cons b r =>
          rw [hrest] at hs2
          have hbr := List.pairwise_cons.mp hs2
          have hr := hs3 b r hrest
          simp only [hrest] at hy
          by_cases hk : b.key = o.key
          · have ht := htail r hbr.2 hr
            by_cases hbo : b = o
            · simp only [hk, hbo, ↓reduceIte] at hy
              exact Or.inr (ht.2 y hy)
            · simp only [hk, hbo, ↓reduceIte, List.mem_cons] at hy
              rcases hy with h | h
              · left; rw [h]
              · exact Or.inr (ht.2 y h)
          · have hbk := CopyUntil_snd_head o.key base b r hrest
            have hob : stringLess o.key b.key = true := by
              by_contra hc
              exact hk (stringLess_total _ _ hbk (by simpa using hc))
            have ht := htail (b :: r) hs2 (by
              intro y hy
              rcases List.mem_cons.mp hy with h | h
              · rw [h]; exact hob
              · exact hr y h)
            simp only [hk, ↓reduceIte, List.mem_cons] at hy
            rcases hy with h | h
            · left; rw [h]
            · exact Or.inr (ht.2 y h)
      rw [← hxe]
      rcases hoy with h | h
      · rw [h]; exact hek
      · exact stringLess_trans _ _ _ hek h

/-- Applying the diff from `base` to `other` to `base` gives `other`. -/
theorem ApplyChanges_walk_ForEachDiff (base other : Tree)
    (hb : base.Pairwise (fun a b => stringLess a.key b.key = true))
    (ho : other.Pairwise (fun a b => stringLess a.key b.key = true)) :
    ApplyChanges_walk (ForEachDiff base other) base = other := by
  induction other generalizing base with
  | nil =>
    have := ApplyChanges_walk_deletions base [] []
    simpa [ForEachDiff] using this
  | cons o os ih =>
    have hos := List.pairwise_cons.mp ho
    have happ := CopyUntil_append o.key base
    obtain ⟨_, hs2, hs3⟩ := CopyUntil_sorted o.key base hb
    simp only [ForEachDiff]
    generalize hpre : (CopyUntil o.key base).1 = before at happ ⊢
    cases hrest : (CopyUntil o.key base).2 with
    | nil =>
      rw [hrest] at happ
      rw [← happ, ApplyChanges_walk_deletions]
      simp only [ApplyChanges_walk, CopyUntil, Bool.false_eq_true, ↓reduceIte,
        List.nil_append, List.singleton_append, List.cons.injEq, true_and]
      exact ih [] List.Pairwise.nil hos.2
    | cons b r =>
      rw [hrest] at hs2
      have hbr := List.pairwise_cons.mp hs2
      have hr := hs3 b r hrest
      have hbk := CopyUntil_snd_head o.key base b r hrest
      rw [hrest] at happ
      rw [← happ, ApplyChanges_walk_deletions]
      simp only
      by_cases hk : b.key = o.key
      · by_cases hbo : b = o
        · simp only [hk, hbo, ↓reduceIte]
          rw [ApplyChanges_walk_skip o r (ForEachDiff r os), ih r hbr.2 hos.2]
          intro c hc
          have hcm : c ∈ ForEachDiff r os := List.mem_of_mem_head? hc
          rcases ForEachDiff_mem r os c hcm with h | h
          · exact hr _ h
          · exact hos.1 _ h
        · simp only [hk, hbo, ↓reduceIte, ApplyChanges_walk]
          rw [CopyUntil_stop o.key b r hbk]
          simp only [hk, ↓reduceIte, Bool.false_eq_true, List.nil_append,
            List.singleton_append, List.cons.injEq, true_and]
          exact ih r hbr.2 hos.2
      · simp only [hk, ↓reduceIte, ApplyChanges_walk]
        rw [CopyUntil_stop o.key b r hbk]
        simp only [hk, ↓reduceIte, Bool.false_eq_true, List.nil_append,
          List.singleton_append, List.cons.injEq, true_and]
        exact ih (b :: r) hs2 hos.2

/-- The diff from a tree to the tree after changes that are strictly increasing
by key and each really alter the tree is the list of these changes. -/
theorem ForEachDiff_ApplyChanges_walk (changes : List EntryChange) (base : Tree)
    (hb : base.Pairwise (fun a b => stringLess a.key b.key = true))
    (hc : changes.Pairwise (fun a b => stringLess a.entry.key b.entry.key = true))
    (ha : ∀ c ∈ changes, Alters base c) :
    sameChanges changes (ForEachDiff base (ApplyChanges_walk changes base)) = true := by
  induction changes generalizing base with
  | nil => simp [ApplyChanges_walk, ForEachDiff_self, sameChanges]
  | cons c cs ih =>
    have hcs := List.pairwise_cons.mp hc
    have happ := CopyUntil_append c.entry.key base
    have hbefore := CopyUntil_fst_lt c.entry.key base
    obtain ⟨_, hs2, hs3⟩ := CopyUntil_sorted c.entry.key base hb
    have hac : Alters ((CopyUntil c.entry.key base).1 ++ (CopyUntil c.entry.key base).2) c := by
      rw [happ]; exact ha c (List.mem_cons_self _ _)
    have hac2 := Alters_rest _ _ c hbefore hac
    -- the later changes alter what the walk leaves
    have hlater : ∀ c2 ∈ cs, Alters (CopyUntil c.entry.key base).2 c2 := by
      intro c2 hc2
      apply Alters_rest (CopyUntil c.entry.key base).1
      · intro e he
        exact stringLess_trans _ _ _ (hbefore e he) (hcs.1 c2 hc2)
      · rw [happ]; exact ha c2 (List.mem_cons_of_mem _ hc2)
    simp only [ApplyChanges_walk]
    generalize hpre : (CopyUntil c.entry.key base).1 = before at happ ⊢
    cases hrest : (CopyUntil c.entry.key base).2 with
    | nil =>
      rw [hrest] at hac2 hlater happ
      rw [← happ, ForEachDiff_common_start]
      simp only
      by_cases hd : c.deleted = true
      · simp [Alters, hd] at hac2
      · simp only [hd, Bool.false_eq_true, ↓reduceIte, List.singleton_append, ForEachDiff,
          CopyUntil, List.map_nil, List.nil_append, sameChanges, decide_True, Bool.true_and,
          Bool.and_eq_true, decide_eq_true_eq]
        exact ih [] List.Pairwise.nil hcs.2 hlater
    | cons b r =>
      rw [hrest] at hs2 hac2 hlater happ
      have hbr := List.pairwise_cons.mp hs2
      have hr := hs3 b r hrest
      have hbk := CopyUntil_snd_head c.entry.key base b r hrest
      rw [← happ, ForEachDiff_common_start]
      simp only
      by_cases hk : b.key = c.entry.key
      · -- the later changes alter the tree after `b`
        have hlater2 : ∀ c2 ∈ cs, Alters r c2 := by
          intro c2 hc2
          apply Alters_rest [b] r c2
          · intro e he
            rw [List.mem_singleton.mp he, hk]
            exact hcs.1 c2 hc2
          · exact hlater c2 hc2
        by_cases hd : c.deleted = true
        · simp only [hk, hd, ↓reduceIte, List.nil_append]
          rw [ForEachDiff_delete_head]
          · simp only [sameChanges, hd, decide_True, Bool.true_and, ↓reduceIte,
              Bool.and_eq_true, decide_eq_true_eq]
            exact ⟨hk.symm, ih r hbr.2 hcs.2 hlater2⟩
          · intro x hx
            have hxm : x ∈ ApplyChanges_walk cs r := List.mem_of_mem_head? hx
            rcases ApplyChanges_walk_mem cs r x hxm with h | ⟨c2, hc2, _, hx2⟩
            · exact hbr.1 x h
            · rw [hx2, hk]
              exact hcs.1 c2 hc2
        · have hne : b ≠ c.entry := by
            intro hbc
            simp only [Alters, hd, Bool.false_eq_true, ↓reduceIte] at hac2
            exact hac2 (hbc ▸ List.mem_cons_self _ _)
          simp only [hk, hd, Bool.false_eq_true, ↓reduceIte, List.singleton_append,
            ForEachDiff]
          rw [CopyUntil_stop c.entry.key b r hbk]
          simp only [List.map_nil, List.nil_append, hk, hne, ↓reduceIte, sameChanges,
            decide_True, Bool.true_and, Bool.and_eq_true, decide_eq_true_eq]
          exact ⟨⟨by simpa using hd, by simp⟩, ih r hbr.2 hcs.2 hlater2⟩
      · by_cases hd : c.deleted = true
        · -- a deletion finds its key in the tree
          simp only [Alters, hd, ↓reduceIte] at hac2
          obtain ⟨e, he, hek⟩ := hac2
          rcases List.mem_cons.mp he with h | h
          · exact absurd (h ▸ hek) hk
          · have := hr e h
            rw [hek, stringLess_irrefl] at this
            exact absurd this Bool.false_ne_true
        · simp only [hk, hd, Bool.false_eq_true, ↓reduceIte, List.singleton_append,
            ForEachDiff]
          rw [CopyUntil_stop c.entry.key b r hbk]
          simp only [List.map_nil, List.nil_append, hk, ↓reduceIte, sameChanges,
            decide_True, Bool.true_and, Bool.and_eq_true, decide_eq_true_eq]
          exact ⟨⟨by simpa using hd, by simp⟩, ih (b :: r) hs2 hcs.2 hlater⟩

/-- Changes that are strictly increasing by key keep a tree in ascending key
order. -/
theorem ApplyChanges_walk_sorted (changes : List EntryChange) (base : Tree)
    (hb : base.Pairwise (fun a b => stringLess a.key b.key = true))
    (hc : changes.Pairwise (fun a b => stringLess a.entry.key b.entry.key = true)) :
    (ApplyChanges_walk changes base).Pairwise (fun a b => stringLess a.key b.key = true) := by
  induction changes generalizing base with
  | nil => exact hb
  | cons c cs ih =>
    have hcs := List.pairwise_cons.mp hc
    have hbefore := CopyUntil_fst_lt c.entry.key base
    obtain ⟨hs1, hs2, hs3⟩ := CopyUntil_sorted c.entry.key base hb
    -- what the walk goes on with is in order, with keys above the key of the change
    have hrest : List.Pairwise (fun (a b : Entry) => stringLess a.key b.key = true)
          (match (CopyUntil c.entry.key base).2 with
          | [] => []
          | entry :: rest => if entry.key = c.entry.key then rest else entry :: rest) ∧
        ∀ y ∈ (match (CopyUntil c.entry.key base).2 with
          | [] => ([] : Tree)
          | entry :: rest => if entry.key = c.entry.key then rest else entry :: rest),
          stringLess c.entry.key y.key = true := by
      cases hr : (CopyUntil c.entry.key base).2 with
      | nil => exact ⟨List.Pairwise.nil, fun y hy => absurd hy (List.not_mem_nil y)⟩
      | cons b r =>
        rw [hr] at hs2
        have hbr := List.pairwise_cons.mp hs2
        have hry := hs3 b r hr
        have hbk := CopyUntil_snd_head c.entry.key base b r hr
        simp only
        by_cases hk : b.key = c.entry.key
        · simp only [hk, ↓reduceIte]
          exact ⟨hbr.2, hry⟩
        · simp only [hk, ↓reduceIte]
          refine ⟨hs2, ?_⟩
          intro y hy
          rcases List.mem_cons.mp hy with h | h
          · rw [h]
            by_contra hcon
            exact hk (stringLess_total _ _ hbk (by simpa using hcon))
          · exact hry y h
    have hafter : ∀ y ∈ ApplyChanges_walk cs
        (match (CopyUntil c.entry.key base).2 with
          | [] => []
          | entry :: rest => if entry.key = c.entry.key then rest else entry :: rest),
        stringLess c.entry.key y.key = true := by
      intro y hy
      rcases ApplyChanges_walk_mem cs _ y hy with h | ⟨c2, hc2, _, hy2⟩
      · exact hrest.2 y h
      · rw [hy2]; exact hcs.1 c2 hc2
    simp only [ApplyChanges_walk]
    rw [List.pairwise_append]
    refine ⟨hs1, ?_, ?_⟩
    · rw [List.pairwise_append]
      refine ⟨?_, ih _ hrest.1 hcs.2, ?_⟩
      · split <;> simp
      · intro x hx y hy
        split at hx
        · cases hx
        · rw [List.mem_singleton.mp hx]
          exact hafter y hy
    · intro x hx y hy
      have hxk := hbefore x hx
      rcases List.mem_append.mp hy with h | h
      · split at h
        · cases h
        · rw [List.mem_singleton.mp h]
          exact hxk
      · exact stringLess_trans _ _ _ hxk (hafter y h)

/-- Claim C24: on trees held in ascending key order, for every base tree and
every list of changes that is strictly increasing by key and each of whose
changes really alters the tree (a deletion of a key the tree holds, or an entry
the tree does not hold), `ApplyChanges` succeeds, and the diff from the base to
the tree it gives is, change by change, the list of changes (the same
`deleted`; the same key for a deletion, the same entry otherwise), in strictly
ascending key order; applying the diff from the base to any tree `other` to the
base gives `other`, the same tree and so the same root id under any function
from trees to ids; and the diff from a tree to itself is empty. -/
theorem ForEachDiff_round_trip (base : Tree) (changes : List EntryChange)
    (hb : base.Pairwise (fun a b => stringLess a.key b.key = true))
    (hc : changes.Pairwise (fun a b => stringLess a.entry.key b.entry.key = true))
    (ha : ∀ c ∈ changes, Alters base c) :
    ApplyChanges base changes = some (ApplyChanges_walk changes base) ∧
    sameChanges changes (ForEachDiff base (ApplyChanges_walk changes base)) = true ∧
    (ForEachDiff base (ApplyChanges_walk changes base)).Pairwise
      (fun a b => stringLess a.entry.key b.entry.key = true) ∧
    ApplyChanges base (ForEachDiff base (ApplyChanges_walk changes base)) =
      some (ApplyChanges_walk changes base) ∧
    (∀ other : Tree, other.Pairwise (fun a b => stringLess a.key b.key = true) →
      ApplyChanges base (ForEachDiff base other) = some other ∧
      ∀ nodeId : Tree → ObjectId,
        (ApplyChanges base (ForEachDiff base other)).map nodeId = some (nodeId other)) ∧
    ForEachDiff base base = [] := by
  have hother : ∀ other : Tree, other.Pairwise (fun a b => stringLess a.key b.key = true) →
      ApplyChanges base (ForEachDiff base other) = some other := by
    intro other ho
    unfold ApplyChanges
    rw [if_pos (ForEachDiff_sorted base other hb ho),
      ApplyChanges_walk_ForEachDiff base other hb ho]
  have hsorted := ApplyChanges_walk_sorted changes base hb hc
  refine ⟨?_, ForEachDiff_ApplyChanges_walk changes base hb hc ha,
    ForEachDiff_sorted base _ hb hsorted, hother _ hsorted, ?_, ForEachDiff_self base⟩
  · unfold ApplyChanges
    rw [if_pos hc]
  · intro other ho
    refine ⟨hother other ho, ?_⟩
    intro nodeId
    rw [hother other ho]
    rfl

/-- The test `ForEachDiff` in small: on the tree of `key00`, `key01`, `key40`
and `key41` the changes "new value for `key01`", "add `key255`", "delete
`key40`" give the tree of `key00`, `key01`, `key255` and `key41`, and the diff
from the first tree to the second emits the three changes in this order, the
deletion with the entry the first tree held. -/
theorem ForEachDiff_round_trip_witness :
    Example.tree0.Pairwise (fun a b => stringLess a.key b.key = true) ∧
    Example.changes0.Pairwise (fun a b => stringLess a.entry.key b.entry.key = true) ∧
    (∀ c ∈ Example.changes0, Alters Example.tree0 c) ∧
    ApplyChanges Example.tree0 Example.changes0 = some Example.tree1 ∧
    ForEachDiff Example.tree0 Example.tree1 =
      [{ entry := { key := "key01", object_id := "change1", priority := KeyPriority.LAZY },
         deleted := false },
       { entry := { key := "key255", object_id := "change1", priority := KeyPriority.LAZY },
         deleted := false },
       { entry := { key := "key40", object_id := "object40", priority := KeyPriority.EAGER },
         deleted := true }] ∧
    sameChanges Example.changes0
      (ForEachDiff Example.tree0 (ApplyChanges_walk Example.changes0 Example.tree0)) = true ∧
    ApplyChanges Example.tree0 (ForEachDiff Example.tree0 Example.tree1) =
      some Example.tree1 :=
  ⟨by decide, by decide, by decide, by decide, by decide,
   (ForEachDiff_round_trip Example.tree0 Example.changes0 (by decide) (by decide)
      (by decide)).2.1,
   ((ForEachDiff_round_trip Example.tree0 Example.changes0 (by decide) (by decide)
      (by decide)).2.2.2.2.1 Example.tree1 (by decide)).1⟩


end btree
end storage

/-! ## The claims on batches of commits and on the choice of the heads to merge -/

namespace ledger

open storage (CommitId ObjectId JournalPtr JournalType KeyPriority PageStorage StorageCall
  Commit CommitStorage)
open storage.fake (FakePageStorage FakeJournalDelegate)
open PageUtils (ConvertStatus kDefaultNotFoundStatus)

variable {σ : Type}

/-- The loop of `OnNewCommits` over a chain listed parent first ends on its
last commit. -/
theorem OnNewCommits_loop_chain (commits : List Commit) (last : Commit) (changed : Bool)
    (head : CommitId) (h : BranchTracker.IsChainOn head (commits ++ [last]) = true) :
    BranchTracker.OnNewCommits_loop (commits ++ [last]) (changed, head) = (true, last.id) := by
  induction commits generalizing changed head with
  | nil =>
    simp only [List.nil_append, BranchTracker.IsChainOn, Bool.and_true, Bool.and_eq_true,
      decide_eq_true_eq] at h
    simp [BranchTracker.OnNewCommits_loop, h.1, h.2]
  | cons c rest ih =>
    simp only [List.cons_append, BranchTracker.IsChainOn, Bool.and_eq_true,
      decide_eq_true_eq] at h
    simp only [List.cons_append, BranchTracker.OnNewCommits_loop, h.1.1, h.1.2, ↓reduceIte,
      not_true_eq_false]
    exact ih true c.id h.2

/-- The loop of `OnNewCommits` over commits none of which has the head among
its parents changes nothing. -/
theorem OnNewCommits_loop_no_match (commits : List Commit) (changed : Bool) (head : CommitId)
    (h : ∀ c ∈ commits, head ∉ c.parent_ids) :
    BranchTracker.OnNewCommits_loop commits (changed, head) = (changed, head) := by
  induction commits with
  | nil => rfl
  | cons c rest ih =>
    have hc : head ∉ c.parent_ids := h c (List.mem_cons_self _ _)
    have hrest := ih (fun d hd => h d (List.mem_cons_of_mem _ hd))
    by_cases h1 : c.id = head
    · simp [BranchTracker.OnNewCommits_loop, h1, hrest]
    · simp [BranchTracker.OnNewCommits_loop, h1, hc, hrest]

/-- Claim C25, as stated, fails on the code: on the tracker whose head is `id1`,
the batch of the chain `c1`, `c2` (`c1` on top of `id1`, `c2` on top of `c1`)
listed as `c1`, `c2` moves the head to `c2`, but listed as `c2`, `c1` it moves
the head to `c1` only. -/
theorem OnNewCommits_order_counterexample :
    Example.world_after_put.branch_tracker.transaction_in_progress_ = false ∧
    Example.world_after_put.branch_tracker.current_commit_ = "id1" ∧
    (Example.world_after_put.branch_tracker.OnNewCommits
      [Example.chain1, Example.chain2]).current_commit_ = "c2" ∧
    (Example.world_after_put.branch_tracker.OnNewCommits
      [Example.chain2, Example.chain1]).current_commit_ = "c1" := by
  decide

/-- Claim C25, amended: with no transaction in progress `OnNewCommits` goes
through the batch once, in the order the batch lists its commits, and a commit
becomes the head at its turn when it is not the head and has the head of that
moment among its parents.  For a batch that lists a chain on top of the old
head parent first, the head becomes the last commit of the chain and every
watcher is updated with it; a first commit that is the head or does not have it
among its parents is passed over; and when no commit of the batch has the head
among its parents the tracker is left as it was. -/
theorem OnNewCommits_batch (b : BranchTracker) (commits : List Commit) (last : Commit)
    (batch : List Commit) (c : Commit) (h : b.transaction_in_progress_ = false) :
    (BranchTracker.IsChainOn b.current_commit_ (commits ++ [last]) = true →
      b.OnNewCommits (commits ++ [last]) =
        { b with current_commit_ := last.id,
                 watchers_ := b.watchers_.map (PageWatcherContainer.UpdateCommit last.id) }) ∧
    (∀ (changed : Bool) (head : CommitId),
      BranchTracker.OnNewCommits_loop (c :: batch) (changed, head) =
        (if c.id ≠ head ∧ head ∈ c.parent_ids then
          BranchTracker.OnNewCommits_loop batch (true, c.id)
         else BranchTracker.OnNewCommits_loop batch (changed, head))) ∧
    ((∀ d ∈ batch, b.current_commit_ ∉ d.parent_ids) → b.OnNewCommits batch = b) := by
  obtain ⟨current, flag, watchers⟩ := b
  simp only at h
  subst h
  refine ⟨?_, ?_, ?_⟩
  · intro hc
    simp only at hc
    simp [BranchTracker.OnNewCommits, OnNewCommits_loop_chain commits last false current hc]
  · intro changed head
    by_cases h1 : c.id = head
    · simp [BranchTracker.OnNewCommits_loop, h1]
    · by_cases h2 : head ∈ c.parent_ids <;>
        simp [BranchTracker.OnNewCommits_loop, h1, h2]
  · intro hn
    simp only at hn
    simp [BranchTracker.OnNewCommits, OnNewCommits_loop_no_match batch false current hn]

/-- The chain `c1`, `c2`, `c3` on top of `id1`, listed parent first, moves the
head to `c3`; the commits `X` and `Y` of another branch change nothing. -/
theorem OnNewCommits_batch_witness :
    Example.world_after_put.branch_tracker.transaction_in_progress_ = false ∧
    BranchTracker.IsChainOn Example.world_after_put.branch_tracker.current_commit_
      ([Example.chain1, Example.chain2] ++ [Example.chain3]) = true ∧
    (Example.world_after_put.branch_tracker.OnNewCommits
      ([Example.chain1, Example.chain2] ++ [Example.chain3])).current_commit_ = "c3" ∧
    Example.world_after_put.branch_tracker.OnNewCommits [Example.commitX, Example.commitY] =
      Example.world_after_put.branch_tracker := by
  have H := OnNewCommits_batch Example.world_after_put.branch_tracker
    [Example.chain1, Example.chain2] Example.chain3 [Example.commitX, Example.commitY]
    Example.chain1 (by decide)
  refine ⟨by decide, by decide, ?_, H.2.2 (by decide)⟩
  rw [H.1 (by decide)]
  rfl

/-- Two lists are equal when their images under `f` are and `f` tells their
members apart. -/
theorem map_eq_map_of_injOn {α β : Type} (f : α → β) :
    ∀ (l1 l2 : List α), (∀ x ∈ l1, ∀ y ∈ l2, f x = f y → x = y) →
      l1.map f = l2.map f → l1 = l2
  | [], [], _, _ => rfl
  | [], _ :: _, _, h => by simp at h
  | _ :: _, [], _, h => by simp at h
  | x :: xs, y :: ys, hinj, h => by
    simp only [List.map_cons, List.cons.injEq] at h
    have hxy : x = y := hinj x (List.mem_cons_self _ _) y (List.mem_cons_self _ _) h.1
    have hrest : xs = ys :=
      map_eq_map_of_injOn f xs ys
        (fun a ha b hb => hinj a (List.mem_cons_of_mem _ ha) b (List.mem_cons_of_mem _ hb)) h.2
    rw [hxy, hrest]

/-- On commits of distinct timestamps, `std::sort` has one result only. -/
theorem IsTimestampSort_unique (sort sort1 : List Commit → List Commit)
    (h : MergeResolver.IsTimestampSort sort) (h1 : MergeResolver.IsTimestampSort sort1)
    (commits : List Commit) (hnodup : (commits.map (fun c => c.timestamp)).Nodup) :
    sort commits = sort1 commits := by
  have hm : (sort commits).map (fun c => c.timestamp) =
      (sort1 commits).map (fun c => c.timestamp) := by
    refine List.eq_of_perm_of_sorted (r := fun (a b : Int) => a ≤ b) ?_ ?_ ?_
    · exact ((h commits).1.map _).trans ((h1 commits).1.map _).symm
    · exact List.pairwise_map.2 (h commits).2
    · exact List.pairwise_map.2 (h1 commits).2
  refine map_eq_map_of_injOn (fun c => c.timestamp) _ _ ?_ hm
  intro x hx y hy hxy
  exact List.inj_on_of_nodup_map hnodup ((h commits).1.subset hx) ((h1 commits).1.subset hy) hxy

/-- The insertion sort of the examples is a `std::sort` by timestamp. -/
theorem sortByTimestamp_IsTimestampSort :
    MergeResolver.IsTimestampSort Example.sortByTimestamp := by
  intro commits
  haveI : IsTotal Commit (fun lhs rhs => lhs.timestamp ≤ rhs.timestamp) :=
    ⟨fun a b => le_total a.timestamp b.timestamp⟩
  haveI : IsTrans Commit (fun lhs rhs => lhs.timestamp ≤ rhs.timestamp) :=
    ⟨fun a b c hab hbc => le_trans hab hbc⟩
  exact ⟨List.perm_insertionSort _ commits, List.sorted_insertionSort _ commits⟩

/-- A conflict check depends on `std::sort` through its result on the commits of
the heads only. -/
theorem CheckConflicts_sort_congr (G : CommitStorage) (sort sort1 : List Commit → List Commit)
    (fuel : Nat) (r : MergeResolver)
    (h : ∀ commits : List Commit,
      MergeResolver.getCommits G G.GetHeadCommitIds.2 = some commits →
      sort commits = sort1 commits) :
    MergeResolver.CheckConflicts G sort fuel r = MergeResolver.CheckConflicts G sort1 fuel r := by
  unfold MergeResolver.CheckConflicts MergeResolver.ResolveConflicts
  cases hg : MergeResolver.getCommits G G.GetHeadCommitIds.2 with
  | none => rfl
  | some commits => simp only [h commits hg]

/-- Claim C26 on the code: the storage reports the three heads `Z`, `X` and `Y`
with the timestamps 5, 3 and 4; every parent is older than its child.  Whatever
`std::sort` does with commits of equal timestamp, the conflict check of an idle
resolver reads the three commits and calls `Merge` once, with `X` and `Y`, the
two heads with the smallest timestamps, `X` first, and with the commit
`FindCommonAncestor` answers for `X` and `Y`; the most recent head `Z` is not
handed to the strategy. -/
theorem ResolveConflicts_takes_oldest_heads (sort : List Commit → List Commit)
    (hsort : MergeResolver.IsTimestampSort sort) :
    Example.graph_three_heads.GetHeadCommitIds = (storage.Status.OK, ["Z", "X", "Y"]) ∧
    Example.commitX.timestamp < Example.commitY.timestamp ∧
    Example.commitY.timestamp < Example.commitZ.timestamp ∧
    (MergeResolver.CheckConflicts Example.graph_three_heads sort 10
      Example.resolver_idle).calls =
      [ResolverCall.GetHeadCommitIds, ResolverCall.GetCommitSynchronous "Z",
       ResolverCall.GetCommitSynchronous "X", ResolverCall.GetCommitSynchronous "Y",
       ResolverCall.Merge "last_one_wins" Example.commitX Example.commitY Example.commitR] ∧
    MergeResolver.FindCommonAncestor Example.graph_three_heads 10 Example.commitX
      Example.commitY = some Example.commitR ∧
    (MergeResolver.CheckConflicts Example.graph_three_heads sort 10
      Example.resolver_idle).merge_in_progress_ = true ∧
    MergeResolver.merges
      (MergeResolver.CheckConflicts Example.graph_three_heads sort 10
        Example.resolver_idle).calls =
      [("last_one_wins", Example.commitX, Example.commitY, Example.commitR)] := by
  have hc := CheckConflicts_sort_congr Example.graph_three_heads sort Example.sortByTimestamp
    10 Example.resolver_idle (by
      intro commits hg
      have hg1 : MergeResolver.getCommits Example.graph_three_heads
          Example.graph_three_heads.GetHeadCommitIds.2 =
          some [Example.commitZ, Example.commitX, Example.commitY] := by decide
      rw [hg1, Option.some.injEq] at hg
      subst hg
      exact IsTimestampSort_unique sort Example.sortByTimestamp hsort
        sortByTimestamp_IsTimestampSort _ (by decide))
  rw [hc]
  decide

/-- With the insertion sort for `std::sort`: `Merge` is called with `X` and
`Y`. -/
theorem ResolveConflicts_takes_oldest_heads_witness :
    MergeResolver.IsTimestampSort Example.sortByTimestamp ∧
    MergeResolver.merges
      (MergeResolver.CheckConflicts Example.graph_three_heads Example.sortByTimestamp 10
        Example.resolver_idle).calls =
      [("last_one_wins", Example.commitX, Example.commitY, Example.commitR)] :=
  ⟨sortByTimestamp_IsTimestampSort,
   (ResolveConflicts_takes_oldest_heads Example.sortByTimestamp
      sortByTimestamp_IsTimestampSort).2.2.2.2.2.2⟩

/-! ## The claim on the transaction state of the page handle -/

/-- The commit callback of a journal leaves the transaction state alone. -/
theorem CommitJournal_callback_transaction (journal_ptr : JournalPtr)
    (status : storage.Status) (commit_id : CommitId) (w : World σ) :
    PageImpl.transaction (PageImpl.CommitJournal_callback journal_ptr status commit_id w).2 =
      PageImpl.transaction w := by
  unfold PageImpl.CommitJournal_callback PageImpl.transaction
  by_cases hs : status = storage.Status.OK <;> simp [hs, BranchTracker.SetBranchHead]

/-- `CommitJournal` leaves the transaction state alone. -/
theorem CommitJournal_transaction (S : PageStorage σ) (journal : JournalPtr) (w : World σ) :
    PageImpl.transaction (PageImpl.CommitJournal S journal w).2 = PageImpl.transaction w := by
  rw [CommitJournal_eq]
  rcases (S.Journal_Commit w.storage journal).1 with _ | ⟨status, commit_id⟩
  · rfl
  · by_cases hs : status = storage.Status.OK <;>
      simp [PageImpl.transaction, hs, BranchTracker.SetBranchHead]

/-- `RunInTransaction` leaves the transaction state alone when `runnable`
does. -/
theorem RunInTransaction_transaction (S : PageStorage σ)
    (runnable : JournalPtr → World σ → Status × World σ) (w : World σ)
    (hrun : ∀ (j : JournalPtr) (w1 : World σ),
      PageImpl.transaction (runnable j w1).2 = PageImpl.transaction w1) :
    PageImpl.transaction (PageImpl.RunInTransaction S runnable w).2 =
      PageImpl.transaction w := by
  unfold PageImpl.RunInTransaction
  cases hj : w.page.journal_ with
  | some journal => exact hrun journal w
  | none =>
    simp only
    have h0 : PageImpl.transaction
        (w.StartCommit S w.branch_tracker.GetBranchHeadId JournalType.IMPLICIT).2 =
        PageImpl.transaction w := rfl
    generalize w.StartCommit S w.branch_tracker.GetBranchHeadId JournalType.IMPLICIT = r
      at h0 ⊢
    split
    · rw [← h0]
      cases r.1.2 <;> rfl
    · split
      · rw [← h0]
        rfl
      · rename_i j _
        split
        · rw [← h0, ← hrun j r.2]
          rfl
        · rw [CommitJournal_transaction, hrun j r.2, h0]

/-- The mutations leave the transaction state alone. -/
theorem mutation_transaction (S : PageStorage σ) (w : World σ) (key value : String)
    (reference : ObjectId) (priority : Priority) :
    PageImpl.transaction (PageImpl.Put S key value w).2 = PageImpl.transaction w ∧
    PageImpl.transaction (PageImpl.PutReference key reference priority w).2 =
      PageImpl.transaction w ∧
    PageImpl.transaction (PageImpl.PutReference_completion S key reference priority w).2 =
      PageImpl.transaction w ∧
    PageImpl.transaction (PageImpl.Delete S key w).2 = PageImpl.transaction w := by
  refine ⟨?_, rfl, ?_, ?_⟩
  · unfold PageImpl.Put PageImpl.PutWithPriority PageImpl.PutWithPriority_callback
    simp only
    split
    · rfl
    · unfold PageImpl.PutInCommit
      rw [RunInTransaction_transaction S _ _ (fun j w1 => rfl)]
      rfl
  · unfold PageImpl.PutReference_completion PageImpl.PutReference_callback
    simp only
    split
    · rfl
    · unfold PageImpl.PutInCommit
      rw [RunInTransaction_transaction S _ _ (fun j w1 => rfl)]
      rfl
  · unfold PageImpl.Delete
    exact RunInTransaction_transaction S _ _ (fun j w1 => rfl)

/-- The transaction state after one operation of the handle. -/
theorem step_transaction (S : PageStorage σ) (w : World σ) (op : PageImpl.Op) :
    PageImpl.transaction (PageImpl.step S w op) = PageImpl.transaction w ∨
    PageImpl.transaction (PageImpl.step S w op) = (none, "", false) ∨
    (op = PageImpl.Op.StartTransaction ∧ w.page.journal_ = none ∧
      PageImpl.transaction (PageImpl.step S w op) =
        ((S.StartCommit w.storage w.branch_tracker.current_commit_ JournalType.EXPLICIT).1.2,
         w.branch_tracker.current_commit_, true)) := by
  cases op with
  | StartTransaction =>
    cases hj : w.page.journal_ with
    | some journal =>
      left
      simp [PageImpl.step, PageImpl.StartTransaction, hj]
    | none =>
      right; right
      refine ⟨rfl, rfl, ?_⟩
      simp [PageImpl.step, PageImpl.StartTransaction, hj, PageImpl.transaction,
        World.StartCommit, BranchTracker.GetBranchHeadId, SetTransactionInProgress_flag,
        SetTransactionInProgress_head]
  | Put key value => left; exact (mutation_transaction S w key value "" Priority.EAGER).1
  | PutReference key reference priority =>
    left; exact (mutation_transaction S w key "" reference priority).2.1
  | PutReference_completion key reference priority =>
    left; exact (mutation_transaction S w key "" reference priority).2.2.1
  | Delete key => left; exact (mutation_transaction S w key "" "" Priority.EAGER).2.2.2
  | Commit =>
    cases hj : w.page.journal_ with
    | none =>
      left
      simp [PageImpl.step, PageImpl.Commit, hj]
    | some journal =>
      right; left
      have hC := CommitJournal_transaction S journal
        { w with page := { w.page with journal_parent_commit_ := "", journal_ := none } }
      simp only [PageImpl.transaction, Prod.mk.injEq] at hC
      simp [PageImpl.step, PageImpl.Commit, hj, PageImpl.transaction,
        SetTransactionInProgress_flag, hC.1, hC.2.1]
  | Rollback =>
    cases hj : w.page.journal_ with
    | none =>
      left
      simp [PageImpl.step, PageImpl.Rollback, hj]
    | some journal =>
      right; left
      simp [PageImpl.step, PageImpl.Rollback, hj, PageImpl.transaction,
        SetTransactionInProgress_flag, World.Journal_Rollback]
  | CommitJournal_callback journal_ptr status commit_id =>
    left
    exact CommitJournal_callback_transaction journal_ptr status commit_id w

/-- Over any sequence of operations an open explicit journal implies the flag. -/
theorem steps_journal_flag (S : PageStorage σ) (ops : List PageImpl.Op) (w : World σ)
    (h : w.page.journal_.isSome = true → w.branch_tracker.transaction_in_progress_ = true) :
    (PageImpl.steps S ops w).page.journal_.isSome = true →
      (PageImpl.steps S ops w).branch_tracker.transaction_in_progress_ = true := by
  induction ops generalizing w with
  | nil => exact h
  | cons op rest ih =>
    apply ih
    rcases step_transaction S w op with ht | ht | ⟨_, _, ht⟩ <;>
      simp only [PageImpl.transaction, Prod.mk.injEq] at ht
    · rw [ht.1, ht.2.2]; exact h
    · rw [ht.1]; simp
    · rw [ht.2.2]; simp

/-- Over any sequence of operations on a storage whose `StartCommit` hands out
a journal for an explicit transaction, the flag tells whether an explicit
journal is open, and the recorded parent is empty when none is. -/
theorem steps_invariant (S : PageStorage σ) (ops : List PageImpl.Op) (w : World σ)
    (hS : ∀ (s : σ) (commit_id : CommitId),
      (S.StartCommit s commit_id JournalType.EXPLICIT).1.2 ≠ none)
    (hflag : w.branch_tracker.transaction_in_progress_ = w.page.journal_.isSome)
    (hparent : w.page.journal_ = none → w.page.journal_parent_commit_ = "") :
    (PageImpl.steps S ops w).branch_tracker.transaction_in_progress_ =
      (PageImpl.steps S ops w).page.journal_.isSome ∧
    ((PageImpl.steps S ops w).page.journal_ = none →
      (PageImpl.steps S ops w).page.journal_parent_commit_ = "") := by
  induction ops generalizing w with
  | nil => exact ⟨hflag, hparent⟩
  | cons op rest ih =>
    apply ih
    · rcases step_transaction S w op with ht | ht | ⟨_, _, ht⟩ <;>
        simp only [PageImpl.transaction, Prod.mk.injEq] at ht
      · rw [ht.1, ht.2.2]; exact hflag
      · rw [ht.1, ht.2.2]; rfl
      · rw [ht.1, ht.2.2]
        cases hj : (S.StartCommit w.storage w.branch_tracker.current_commit_
          JournalType.EXPLICIT).1.2 with
        | none => exact absurd hj (hS _ _)
        | some j => rfl
    · rcases step_transaction S w op with ht | ht | ⟨_, _, ht⟩ <;>
        simp only [PageImpl.transaction, Prod.mk.injEq] at ht
      · rw [ht.1, ht.2.1]; exact hparent
      · intro _; exact ht.2.1
      · rw [ht.1]
        intro hn
        exact absurd hn (hS _ _)

/-- Claim C30, as stated, fails on the code.  On the fake storage, whose first
head is the empty id, `StartTransaction` on a handle just bound opens the
journal `id0` and records the empty id as its parent.  And on a storage whose
`StartCommit` reports `IO_ERROR` and hands out no journal, `StartTransaction`
on the handle with the head `id1` reports the error, holds no journal, and
leaves the flag set and `id1` recorded as the parent. -/
theorem transaction_state_counterexample :
    Example.world1.page.journal_ = some "id0" ∧
    Example.world1.branch_tracker.transaction_in_progress_ = true ∧
    Example.world1.page.journal_parent_commit_ = "" ∧
    (PageImpl.StartTransaction Example.NoJournal Example.world_after_put).1 =
      some Status.IO_ERROR ∧
    (PageImpl.StartTransaction Example.NoJournal Example.world_after_put).2.page.journal_ =
      none ∧
    (PageImpl.StartTransaction Example.NoJournal
      Example.world_after_put).2.branch_tracker.transaction_in_progress_ = true ∧
    (PageImpl.StartTransaction Example.NoJournal
      Example.world_after_put).2.page.journal_parent_commit_ = "id1" := by
  decide

/-- Claim C30, amended: from a handle that holds no explicit journal, has the
flag down and no parent recorded, and after any sequence of `StartTransaction`,
`Put`, `PutReference`, `Delete`, `Commit`, `Rollback`, commit callbacks and
answers of the storage to the `GetObject` requests of `PutReference`, whatever
statuses the storage returns: whenever an explicit journal is open the
flag is set; and on a storage whose `StartCommit` hands out a journal for every
explicit transaction, the flag is set exactly when an explicit journal is open,
and the recorded parent is empty whenever none is open.  `StartTransaction` on
a handle without a journal records the branch head of that moment as the
parent, so while a journal is open the recorded parent is empty exactly when
that head id was. -/
theorem transaction_state_invariant (S : PageStorage σ) (ops : List PageImpl.Op) (w : World σ)
    (hjournal : w.page.journal_ = none)
    (hflag : w.branch_tracker.transaction_in_progress_ = false)
    (hparent : w.page.journal_parent_commit_ = "") :
    ((PageImpl.steps S ops w).page.journal_.isSome = true →
      (PageImpl.steps S ops w).branch_tracker.transaction_in_progress_ = true) ∧
    ((∀ (s : σ) (commit_id : CommitId),
        (S.StartCommit s commit_id JournalType.EXPLICIT).1.2 ≠ none) →
      (PageImpl.steps S ops w).branch_tracker.transaction_in_progress_ =
        (PageImpl.steps S ops w).page.journal_.isSome ∧
      ((PageImpl.steps S ops w).page.journal_ = none →
        (PageImpl.steps S ops w).page.journal_parent_commit_ = "")) ∧
    ((PageImpl.steps S ops w).page.journal_ = none →
      (PageImpl.StartTransaction S (PageImpl.steps S ops w)).2.page.journal_parent_commit_ =
        (PageImpl.steps S ops w).branch_tracker.current_commit_) := by
  refine ⟨?_, ?_, ?_⟩
  · exact steps_journal_flag S ops w (by simp [hjournal])
  · intro hS
    exact steps_invariant S ops w hS (by simp [hjournal, hflag]) (fun _ => hparent)
  · intro hn
    simp [PageImpl.StartTransaction, hn, World.StartCommit, BranchTracker.GetBranchHeadId]

/-- On the fake storage: after `StartTransaction`, two `Put`s and a second
`StartTransaction` the journal `id0` is open and the flag is set; after the
`Commit` no journal is open, the flag is down and no parent is recorded. -/
theorem transaction_state_invariant_witness :
    Example.world0.page.journal_ = none ∧
    (∀ (s : FakePageStorage) (commit_id : CommitId),
      (Example.Fake.StartCommit s commit_id JournalType.EXPLICIT).1.2 ≠ none) ∧
    (PageImpl.steps Example.Fake
      [PageImpl.Op.StartTransaction, PageImpl.Op.Put "k1" "v1", PageImpl.Op.Put "k2" "v2",
       PageImpl.Op.StartTransaction] Example.world0).page.journal_ = some "id0" ∧
    (PageImpl.steps Example.Fake
      [PageImpl.Op.StartTransaction, PageImpl.Op.Put "k1" "v1", PageImpl.Op.Put "k2" "v2",
       PageImpl.Op.StartTransaction]
      Example.world0).branch_tracker.transaction_in_progress_ = true ∧
    (PageImpl.steps Example.Fake
      [PageImpl.Op.StartTransaction, PageImpl.Op.Put "k1" "v1", PageImpl.Op.Put "k2" "v2",
       PageImpl.Op.StartTransaction, PageImpl.Op.Commit]
      Example.world0).branch_tracker.transaction_in_progress_ =
      (PageImpl.steps Example.Fake
        [PageImpl.Op.StartTransaction, PageImpl.Op.Put "k1" "v1", PageImpl.Op.Put "k2" "v2",
         PageImpl.Op.StartTransaction, PageImpl.Op.Commit]
        Example.world0).page.journal_.isSome ∧
    (PageImpl.steps Example.Fake
      [PageImpl.Op.StartTransaction, PageImpl.Op.Put "k1" "v1", PageImpl.Op.Put "k2" "v2",
       PageImpl.Op.StartTransaction, PageImpl.Op.Commit]
      Example.world0).page.journal_ = none :=
  ⟨by decide, fun _ _ => by simp [Example.Fake, FakePageStorage.toPageStorage,
      FakePageStorage.StartCommit],
   by decide,
   (transaction_state_invariant Example.Fake
      [PageImpl.Op.StartTransaction, PageImpl.Op.Put "k1" "v1", PageImpl.Op.Put "k2" "v2",
       PageImpl.Op.StartTransaction] Example.world0 (by decide) (by decide) (by decide)).1
      (by decide),
   ((transaction_state_invariant Example.Fake
      [PageImpl.Op.StartTransaction, PageImpl.Op.Put "k1" "v1", PageImpl.Op.Put "k2" "v2",
       PageImpl.Op.StartTransaction, PageImpl.Op.Commit] Example.world0 (by decide)
      (by decide) (by decide)).2.1
      (fun _ _ => by simp [Example.Fake, FakePageStorage.toPageStorage,
        FakePageStorage.StartCommit])).1,
   by decide⟩

/-! ## The claims on `FindCommonAncestor` -/

/-- `GenerationComparator` spelled out. -/
theorem GenerationComparator_iff (a b : Commit) :
    GenerationComparator a b = true ↔
      a.generation < b.generation ∨
      (a.generation = b.generation ∧ storage.stringLess a.id b.id = true) := by
  unfold GenerationComparator
  by_cases h : a.generation = b.generation
  · simp [h]
  · simp [h]

theorem GenerationComparator_irrefl (a : Commit) : GenerationComparator a a = false := by
  simp [GenerationComparator, storage.stringLess_irrefl]

theorem GenerationComparator_trans (a b c : Commit) (hab : GenerationComparator a b = true)
    (hbc : GenerationComparator b c = true) : GenerationComparator a c = true := by
  rw [GenerationComparator_iff] at hab hbc ⊢
  rcases hab with hab | ⟨hab, hab2⟩ <;> rcases hbc with hbc | ⟨hbc, hbc2⟩
  · left; omega
  · left; omega
  · left; omega
  · right
    exact ⟨by omega, storage.stringLess_trans _ _ _ hab2 hbc2⟩

theorem GenerationComparator_asymm (a b : Commit) (hab : GenerationComparator a b = true) :
    GenerationComparator b a = false := by
  by_contra hc
  have hba : GenerationComparator b a = true := by simpa using hc
  have := GenerationComparator_trans a b a hab hba
  rw [GenerationComparator_irrefl] at this
  exact Bool.false_ne_true this

/-- Two commits neither of which comes before the other agree on generation and
id. -/
theorem GenerationComparator_equiv (a b : Commit) (hab : GenerationComparator a b = false)
    (hba : GenerationComparator b a = false) :
    a.generation = b.generation ∧ a.id = b.id := by
  have h1 : ¬ (a.generation < b.generation ∨
      (a.generation = b.generation ∧ storage.stringLess a.id b.id = true)) := by
    rw [← GenerationComparator_iff]; simp [hab]
  have h2 : ¬ (b.generation < a.generation ∨
      (b.generation = a.generation ∧ storage.stringLess b.id a.id = true)) := by
    rw [← GenerationComparator_iff]; simp [hba]
  have hg : a.generation = b.generation := by omega
  refine ⟨hg, storage.stringLess_total _ _ ?_ ?_⟩
  · by_contra hc
    exact h1 (Or.inr ⟨hg, by simpa using hc⟩)
  · by_contra hc
    exact h2 (Or.inr ⟨hg.symm, by simpa using hc⟩)

/-- Two commits of the graph with the same id are the same commit. -/
theorem Stored_eq_of_id (G : CommitStorage) (a b : Commit) (ha : Stored G a) (hb : Stored G b)
    (h : a.id = b.id) : a = b := by
  unfold Stored at ha hb
  rw [h] at ha
  rw [ha] at hb
  exact Option.some.inj hb

/-- The elements of a set after `emplace`: the commit emplaced and the elements
it had. -/
theorem setEmplace_mem (commit : Commit) (l : List Commit) (x : Commit)
    (hx : x ∈ MergeResolver.setEmplace commit l) : x = commit ∨ x ∈ l := by
  induction l with
  | nil =>
    simp only [MergeResolver.setEmplace, List.mem_singleton] at hx
    exact Or.inl hx
  | cons c rest ih =>
    unfold MergeResolver.setEmplace at hx
    split at hx
    · rcases List.mem_cons.mp hx with hx | hx
      · exact Or.inl hx
      · exact Or.inr hx
    · split at hx
      · rcases List.mem_cons.mp hx with hx | hx
        · exact Or.inr (hx ▸ List.mem_cons_self _ _)
        · rcases ih hx with h | h
          · exact Or.inl h
          · exact Or.inr (List.mem_cons_of_mem _ h)
      · exact Or.inr hx

/-- `emplace` removes nothing. -/
theorem setEmplace_subset (commit : Commit) (l : List Commit) (x : Commit) (hx : x ∈ l) :
    x ∈ MergeResolver.setEmplace commit l := by
  induction l with
  | nil => cases hx
  | cons c rest ih =>
    unfold MergeResolver.setEmplace
    split
    · exact List.mem_cons_of_mem _ hx
    · split
      · rcases List.mem_cons.mp hx with hx | hx
        · exact hx ▸ List.mem_cons_self _ _
        · exact List.mem_cons_of_mem _ (ih hx)
      · exact hx

/-- After `emplace` the set holds the commit emplaced or one that agrees with it
on generation and id. -/
theorem setEmplace_represents (commit : Commit) (l : List Commit) :
    ∃ y ∈ MergeResolver.setEmplace commit l,
      y.generation = commit.generation ∧ y.id = commit.id := by
  induction l with
  | nil => exact ⟨commit, by simp [MergeResolver.setEmplace], rfl, rfl⟩
  | cons c rest ih =>
    unfold MergeResolver.setEmplace
    by_cases h1 : GenerationComparator commit c = true
    · simp only [h1, ↓reduceIte]
      exact ⟨commit, List.mem_cons_self _ _, rfl, rfl⟩
    · by_cases h2 : GenerationComparator c commit = true
      · simp only [h1, h2, ↓reduceIte]
        obtain ⟨y, hy, hg⟩ := ih
        exact ⟨y, List.mem_cons_of_mem _ hy, hg⟩
      · simp only [h1, h2, ↓reduceIte]
        have := GenerationComparator_equiv c commit (by simpa using h2) (by simpa using h1)
        exact ⟨c, List.mem_cons_self _ _, this⟩

/-- `emplace` keeps the set in the strict order of the comparator. -/
theorem setEmplace_pairwise (commit : Commit) (l : List Commit)
    (h : l.Pairwise (fun a b => GenerationComparator a b = true)) :
    (MergeResolver.setEmplace commit l).Pairwise
      (fun a b => GenerationComparator a b = true) := by
  induction l with
  | nil => simp [MergeResolver.setEmplace]
  | cons c rest ih =>
    rw [List.pairwise_cons] at h
    unfold MergeResolver.setEmplace
    by_cases h1 : GenerationComparator commit c = true
    · simp only [h1, ↓reduceIte]
      refine List.Pairwise.cons ?_ (List.Pairwise.cons h.1 h.2)
      intro y hy
      rcases List.mem_cons.mp hy with hy | hy
      · rw [hy]; exact h1
      · exact GenerationComparator_trans _ _ _ h1 (h.1 y hy)
    · by_cases h2 : GenerationComparator c commit = true
      · simp only [h1, h2, ↓reduceIte]
        refine List.Pairwise.cons ?_ (ih h.2)
        intro y hy
        rcases setEmplace_mem commit rest y hy with hy | hy
        · rw [hy]; exact h2
        · exact h.1 y hy
      · simp only [h1, h2, ↓reduceIte]
        exact List.Pairwise.cons h.1 h.2

/-- `emplace` of a commit that fails `p` keeps the number of commits that
satisfy `p`. -/
theorem setEmplace_countP (p : Commit → Bool) (commit : Commit) (l : List Commit)
    (hp : p commit = false) :
    (MergeResolver.setEmplace commit l).countP p = l.countP p := by
  induction l with
  | nil => simp [MergeResolver.setEmplace, hp]
  | cons c rest ih =>
    unfold MergeResolver.setEmplace
    split
    · rw [List.countP_cons_of_neg]
      simp [hp]
    · split
      · simp only [List.countP_cons, ih]
      · rfl

/-- The inner loop of `FindCommonAncestor` over parents that the storage holds,
each with a generation below `g`: every parent is read; the set keeps its
elements and its order; what it gains are parents read; every parent is in it
afterwards, itself or as the commit of the set with its generation and id; and
the number of commits with a property that fails below `g` stays. -/
theorem emplaceParents_spec (G : CommitStorage) (g : Nat) (parent_ids : List CommitId)
    (l : List Commit)
    (hps : ∀ p ∈ parent_ids, ∃ q : Commit,
      (G.GetCommitSynchronous p).2 = some q ∧ q.id = p ∧ q.generation < g) :
    ∃ next : List Commit,
      MergeResolver.emplaceParents G parent_ids l = some next ∧
      (∀ x ∈ l, x ∈ next) ∧
      (∀ x ∈ next, x ∈ l ∨
        (x.generation < g ∧ ∃ p ∈ parent_ids, (G.GetCommitSynchronous p).2 = some x ∧
          x.id = p)) ∧
      (l.Pairwise (fun a b => GenerationComparator a b = true) →
        next.Pairwise (fun a b => GenerationComparator a b = true)) ∧
      (∀ p ∈ parent_ids, ∃ y ∈ next, y.id = p) ∧
      (∀ pred : Commit → Bool, (∀ x : Commit, x.generation < g → pred x = false) →
        next.countP pred = l.countP pred) := by
  induction parent_ids generalizing l with
  | nil =>
    exact ⟨l, rfl, fun x hx => hx, fun x hx => Or.inl hx, fun h => h,
      fun p hp => absurd hp (List.not_mem_nil p), fun _ _ => rfl⟩
  | cons p rest ih =>
    obtain ⟨q, hq, hid, hgen⟩ := hps p (List.mem_cons_self _ _)
    obtain ⟨next, hnext, hsub, hmem, hpw, hrep, hcount⟩ :=
      ih (MergeResolver.setEmplace q l) (fun p' hp' => hps p' (List.mem_cons_of_mem _ hp'))
    refine ⟨next, ?_, ?_, ?_, ?_, ?_, ?_⟩
    · simp [MergeResolver.emplaceParents, hq, hnext]
    · intro x hx
      exact hsub x (setEmplace_subset q l x hx)
    · intro x hx
      rcases hmem x hx with h | ⟨hg, p', hp', hx'⟩
      · rcases setEmplace_mem q l x h with h | h
        · right
          rw [h]
          exact ⟨hgen, p, List.mem_cons_self _ _, hq, hid⟩
        · exact Or.inl h
      · exact Or.inr ⟨hg, p', List.mem_cons_of_mem _ hp', hx'⟩
    · intro h
      exact hpw (setEmplace_pairwise q l h)
    · intro p' hp'
      rcases List.mem_cons.mp hp' with h | h
      · obtain ⟨y, hy, _, hyid⟩ := setEmplace_represents q l
        exact ⟨y, hsub y hy, by rw [hyid, hid, h]⟩
      · exact hrep p' h
    · intro pred hpred
      rw [hcount pred hpred, setEmplace_countP pred q l (hpred q hgen)]

/-- A set of more than one commit in comparator order: its greatest commit is
the last one, and every other commit comes before it. -/
theorem frontier_last (G : CommitStorage) (l : List Commit)
    (hF : MergeResolver.IsFrontier G l) (hlen : l.length ≠ 1) :
    ∃ e : Commit, l.getLast? = some e ∧ l = l.dropLast ++ [e] ∧ l.dropLast ≠ [] ∧
      Stored G e ∧ (∀ x ∈ l.dropLast, Stored G x) ∧
      l.dropLast.Pairwise (fun a b => GenerationComparator a b = true) ∧
      ∀ x ∈ l.dropLast, GenerationComparator x e = true := by
  obtain ⟨hne, hpw, hst⟩ := hF
  have hl : l = l.dropLast ++ [l.getLast hne] := (List.dropLast_append_getLast hne).symm
  refine ⟨l.getLast hne, List.getLast?_eq_getLast _ hne, hl, ?_, ?_, ?_, ?_, ?_⟩
  · intro hd
    rw [hd] at hl
    apply hlen
    rw [hl]
    rfl
  · exact hst _ (List.getLast_mem hne)
  · intro x hx
    exact hst x (List.mem_of_mem_dropLast hx)
  · rw [hl] at hpw
    exact (List.pairwise_append.mp hpw).1
  · intro x hx
    rw [hl] at hpw
    exact (List.pairwise_append.mp hpw).2.2 x hx _ (List.mem_singleton_self _)

/-- One iteration of the loop of `FindCommonAncestor` on a set of more than one
commit of a graph whose generations decrease: the commit taken out is the last
one, no commit of the set has a greater generation, its parents are read and
put in, and the next set is again a set as the loop wants it. -/
theorem FindCommonAncestor_iteration (G : CommitStorage) (hG : GenerationsDecrease G)
    (l : List Commit) (hF : MergeResolver.IsFrontier G l) (hlen : l.length ≠ 1) :
    ∃ (e : Commit) (next : List Commit),
      l = l.dropLast ++ [e] ∧ Stored G e ∧
      (∀ x ∈ l.dropLast, GenerationComparator x e = true) ∧
      (∀ x ∈ l, x.generation ≤ e.generation) ∧
      MergeResolver.emplaceParents G e.parent_ids l.dropLast = some next ∧
      MergeResolver.IsFrontier G next ∧
      (∀ x ∈ l.dropLast, x ∈ next) ∧
      (∀ x ∈ next, x ∈ l.dropLast ∨
        (x.generation < e.generation ∧
          ∃ p ∈ e.parent_ids, (G.GetCommitSynchronous p).2 = some x ∧ x.id = p)) ∧
      (∀ p ∈ e.parent_ids, ∃ y ∈ next, y.id = p) ∧
      (∀ pred : Commit → Bool, (∀ x : Commit, x.generation < e.generation → pred x = false) →
        next.countP pred = l.dropLast.countP pred) ∧
      (∀ fuel : Nat, MergeResolver.FindCommonAncestor_loop G (fuel + 1) l =
        MergeResolver.FindCommonAncestor_loop G fuel next) := by
  obtain ⟨e, hlast, hl, hdne, hse, hsd, hpwd, hlt⟩ := frontier_last G l hF hlen
  have hparents : ∀ p ∈ e.parent_ids, ∃ q : Commit,
      (G.GetCommitSynchronous p).2 = some q ∧ q.id = p ∧ q.generation < e.generation := by
    intro p hp
    obtain ⟨q, hq, hqg⟩ := (hG e.id e hse).2 p hp
    exact ⟨q, hq, (hG p q hq).1, hqg⟩
  obtain ⟨next, hnext, hsub, hmem, hpw, hrep, hcount⟩ :=
    emplaceParents_spec G e.generation e.parent_ids l.dropLast hparents
  refine ⟨e, next, hl, hse, hlt, ?_, hnext, ⟨?_, hpw hpwd, ?_⟩, hsub, hmem, hrep, hcount, ?_⟩
  · intro x hx
    rw [hl] at hx
    rcases List.mem_append.mp hx with hx | hx
    · have := (GenerationComparator_iff x e).mp (hlt x hx)
      omega
    · rw [List.mem_singleton.mp hx]
  · intro hn
    obtain ⟨y, hy⟩ := List.exists_mem_of_ne_nil _ hdne
    have := hsub y hy
    rw [hn] at this
    cases this
  · intro x hx
    rcases hmem x hx with h | ⟨_, p, _, hq, hid⟩
    · exact hsd x h
    · unfold Stored
      rw [hid]
      exact hq
  · intro fuel
    simp [MergeResolver.FindCommonAncestor_loop, hlen, hlast, hnext]

/-- More iterations do not change what the loop returns. -/
theorem FindCommonAncestor_loop_mono (G : CommitStorage) (fuel : Nat) (l : List Commit)
    (c : Commit) (h : MergeResolver.FindCommonAncestor_loop G fuel l = some c) (extra : Nat) :
    MergeResolver.FindCommonAncestor_loop G (fuel + extra) l = some c := by
  induction fuel generalizing l with
  | zero => simp [MergeResolver.FindCommonAncestor_loop] at h
  | succ n ih =>
    have he : n + 1 + extra = (n + extra) + 1 := by omega
    rw [he]
    unfold MergeResolver.FindCommonAncestor_loop at h ⊢
    split
    · rename_i hlen
      simpa [hlen] using h
    · rename_i hlen
      simp only [hlen, ↓reduceIte] at h
      cases hlast : l.getLast? with
      | none => simp [hlast] at h
      | some e =>
        simp only [hlast] at h ⊢
        cases hnext : MergeResolver.emplaceParents G e.parent_ids l.dropLast with
        | none => simp [hnext] at h
        | some next =>
          simp only [hnext] at h ⊢
          exact ih next h

/-- The loop of `FindCommonAncestor` ends: on a graph whose generations
decrease, from every set as the loop wants it some number of iterations
returns a commit. -/
theorem FindCommonAncestor_loop_terminates (G : CommitStorage) (hG : GenerationsDecrease G)
    (n k : Nat) (l : List Commit) (hF : MergeResolver.IsFrontier G l)
    (hn : ∀ x ∈ l, x.generation ≤ n)
    (hk : l.countP (fun x => decide (x.generation = n)) ≤ k) :
    ∃ (fuel : Nat) (c : Commit), MergeResolver.FindCommonAncestor_loop G fuel l = some c := by
  induction n using Nat.strong_induction_on generalizing k l with
  | _ n ihn =>
    induction k generalizing l with
    | zero =>
      -- no commit of generation `n`: the bound can be lowered
      have h0 : l.countP (fun x => decide (x.generation = n)) = 0 := by omega
      have hlt : ∀ x ∈ l, x.generation < n := by
        intro x hx
        have hne : ¬ x.generation = n := by
          have := List.countP_eq_zero.mp h0 x hx
          simpa using this
        have := hn x hx
        omega
      cases n with
      | zero =>
        obtain ⟨y, hy⟩ := List.exists_mem_of_ne_nil _ hF.1
        have := hlt y hy
        omega
      | succ m =>
        exact ihn m (by omega) l.length l hF (fun x hx => by have := hlt x hx; omega)
          (List.countP_le_length _)
    | succ k ihk =>
      by_cases hlen : l.length = 1
      · refine ⟨1, ?_⟩
        obtain ⟨y, hy⟩ := List.length_eq_one.mp hlen
        exact ⟨y, by simp [MergeResolver.FindCommonAncestor_loop, hy]⟩
      · obtain ⟨e, next, hl, hse, hlt, hmax, hnext, hFnext, hsub, hmem, hrep, hcount, hloop⟩ :=
          FindCommonAncestor_iteration G hG l hF hlen
        have hnn : ∀ x ∈ next, x.generation ≤ n := by
          intro x hx
          rcases hmem x hx with h | ⟨hg, _⟩
          · exact hn x (List.mem_of_mem_dropLast h)
          · have := hn e (by rw [hl]; simp)
            omega
        by_cases hen : e.generation = n
        · have hc : next.countP (fun x => decide (x.generation = n)) ≤ k := by
            rw [hcount _ (fun x hx => by simp; omega)]
            have hsplit : l.countP (fun x => decide (x.generation = n)) =
                l.dropLast.countP (fun x => decide (x.generation = n)) + 1 := by
              conv_lhs => rw [hl]
              rw [List.countP_append]
              simp [hen]
            omega
          obtain ⟨fuel, c, hc⟩ := ihk next hFnext hnn hc
          exact ⟨fuel + 1, c, by rw [hloop fuel]; exact hc⟩
        · have h0 : l.countP (fun x => decide (x.generation = n)) ≤ 0 := by
            rw [Nat.le_zero, List.countP_eq_zero]
            intro x hx
            have h1 := hmax x hx
            have h2 := hn e (by rw [hl]; simp)
            simp
            omega
          cases n with
          | zero =>
            have := hn e (by rw [hl]; simp)
            omega
          | succ m =>
            have hlt2 : ∀ x ∈ l, x.generation ≤ m := by
              intro x hx
              have h1 := hmax x hx
              have h2 := hn e (by rw [hl]; simp)
              omega
            exact ihn m (by omega) l.length l hF hlt2 (List.countP_le_length _)

/-- The set `FindCommonAncestor` starts from, for two commits of the graph, is a
set as the loop wants it. -/
theorem FindCommonAncestor_initial (G : CommitStorage) (head1 head2 : Commit)
    (h1 : Stored G head1) (h2 : Stored G head2) :
    MergeResolver.IsFrontier G
      (MergeResolver.setEmplace head2 (MergeResolver.setEmplace head1 [])) := by
  refine ⟨?_, ?_, ?_⟩
  · obtain ⟨y, hy, _⟩ := setEmplace_represents head2 (MergeResolver.setEmplace head1 [])
    intro hn
    rw [hn] at hy
    cases hy
  · exact setEmplace_pairwise _ _ (setEmplace_pairwise _ _ List.Pairwise.nil)
  · intro c hc
    rcases setEmplace_mem _ _ _ hc with h | h
    · rw [h]; exact h2
    · rcases setEmplace_mem _ _ _ h with h | h
      · rw [h]; exact h1
      · cases h

/-- The example graph is well formed and its generations decrease. -/
theorem graph_GenerationsDecrease : GenerationsDecrease Example.graph := by
  intro id c h
  have hc : c ∈ [Example.commitR, Example.commitA, Example.commitB, Example.commitX,
      Example.commitY] ∧ c.id = id := by
    simp only [Example.graph] at h
    split at h
    · rename_i c1 hfind
      simp only [Option.some.injEq] at h
      subst h
      exact ⟨List.mem_of_find?_eq_some hfind, by simpa using List.find?_some hfind⟩
    · simp at h
  obtain ⟨hmem, hid⟩ := hc
  refine ⟨hid, ?_⟩
  simp only [List.mem_cons, List.mem_singleton, List.not_mem_nil, or_false] at hmem
  rcases hmem with rfl | rfl | rfl | rfl | rfl
  · intro p hp
    simp [Example.commitR] at hp
  · intro p hp
    simp only [Example.commitA, List.mem_singleton] at hp
    subst hp
    exact ⟨Example.commitR, by decide, by decide⟩
  · intro p hp
    simp only [Example.commitB, List.mem_singleton] at hp
    subst hp
    exact ⟨Example.commitR, by decide, by decide⟩
  · intro p hp
    simp only [Example.commitX, List.mem_singleton] at hp
    subst hp
    exact ⟨Example.commitA, by decide, by decide⟩
  · intro p hp
    simp only [Example.commitY, List.mem_cons, List.mem_singleton, List.not_mem_nil,
      or_false] at hp
    rcases hp with rfl | rfl
    · exact ⟨Example.commitA, by decide, by decide⟩
    · exact ⟨Example.commitB, by decide, by decide⟩

/-- Claim C28: in a graph whose stored parents have a smaller generation than
their child, for two commits of the graph: the set the loop of
`FindCommonAncestor` starts from is not empty, in the strict order of the
comparator (generation, then id), and made of commits of the graph; the loop
ends, returning a commit, and more iterations return the same commit; and on
every such set the loop either stops, when the set has exactly one commit,
which it returns, or takes out the last commit, than which no commit of the set
has a greater generation, reads its parents and puts them in, which gives again
such a set (not empty, without two commits of the same generation and id) whose
commits are the remaining ones and parents of the commit taken out. -/
theorem FindCommonAncestor_terminates (G : CommitStorage) (head1 head2 : Commit)
    (hG : GenerationsDecrease G) (h1 : Stored G head1) (h2 : Stored G head2) :
    MergeResolver.IsFrontier G
      (MergeResolver.setEmplace head2 (MergeResolver.setEmplace head1 [])) ∧
    (∃ (fuel : Nat) (c : Commit), ∀ extra : Nat,
      MergeResolver.FindCommonAncestor G (fuel + extra) head1 head2 = some c) ∧
    (∀ l : List Commit, MergeResolver.IsFrontier G l →
      (∀ c : Commit, l = [c] →
        ∀ fuel : Nat, MergeResolver.FindCommonAncestor_loop G (fuel + 1) l = some c) ∧
      (l.length ≠ 1 →
        ∃ (e : Commit) (next : List Commit),
          l = l.dropLast ++ [e] ∧
          (∀ x ∈ l, x.generation ≤ e.generation) ∧
          MergeResolver.emplaceParents G e.parent_ids l.dropLast = some next ∧
          MergeResolver.IsFrontier G next ∧
          (∀ x ∈ next, x ∈ l.dropLast ∨
            ∃ p ∈ e.parent_ids, (G.GetCommitSynchronous p).2 = some x) ∧
          (∀ fuel : Nat, MergeResolver.FindCommonAncestor_loop G (fuel + 1) l =
            MergeResolver.FindCommonAncestor_loop G fuel next))) := by
  have hF := FindCommonAncestor_initial G head1 head2 h1 h2
  refine ⟨hF, ?_, ?_⟩
  · obtain ⟨n, hn⟩ : ∃ n : Nat, ∀ x ∈ MergeResolver.setEmplace head2
        (MergeResolver.setEmplace head1 []), x.generation ≤ n := by
      refine ⟨max head1.generation head2.generation, ?_⟩
      intro x hx
      rcases setEmplace_mem _ _ _ hx with h | h
      · rw [h]; exact Nat.le_max_right _ _
      · rcases setEmplace_mem _ _ _ h with h | h
        · rw [h]; exact Nat.le_max_left _ _
        · cases h
    obtain ⟨fuel, c, hc⟩ := FindCommonAncestor_loop_terminates G hG n _ _ hF hn (Nat.le_refl _)
    exact ⟨fuel, c, fun extra => FindCommonAncestor_loop_mono G fuel _ c hc extra⟩
  · intro l hl
    constructor
    · intro c hc fuel
      simp [MergeResolver.FindCommonAncestor_loop, hc]
    · intro hlen
      obtain ⟨e, next, hl1, _, _, hmax, hnext, hFnext, _, hmem, _, _, hloop⟩ :=
        FindCommonAncestor_iteration G hG l hl hlen
      refine ⟨e, next, hl1, hmax, hnext, hFnext, ?_, hloop⟩
      intro x hx
      rcases hmem x hx with h | ⟨_, p, hp, hq, _⟩
      · exact Or.inl h
      · exact Or.inr ⟨p, hp, hq⟩

/-- On the example graph, for the heads `X` and `Y`: the loop starts from the
set `X`, `Y` and returns `R` after 5 iterations, and after more. -/
theorem FindCommonAncestor_terminates_witness :
    GenerationsDecrease Example.graph ∧
    Stored Example.graph Example.commitX ∧
    Stored Example.graph Example.commitY ∧
    MergeResolver.setEmplace Example.commitY (MergeResolver.setEmplace Example.commitX []) =
      [Example.commitX, Example.commitY] ∧
    MergeResolver.IsFrontier Example.graph
      (MergeResolver.setEmplace Example.commitY (MergeResolver.setEmplace Example.commitX [])) ∧
    (∃ (fuel : Nat) (c : Commit), ∀ extra : Nat,
      MergeResolver.FindCommonAncestor Example.graph (fuel + extra) Example.commitX
        Example.commitY = some c) ∧
    MergeResolver.FindCommonAncestor Example.graph 4 Example.commitX Example.commitY = none ∧
    MergeResolver.FindCommonAncestor Example.graph 5 Example.commitX Example.commitY =
      some Example.commitR :=
  ⟨graph_GenerationsDecrease, by decide, by decide, by decide,
   (FindCommonAncestor_terminates Example.graph Example.commitX Example.commitY
      graph_GenerationsDecrease (by decide) (by decide)).1,
   (FindCommonAncestor_terminates Example.graph Example.commitX Example.commitY
      graph_GenerationsDecrease (by decide) (by decide)).2.1,
   by decide, by decide⟩

/-- In a graph whose generations decrease, a proper ancestor has a smaller
generation. -/
theorem ancestor_generation (G : CommitStorage) (hG : GenerationsDecrease G)
    (a c : CommitId) (h : IsAncestorOrSelf G a c) (ca cc : Commit)
    (ha : (G.GetCommitSynchronous a).2 = some ca)
    (hc : (G.GetCommitSynchronous c).2 = some cc) :
    a = c ∨ ca.generation < cc.generation := by
  induction h generalizing cc with
  | self => exact Or.inl rfl
  | parent c p commit hget hp hanc ih =>
    right
    rw [hc] at hget
    have hcc : cc = commit := Option.some.inj hget
    subst hcc
    obtain ⟨q, hq, hqg⟩ := (hG c cc hc).2 p hp
    rcases ih q hq with h | h
    · subst h
      rw [ha] at hq
      have : ca = q := Option.some.inj hq
      rw [this]
      exact hqg
    · omega

/-- A commit that descends from another is joined to it by a parent path. -/
theorem path_of_ancestor (G : CommitStorage) (a c : CommitId) (h : IsAncestorOrSelf G a c) :
    ∃ path : List CommitId, IsParentPath G path ∧ path.head? = some c ∧
      path.getLast? = some a := by
  induction h with
  | self => exact ⟨[a], IsParentPath.single a, rfl, rfl⟩
  | parent c p commit hget hp hanc ih =>
    obtain ⟨path, hpath, hhead, hlast⟩ := ih
    cases path with
    | nil => simp at hhead
    | cons x rest =>
      simp only [List.head?_cons, Option.some.injEq] at hhead
      subst hhead
      refine ⟨c :: x :: rest, IsParentPath.cons c x rest commit hget hp hpath, rfl, ?_⟩
      rw [List.getLast?_cons_cons]
      exact hlast

/-- Every commit on a parent path is an ancestor of the first one, or is it. -/
theorem ancestor_of_mem_path (G : CommitStorage) (path : List CommitId)
    (hpath : IsParentPath G path) (head x : CommitId) (hhead : path.head? = some head)
    (hx : x ∈ path) : IsAncestorOrSelf G x head := by
  induction hpath generalizing head with
  | single c =>
    simp only [List.head?_cons, Option.some.injEq] at hhead
    simp only [List.mem_singleton] at hx
    subst hhead
    subst hx
    exact IsAncestorOrSelf.self _
  | cons c p rest commit hget hp hrest ih =>
    simp only [List.head?_cons, Option.some.injEq] at hhead
    subst hhead
    rcases List.mem_cons.mp hx with h | h
    · subst h
      exact IsAncestorOrSelf.self _
    · exact IsAncestorOrSelf.parent x c p commit hget hp (ih p rfl h)

/-- A commit on a parent path that is not where the path ends is followed on
the path by one of its parents. -/
theorem path_next (G : CommitStorage) (path : List CommitId) (hpath : IsParentPath G path)
    (x : CommitId) (hx : x ∈ path) (hlast : path.getLast? ≠ some x) :
    ∃ (commit : Commit) (p : CommitId),
      (G.GetCommitSynchronous x).2 = some commit ∧ p ∈ commit.parent_ids ∧ p ∈ path := by
  induction hpath with
  | single c =>
    simp only [List.mem_singleton] at hx
    subst hx
    exact absurd rfl hlast
  | cons c p rest commit hget hp hrest ih =>
    by_cases hxc : x = c
    · subst hxc
      exact ⟨commit, p, hget, hp, by simp⟩
    · have hx2 : x ∈ p :: rest := by
        rcases List.mem_cons.mp hx with h | h
        · exact absurd h hxc
        · exact h
      rw [List.getLast?_cons_cons] at hlast
      obtain ⟨commit2, p2, h1, h2, h3⟩ := ih hx2 hlast
      exact ⟨commit2, p2, h1, h2, List.mem_cons_of_mem _ h3⟩

/-- One iteration of the loop keeps the set on every parent path from `head` to
the root. -/
theorem Covers_iteration (G : CommitStorage) (root : Commit) (hG : GenerationsDecrease G)
    (hroot : SingleRoot G root) (l : List Commit) (hF : MergeResolver.IsFrontier G l)
    (hlen : l.length ≠ 1) (head : Commit) (hcov : MergeResolver.Covers G root l head)
    (e : Commit) (next : List Commit) (hl : l = l.dropLast ++ [e]) (hse : Stored G e)
    (hlt : ∀ x ∈ l.dropLast, GenerationComparator x e = true)
    (hsub : ∀ x ∈ l.dropLast, x ∈ next)
    (hrep : ∀ p ∈ e.parent_ids, ∃ y ∈ next, y.id = p) :
    MergeResolver.Covers G root next head := by
  intro path hpath hhead hlast
  obtain ⟨x, hx, hxp⟩ := hcov path hpath hhead hlast
  rw [hl] at hx
  rcases List.mem_append.mp hx with hx | hx
  · exact ⟨x, hsub x hx, hxp⟩
  · have hxe : x = e := List.mem_singleton.mp hx
    subst hxe
    -- the commit taken out is not the root: another commit of the set comes before it
    have hne : x.id ≠ root.id := by
      intro hid
      have hxr : x = root := Stored_eq_of_id G x root hse hroot.1 hid
      have hdne : l.dropLast ≠ [] := by
        intro hd
        rw [hd] at hl
        apply hlen
        rw [hl]
        rfl
      obtain ⟨y, hy⟩ := List.exists_mem_of_ne_nil _ hdne
      have hys : Stored G y := hF.2.2 y (List.mem_of_mem_dropLast hy)
      have hcmp := hlt y hy
      have hanc := hroot.2.2 y.id y hys
      rcases ancestor_generation G hG root.id y.id hanc root y hroot.1 hys with h | h
      · have hyr : y = root := Stored_eq_of_id G y root hys hroot.1 h.symm
        rw [hyr, hxr, GenerationComparator_irrefl] at hcmp
        exact Bool.false_ne_true hcmp
      · have := (GenerationComparator_iff y x).mp hcmp
        rw [hxr] at this
        omega
    have hlast2 : path.getLast? ≠ some x.id := by
      rw [hlast]
      intro h
      exact hne (Option.some.inj h).symm
    obtain ⟨commit, p, hget, hp, hpp⟩ := path_next G path hpath x.id hxp hlast2
    have hcx : commit = x := by
      unfold Stored at hse
      rw [hse] at hget
      exact (Option.some.inj hget).symm
    subst hcx
    obtain ⟨y, hy, hyid⟩ := hrep p hp
    exact ⟨y, hy, by rw [hyid]; exact hpp⟩

/-- What the loop returns lies on every parent path from `head` to the root, if
the set it starts from does. -/
theorem FindCommonAncestor_loop_covers (G : CommitStorage) (root : Commit)
    (hG : GenerationsDecrease G) (hroot : SingleRoot G root) (head : Commit) (fuel : Nat)
    (l : List Commit) (c : Commit) (hF : MergeResolver.IsFrontier G l)
    (hcov : MergeResolver.Covers G root l head)
    (h : MergeResolver.FindCommonAncestor_loop G fuel l = some c) :
    MergeResolver.Covers G root [c] head ∧ Stored G c := by
  induction fuel generalizing l with
  | zero => simp [MergeResolver.FindCommonAncestor_loop] at h
  | succ n ih =>
    by_cases hlen : l.length = 1
    · obtain ⟨y, hy⟩ := List.length_eq_one.mp hlen
      subst hy
      simp only [MergeResolver.FindCommonAncestor_loop, List.length_singleton, ↓reduceIte,
        List.getLast?_singleton, Option.some.injEq] at h
      subst h
      exact ⟨hcov, hF.2.2 y (List.mem_singleton_self _)⟩
    · obtain ⟨e, next, hl, hse, hlt, _, _, hFnext, hsub, _, hrep, _, hloop⟩ :=
        FindCommonAncestor_iteration G hG l hF hlen
      rw [hloop n] at h
      exact ih next hFnext
        (Covers_iteration G root hG hroot l hF hlen head hcov e next hl hse hlt hsub hrep) h

/-- The set `FindCommonAncestor` starts from is on every parent path from each
of the two heads. -/
theorem FindCommonAncestor_initial_covers (G : CommitStorage) (root head1 head2 : Commit) :
    MergeResolver.Covers G root
      (MergeResolver.setEmplace head2 (MergeResolver.setEmplace head1 [])) head1 ∧
    MergeResolver.Covers G root
      (MergeResolver.setEmplace head2 (MergeResolver.setEmplace head1 [])) head2 := by
  constructor
  · intro path _ hhead _
    refine ⟨head1, setEmplace_subset _ _ _ (by simp [MergeResolver.setEmplace]), ?_⟩
    exact List.mem_of_mem_head? hhead
  · intro path _ hhead _
    obtain ⟨y, hy, _, hyid⟩ :=
      setEmplace_represents head2 (MergeResolver.setEmplace head1 [])
    exact ⟨y, hy, by rw [hyid]; exact List.mem_of_mem_head? hhead⟩

/-- The set `FindCommonAncestor` starts from does not depend on the order of
the two commits, for commits of the graph. -/
theorem setEmplace_comm (G : CommitStorage) (head1 head2 : Commit) (h1 : Stored G head1)
    (h2 : Stored G head2) :
    MergeResolver.setEmplace head2 (MergeResolver.setEmplace head1 []) =
      MergeResolver.setEmplace head1 (MergeResolver.setEmplace head2 []) := by
  simp only [MergeResolver.setEmplace]
  by_cases h21 : GenerationComparator head2 head1 = true
  · have h12 := GenerationComparator_asymm _ _ h21
    simp [h21, h12]
  · by_cases h12 : GenerationComparator head1 head2 = true
    · simp [h21, h12]
    · have := GenerationComparator_equiv head1 head2 (by simpa using h12) (by simpa using h21)
      have heq : head1 = head2 := Stored_eq_of_id G head1 head2 h1 h2 this.2
      simp [h21, h12, heq]

/-- Claim C29: in a graph whose generations decrease from child to parent and
whose commits all descend from the parentless commit `root`, for two commits
`head1` and `head2` of the graph: `FindCommonAncestor` returns a commit (for
enough iterations, and the same for more); that commit is `head1` or an
ancestor of it, and `head2` or an ancestor of it, and it lies on every parent
path from `head1` to the root and on every parent path from `head2` to the
root.  `FindCommonAncestor` of a commit and itself returns that commit, and the
result does not depend on the order of the two commits. -/
theorem FindCommonAncestor_common_ancestor (G : CommitStorage) (root head1 head2 : Commit)
    (hG : GenerationsDecrease G) (hroot : SingleRoot G root) (h1 : Stored G head1)
    (h2 : Stored G head2) :
    (∃ (fuel : Nat) (c : Commit),
      (∀ extra : Nat,
        MergeResolver.FindCommonAncestor G (fuel + extra) head1 head2 = some c) ∧
      IsAncestorOrSelf G c.id head1.id ∧ IsAncestorOrSelf G c.id head2.id ∧
      OnEveryPath G root c head1 ∧ OnEveryPath G root c head2) ∧
    (∀ fuel : Nat, MergeResolver.FindCommonAncestor G (fuel + 1) head1 head1 = some head1) ∧
    (∀ fuel : Nat, MergeResolver.FindCommonAncestor G fuel head1 head2 =
      MergeResolver.FindCommonAncestor G fuel head2 head1) := by
  have hF := FindCommonAncestor_initial G head1 head2 h1 h2
  refine ⟨?_, ?_, ?_⟩
  · obtain ⟨n, hn⟩ : ∃ n : Nat, ∀ x ∈ MergeResolver.setEmplace head2
        (MergeResolver.setEmplace head1 []), x.generation ≤ n := by
      refine ⟨max head1.generation head2.generation, ?_⟩
      intro x hx
      rcases setEmplace_mem _ _ _ hx with h | h
      · rw [h]; exact Nat.le_max_right _ _
      · rcases setEmplace_mem _ _ _ h with h | h
        · rw [h]; exact Nat.le_max_left _ _
        · cases h
    obtain ⟨fuel, c, hc⟩ := FindCommonAncestor_loop_terminates G hG n _ _ hF hn (Nat.le_refl _)
    have hcov := FindCommonAncestor_initial_covers G root head1 head2
    have hc1 := FindCommonAncestor_loop_covers G root hG hroot head1 fuel _ c hF hcov.1 hc
    have hc2 := FindCommonAncestor_loop_covers G root hG hroot head2 fuel _ c hF hcov.2 hc
    have hon : ∀ head : Commit, MergeResolver.Covers G root [c] head →
        OnEveryPath G root c head := by
      intro head hcv path hpath hhead hlast
      obtain ⟨x, hx, hxp⟩ := hcv path hpath hhead hlast
      rw [List.mem_singleton.mp hx] at hxp
      exact hxp
    have hanc : ∀ head : Commit, Stored G head → OnEveryPath G root c head →
        IsAncestorOrSelf G c.id head.id := by
      intro head hs ho
      obtain ⟨path, hpath, hhead, hlast⟩ :=
        path_of_ancestor G root.id head.id (hroot.2.2 head.id head hs)
      exact ancestor_of_mem_path G path hpath head.id c.id hhead (ho path hpath hhead hlast)
    exact ⟨fuel, c, fun extra => FindCommonAncestor_loop_mono G fuel _ c hc extra,
      hanc head1 h1 (hon head1 hc1.1), hanc head2 h2 (hon head2 hc2.1),
      hon head1 hc1.1, hon head2 hc2.1⟩
  · intro fuel
    simp [MergeResolver.FindCommonAncestor, MergeResolver.setEmplace,
      GenerationComparator_irrefl, MergeResolver.FindCommonAncestor_loop]
  · intro fuel
    unfold MergeResolver.FindCommonAncestor
    rw [setEmplace_comm G head1 head2 h1 h2]

/-- Every commit of the example graph descends from `R`, which has no
parent. -/
theorem graph_SingleRoot : SingleRoot Example.graph Example.commitR := by
  have hRA : IsAncestorOrSelf Example.graph "R" "A" :=
    IsAncestorOrSelf.parent "R" "A" "R" Example.commitA (by decide) (by decide)
      (IsAncestorOrSelf.self "R")
  have hRB : IsAncestorOrSelf Example.graph "R" "B" :=
    IsAncestorOrSelf.parent "R" "B" "R" Example.commitB (by decide) (by decide)
      (IsAncestorOrSelf.self "R")
  refine ⟨by decide, rfl, ?_⟩
  intro id c h
  have hc : c ∈ [Example.commitR, Example.commitA, Example.commitB, Example.commitX,
      Example.commitY] := by
    simp only [Example.graph] at h
    split at h
    · rename_i c1 hfind
      simp only [Option.some.injEq] at h
      subst h
      exact List.mem_of_find?_eq_some hfind
    · simp at h
  simp only [List.mem_cons, List.mem_singleton, List.not_mem_nil, or_false] at hc
  rcases hc with rfl | rfl | rfl | rfl | rfl
  · exact IsAncestorOrSelf.self "R"
  · exact hRA
  · exact hRB
  · exact IsAncestorOrSelf.parent "R" "X" "A" Example.commitX (by decide) (by decide) hRA
  · exact IsAncestorOrSelf.parent "R" "Y" "A" Example.commitY (by decide) (by decide) hRA

/-- On the example graph, for the heads `X` and `Y`: `FindCommonAncestor`
returns `R`, whichever head comes first, and `X` for `X` and `X`. -/
theorem FindCommonAncestor_common_ancestor_witness :
    GenerationsDecrease Example.graph ∧
    SingleRoot Example.graph Example.commitR ∧
    Stored Example.graph Example.commitX ∧
    Stored Example.graph Example.commitY ∧
    (∃ (fuel : Nat) (c : Commit),
      (∀ extra : Nat,
        MergeResolver.FindCommonAncestor Example.graph (fuel + extra) Example.commitX
          Example.commitY = some c) ∧
      IsAncestorOrSelf Example.graph c.id Example.commitX.id ∧
      IsAncestorOrSelf Example.graph c.id Example.commitY.id ∧
      OnEveryPath Example.graph Example.commitR c Example.commitX ∧
      OnEveryPath Example.graph Example.commitR c Example.commitY) ∧
    MergeResolver.FindCommonAncestor Example.graph 5 Example.commitX Example.commitY =
      some Example.commitR ∧
    MergeResolver.FindCommonAncestor Example.graph 5 Example.commitY Example.commitX =
      some Example.commitR ∧
    MergeResolver.FindCommonAncestor Example.graph 1 Example.commitX Example.commitX =
      some Example.commitX :=
  ⟨graph_GenerationsDecrease, graph_SingleRoot, by decide, by decide,
   (FindCommonAncestor_common_ancestor Example.graph Example.commitR Example.commitX
      Example.commitY graph_GenerationsDecrease graph_SingleRoot (by decide) (by decide)).1,
   by decide, by decide,
   (FindCommonAncestor_common_ancestor Example.graph Example.commitR Example.commitX
      Example.commitY graph_GenerationsDecrease graph_SingleRoot (by decide)
      (by decide)).2.1 0⟩


/-! ## The claim on the conflict check of an idle resolver -/

end ledger
